import Mathlib

/-!
# DETECTRA Gateway v2.0: LoRa protocol layer (`lora_protocol.cpp`, `lora_protocol.h`)

A shallow embedding of the protocol functions and the properties proved about them.

Modelling conventions.

* An Arduino `String` is a `List Char`; every `Char` stands for one `char` of the buffer.
  The buffer may hold the NUL character (`NUL`) before its end: the operations that go
  through the C library (`strchr`, `strrchr`, `strcmp`, `strncmp`, the `tolower` loop, `atol`)
  stop at the first NUL, while `length`, `charAt`, `substring` and concatenation go by the
  stored length.
* C `int` / `long` values are `Int`, `unsigned long` values are `Nat`; a conversion between
  them is written out where the source performs one.  String lengths on the target are far
  below `2 ^ 31`, so index arithmetic is not reduced modulo the word size.
* `-1` is kept as the "not found" result of `indexOf` / `lastIndexOf`, as in the source.
* The HMAC-SHA256 primitive of mbedTLS is not part of the repository; it is a parameter
  `hmacSha256 key message` returning the 32-byte digest.
* The reading of the clock (`getCurrentTimestamp()`, which depends on `millis()`) is passed to
  `buildMessage` as an explicit argument.
-/

namespace Detectra

/-! ## The Arduino `String` operations used by the protocol code -/

/-- An Arduino `String`. -/
abbrev AString := List Char

/-- Conversion of an `int` argument to the `unsigned int` parameter of the `String` methods:
a negative value wraps around to a value above every string length. -/
def toUnsigned (x : Int) : Nat :=
  if x < 0 then (x + 4294967296).toNat else x.toNat

/-- The NUL character, which ends a C string. -/
def NUL : Char := Char.ofNat 0

/-- The C string held by a buffer: its characters before the first NUL. -/
def cstr (s : List Char) : List Char :=
  s.takeWhile (fun c => c != NUL)

/-- `strchr(p, ch)` on the buffer `p` (which is followed by a terminating NUL): offset of
the first occurrence of `ch` before the first NUL, if there is one; the search for NUL
itself finds the terminator. -/
def strchr : List Char → Char → Option Nat
  | [], ch => if ch = NUL then some 0 else none
  | c :: cs, ch =>
    if c = ch then some 0
    else if c = NUL then none
    else (strchr cs ch).map (· + 1)

/-- `strrchr(p, ch)` on the buffer `p` (which is followed by a terminating NUL): offset of
the last occurrence of `ch` before the first NUL, if there is one; the search for NUL itself
finds the terminator. -/
def strrchr : List Char → Char → Option Nat
  | [], ch => if ch = NUL then some 0 else none
  | c :: cs, ch =>
    if c = NUL then (if ch = NUL then some 0 else none)
    else
      match strrchr cs ch with
      | some k => some (k + 1)
      | none => if c = ch then some 0 else none

/-- `String::indexOf(char ch, unsigned int fromIndex)`: `strchr` from `fromIndex` on. -/
def indexOf (s : AString) (ch : Char) (fromIndex : Int) : Int :=
  if toUnsigned fromIndex ≥ s.length then -1
  else
    match strchr (s.drop (toUnsigned fromIndex)) ch with
    | none => -1
    | some k => (toUnsigned fromIndex + k : Nat)

/-- `String::lastIndexOf(char ch)`, that is `lastIndexOf(ch, len - 1)`: `-1` on the empty
string (the start index wraps around), else `strrchr` on the buffer. -/
def lastIndexOf (s : AString) (ch : Char) : Int :=
  if s.length = 0 then -1
  else
    match strrchr s ch with
    | none => -1
    | some k => (k : Nat)

/-- `String::substring(unsigned int left, unsigned int right)`: the characters are copied
by count. -/
def substring (s : AString) (left right : Int) : AString :=
  let l := toUnsigned left
  let r := toUnsigned right
  let lo := if l > r then r else l
  let hi := if l > r then l else r
  if lo ≥ s.length then []
  else (s.take (if hi > s.length then s.length else hi)).drop lo

/-- `String::substring(unsigned int beginIndex)`, that is `substring(beginIndex, len)`. -/
def substringFrom (s : AString) (beginIndex : Int) : AString :=
  substring s beginIndex (s.length : Nat)

/-- `String::charAt(unsigned int loc)`: the NUL character outside the buffer. -/
def charAt (s : AString) (loc : Nat) : Char :=
  s.getD loc NUL

/-- `strncmp(a, b, n) == 0` on two buffers, each followed by a terminating NUL: the first
`n` characters agree, or both strings end together before that. -/
def strncmpEq : List Char → List Char → Nat → Bool
  | _, _, 0 => true
  | a, b, n + 1 =>
    if a.headD NUL ≠ b.headD NUL then false
    else if a.headD NUL = NUL then true
    else strncmpEq a.tail b.tail n

/-- `String::startsWith(const String&)`: false on a shorter string, else `strncmp` over the
length of the prefix. -/
def startsWith (s pre : AString) : Bool :=
  if s.length < pre.length then false else strncmpEq s pre pre.length

/-- `String::toLowerCase()`: `tolower` on every character up to the first NUL. -/
def toLowerCase : AString → AString
  | [] => []
  | c :: cs => if c = NUL then c :: cs else Char.toLower c :: toLowerCase cs

/-- `String::equals(const char*)`, the `==` against a string literal: `strcmp` of the two C
strings. -/
def equalsCStr (s lit : AString) : Bool :=
  cstr s == cstr lit

/-- `String::equals(const String&)`, the `==` of two `String`s: equal lengths and `strcmp`
of the two C strings. -/
def equalsString (a b : AString) : Bool :=
  decide (a.length = b.length) && cstr a == cstr b

/-- `String::isEmpty()`. -/
def isEmpty (s : AString) : Bool :=
  s.length == 0

/-! ## Number formatting and parsing of the C library -/

/-- The digit characters used by the decimal and `%x` conversions. -/
def hexDigit : Nat → Char
  | 0 => '0' | 1 => '1' | 2 => '2' | 3 => '3' | 4 => '4' | 5 => '5' | 6 => '6' | 7 => '7'
  | 8 => '8' | 9 => '9' | 10 => 'a' | 11 => 'b' | 12 => 'c' | 13 => 'd' | 14 => 'e'
  | _ => 'f'

/-- Digit generation of `ultoa` / `printf`: the digits of `n` in base `b`, most significant
first, prepended to `acc`; at least one digit is produced. -/
def digitsLoop (b : Nat) : Nat → Nat → List Char → List Char
  | 0, _, acc => acc
  | fuel + 1, n, acc =>
    if n / b = 0 then hexDigit (n % b) :: acc
    else digitsLoop b fuel (n / b) (hexDigit (n % b) :: acc)

/-- `String(unsigned long)`: the decimal rendering. -/
def decimal (n : Nat) : AString :=
  digitsLoop 10 (n + 1) n []

/-- Left padding with `'0'` up to a minimum width. -/
def zeroPad (width : Nat) (s : List Char) : List Char :=
  List.replicate (width - s.length) '0' ++ s

/-- `sprintf(buf, "%02x", v)` for an unsigned value. -/
def sprintf02x (v : Nat) : AString :=
  zeroPad 2 (digitsLoop 16 (v + 1) v [])

/-- `sprintf(buf, "%03d", v)` for an `int`: the sign counts towards the width. -/
def sprintf03d (v : Int) : AString :=
  if v < 0 then '-' :: zeroPad 2 (decimal v.natAbs) else zeroPad 3 (decimal v.toNat)

/-- `isspace` in the C locale. -/
def isSpace (c : Char) : Bool :=
  c = ' ' || (9 ≤ c.toNat && c.toNat ≤ 13)

/-- `isdigit`. -/
def isDigit (c : Char) : Bool :=
  48 ≤ c.toNat && c.toNat ≤ 57

/-- The digit loop of `strtol`: accumulates the leading decimal digits. -/
def atolDigits : List Char → Nat → Nat
  | [], acc => acc
  | c :: cs, acc => if isDigit c then atolDigits cs (acc * 10 + (c.toNat - 48)) else acc

/-- Saturation of `strtol` to the range of a 32-bit `long`. -/
def clampLong (v : Int) : Int :=
  if v > 2147483647 then 2147483647 else if v < -2147483648 then -2147483648 else v

/-- `atol(p)`: leading white space, an optional sign, then decimal digits; `0` when there is
no digit. -/
def atol (p : List Char) : Int :=
  match p.dropWhile isSpace with
  | '-' :: rest => clampLong (-(atolDigits rest 0 : Nat))
  | '+' :: rest => clampLong (atolDigits rest 0 : Nat)
  | rest => clampLong (atolDigits rest 0 : Nat)

/-- `String::toInt()`. -/
def toInt (s : AString) : Int :=
  atol s

/-! ## Protocol constants and data structures (`lora_protocol.h`) -/

/-- `#define TIMESTAMP_TOLERANCE 60`. -/
def TIMESTAMP_TOLERANCE : Nat := 60

/-- `#define HMAC_LENGTH 16`. -/
def HMAC_LENGTH : Nat := 16

/-- The `byte hmacResult[32]` buffer filled by `mbedtls_md_hmac_finish`. -/
abbrev Digest := Fin 32 → Fin 256

/-- The anonymous member `data` of `LoRaMessage`. -/
structure DataPayload where
  tableId : AString
  position : AString
  detections : AString
  positionIndex : Int
  totalPositions : Int
  deriving DecidableEq

/-- The anonymous member `health` of `LoRaMessage`. -/
structure HealthPayload where
  battery : Int
  rssi : Int
  snr : Int
  deriving DecidableEq

/-- The `struct LoRaMessage`. -/
structure LoRaMessage where
  senderId : AString
  command : AString
  targetId : AString
  sequence : AString
  timestamp : Nat
  payload : AString
  hmac : AString
  data : DataPayload
  health : HealthPayload
  valid : Bool
  deriving DecidableEq

/-- The state read by `getCurrentTimestamp`: the file-scope `timestampOffset` and the current
value of `millis()`. -/
structure Clock where
  timestampOffset : Nat
  millis : Nat
  deriving DecidableEq

/-! ## Timestamp management -/

/-- `getCurrentTimestamp()`: `timestampOffset + (millis() / 1000)` in `unsigned long`. -/
def getCurrentTimestamp (clk : Clock) : Nat :=
  (clk.timestampOffset + clk.millis / 1000) % 4294967296

/-- The cast `(long)` of an `unsigned long` on the 32-bit target: values from `2 ^ 31` on
become negative. -/
def toLong (u : Nat) : Int :=
  if u % 4294967296 < 2147483648 then ((u % 4294967296 : Nat) : Int)
  else ((u % 4294967296 : Nat) : Int) - 4294967296

/-- A `long` result reduced to 32 bits: an overflowing operation wraps around, as the
two's-complement target does. -/
def wrapLong (v : Int) : Int :=
  (v + 2147483648) % 4294967296 - 2147483648

/-- `abs(x)` on a `long`, that is `x > 0 ? x : -x`. -/
def absLong (x : Int) : Int :=
  if x > 0 then x else wrapLong (-x)

/-- `validateTimestamp(messageTimestamp, currentTimestamp)`. -/
def validateTimestamp (messageTimestamp currentTimestamp : Nat) : Bool :=
  let diff := wrapLong (toLong currentTimestamp - toLong messageTimestamp)
  decide (absLong diff ≤ (TIMESTAMP_TOLERANCE : Int))

/-! ## HMAC calculation -/

section Hmac

variable (hmacSha256 : AString → AString → Digest)

/-- `calculateHMAC(message, secret)`: the digest of `message` under the key `secret`, of which
the first 8 bytes are appended as `%02x` to the initially empty `hmac`. -/
def calculateHMAC (message secret : AString) : AString :=
  let hmacResult := hmacSha256 secret message
  (List.finRange 8).foldl
    (fun hmac i => hmac ++ sprintf02x (hmacResult (Fin.castLE (by decide) i)).val) []

/-- `verifyHMAC(message, secret)`. -/
def verifyHMAC (message secret : AString) : Bool :=
  let lastColon := lastIndexOf message ':'
  if lastColon = -1 then false
  else
    let messageWithoutHMAC := substring message 0 lastColon
    let receivedHMAC := substringFrom message (lastColon + 1)
    let expectedHMAC := calculateHMAC hmacSha256 messageWithoutHMAC secret
    equalsString (toLowerCase receivedHMAC) (toLowerCase expectedHMAC)

/-! ## Message building -/

/-- `buildMessage(senderId, command, targetId, sequence, payload, secret)`, with the clock it
reads as first argument. -/
def buildMessage (clk : Clock) (senderId command targetId sequence payload secret : AString) :
    AString :=
  let timestamp := getCurrentTimestamp clk
  let message := senderId ++ ":".toList ++ command ++ ":".toList ++ targetId ++ ":".toList ++
    sequence ++ ":".toList ++ decimal timestamp ++ ":".toList ++ payload
  let hmac := calculateHMAC hmacSha256 message secret
  message ++ ":".toList ++ hmac

end Hmac

/-! ## Message parsing -/

/-- The declaration `LoRaMessage msg;`: the `String` members are constructed empty, the scalar
members keep whatever the storage `stack` held. -/
def declareMessage (stack : LoRaMessage) : LoRaMessage :=
  { stack with
    senderId := [], command := [], targetId := [], sequence := [], payload := [], hmac := [],
    data := { stack.data with tableId := [], position := [], detections := [] } }

/-- The colon counting loop of `parseMessage` (lines 100-103). -/
def countColons (rawMessage : AString) : Nat :=
  (List.range rawMessage.length).foldl
    (fun colonCount i => if charAt rawMessage i = ':' then colonCount + 1 else colonCount) 0

/-- The field loop of `parseMessage` (lines 115-129), with `n` iterations left to run from
loop counter `i`; `none` is the "Parsing error" return. -/
def fieldLoop (rawMessage : AString) : Nat → Nat → Int → List AString → Option (List AString)
  | 0, _, _, fields => some fields
  | n + 1, i, lastIdx, fields =>
    let idx := indexOf rawMessage ':' lastIdx
    if idx = -1 ∧ i < 5 then none
    else if i = 5 then
      fieldLoop rawMessage n (i + 1) lastIdx (fields.set i (substringFrom rawMessage lastIdx))
    else
      fieldLoop rawMessage n (i + 1) (idx + 1) (fields.set i (substring rawMessage lastIdx idx))

/-- Conversion of the `long` returned by `toInt()` to `unsigned long`. -/
def toUnsignedLong (v : Int) : Nat :=
  (v % 4294967296).toNat

/-- `parseMessage(rawMessage)`; `stack` is the indeterminate initial content of the local
`msg`. -/
def parseMessage (stack : LoRaMessage) (rawMessage : AString) : LoRaMessage :=
  let msg := { declareMessage stack with valid := false }
  let colonCount := countColons rawMessage
  if colonCount < 5 then msg
  else
    match fieldLoop rawMessage 6 0 0 (List.replicate 6 []) with
    | none => msg
    | some fields =>
      { msg with
        senderId := fields.getD 0 [],
        command := fields.getD 1 [],
        targetId := fields.getD 2 [],
        sequence := fields.getD 3 [],
        timestamp := toUnsignedLong (toInt (fields.getD 4 [])),
        payload := fields.getD 5 [],
        hmac := [],
        valid := true }

/-- The colon position loop of `parseDataPayload` (lines 162-173): the number of colons and
the array `positions`, which starts as `{-1, -1, -1, -1}`. -/
def scanColons (payload : AString) : Nat × List Int :=
  (List.range payload.length).foldl
    (fun st i =>
      if charAt payload i = ':' then
        (st.1 + 1, if st.1 < 4 then st.2.set st.1 (i : Int) else st.2)
      else st)
    (0, [-1, -1, -1, -1])

/-- `parseDataPayload(msg)`. -/
def parseDataPayload (msg : LoRaMessage) : LoRaMessage :=
  if equalsCStr msg.payload "null".toList = true ∨ isEmpty msg.payload = true then msg
  else
    let payload := msg.payload
    let colonCount := (scanColons payload).1
    let positions := fun k => (scanColons payload).2.getD k (-1)
    if colonCount ≥ 2 then
      let msg := { msg with data := { msg.data with
        tableId := substring payload 0 (positions 0) } }
      let msg := { msg with data := { msg.data with
        position := substring payload (positions 0 + 1) (positions 1) } }
      if colonCount ≥ 3 then
        let msg := { msg with data := { msg.data with
          detections := substring payload (positions 1 + 1) (positions 2) } }
        if colonCount ≥ 3 then
          let extra := substringFrom payload (positions 2 + 1)
          if indexOf extra '/' 0 ≠ -1 then
            let slashIdx := indexOf extra '/' 0
            let msg := { msg with data := { msg.data with
              positionIndex := toInt (substring extra 0 slashIdx) } }
            { msg with data := { msg.data with
              totalPositions := toInt (substringFrom extra (slashIdx + 1)) } }
          else msg
        else msg
      else
        { msg with data := { msg.data with
          detections := substringFrom payload (positions 1 + 1) } }
    else msg

/-- The field dispatch of `parseHealthPayload` (lines 232-239). -/
def parseHealthField (field : AString) (health : HealthPayload) : HealthPayload :=
  if startsWith field "bat_".toList then
    { health with battery := toInt (substringFrom field 4) }
  else if startsWith field "rssi_".toList then
    { health with rssi := toInt (substringFrom field 5) }
  else if startsWith field "snr_".toList then
    { health with snr := toInt (substringFrom field 4) }
  else health

/-- The `while` loop of `parseHealthPayload` (lines 220-240), run for at most `fuel`
iterations; `none` when the fuel runs out before the loop condition fails. -/
def healthLoop (payload : AString) : Nat → Int → HealthPayload → Option HealthPayload
  | fuel, startIdx, health =>
    if startIdx < (payload.length : Nat) then
      match fuel with
      | 0 => none
      | fuel + 1 =>
        let colonIdx := indexOf payload ':' startIdx
        if colonIdx = -1 then
          healthLoop payload fuel (payload.length : Nat)
            (parseHealthField (substringFrom payload startIdx) health)
        else
          healthLoop payload fuel (colonIdx + 1)
            (parseHealthField (substring payload startIdx colonIdx) health)
    else some health

/-- `parseHealthPayload(msg)`; the loop is given one unit of fuel per character of the
payload. -/
def parseHealthPayload (msg : LoRaMessage) : Option LoRaMessage :=
  if equalsCStr msg.payload "null".toList = true ∨ isEmpty msg.payload = true then
    some { msg with health := { battery := -1, rssi := -999, snr := -999 } }
  else
    let msg := { msg with health := { battery := -1, rssi := -999, snr := -999 } }
    (healthLoop msg.payload msg.payload.length 0 msg.health).map
      fun health => { msg with health := health }

/-! ## Utility functions -/

/-- `generateSequence(counter)`: the returned string and the updated counter. -/
def generateSequence (counter : Int) : AString × Int :=
  let counter := counter + 1
  let counter := if counter > 999 then 1 else counter
  (sprintf03d counter, counter)

/-! ## Reference notions used in the statements -/

/-- The two-digit lowercase hexadecimal rendering of a byte value. -/
def hexByte (b : Nat) : AString :=
  [hexDigit (b / 16), hexDigit (b % 16)]

/-- The first 8 bytes of a digest, in order. -/
def digestPrefix (d : Digest) : List Nat :=
  [d 0, d 1, d 2, d 3, d 4, d 5, d 6, d 7].map Fin.val

/-- The six-field body `SENDER:COMMAND:TARGET:SEQUENCE:TIMESTAMP:PAYLOAD` with timestamp `t`. -/
def frameBody (senderId command targetId sequence : AString) (t : Nat) (payload : AString) :
    AString :=
  senderId ++ ':' :: (command ++ ':' :: (targetId ++ ':' :: (sequence ++ ':' ::
    (decimal t ++ ':' :: payload))))

/-- The zero-padded 3-digit decimal string of `k`. -/
def pad3 (k : Nat) : AString :=
  [hexDigit (k / 100), hexDigit (k / 10 % 10), hexDigit (k % 10)]

/-- The counter after `n` successive calls of `generateSequence` that start from `counter`. -/
def counterAfter : Nat → Int → Int
  | 0, counter => counter
  | n + 1, counter => counterAfter n (generateSequence counter).2

/-- The `k`-th call (`k ≥ 1`) in a run of calls of `generateSequence` that starts from
`counter`: the returned string and the counter it leaves. -/
def nthCall (k : Nat) (counter : Int) : AString × Int :=
  generateSequence (counterAfter (k - 1) counter)

/-- The example DATA payload of the specification, with the `1/5` suffix. -/
def examplePayload : AString :=
  "BLR-13-IL-01:left:motherboard:40%,led_on:50%:1/5".toList

/-- The example DATA payload of `lora_protocol.h`, without suffix. -/
def examplePayloadNoSuffix : AString :=
  "BLR-13-IL-01:left:motherboard:40%,led_on:50%".toList

/-- The decimal text of an integer, a negative value written with a leading `'-'`. -/
def renderInt (v : Int) : AString :=
  if v < 0 then '-' :: decimal v.natAbs else decimal v.toNat

/-- The health triple in which every field is unknown. -/
def unknownHealth : HealthPayload :=
  { battery := -1, rssi := -999, snr := -999 }

/-- The fields seen by the token loop of `parseHealthPayload` on the `':'`-separated tokens
of a payload: the tokens themselves, up to the first token that holds a NUL character, from
which on the whole rest of the payload is one field (the search for the next `':'` stops at
the NUL). -/
def scanFields : List AString → List AString
  | [] => []
  | t :: ts => if NUL ∈ t then [List.intercalate [':'] (t :: ts)] else t :: scanFields ts

/-- A text "starts with an optional sign followed by a digit". -/
def startsNumeric : List Char → Bool
  | [] => false
  | c :: rest =>
    if c = '-' ∨ c = '+' then
      match rest with
      | [] => false
      | d :: _ => isDigit d
    else isDigit c

/-- The body of the colon position loop of `parseDataPayload` at index `i` on character `c`. -/
def scanStep (st : Nat × List Int) (i : Nat) (c : Char) : Nat × List Int :=
  if c = ':' then (st.1 + 1, if st.1 < 4 then st.2.set st.1 (i : Int) else st.2) else st

/-- The colon position loop of `parseDataPayload` run over the characters `s` that sit at
the indices `i`, `i + 1`, ... of the payload (an auxiliary form of `scanColons` that follows
the characters instead of the indices). -/
def scanFrom : Nat → List Char → Nat × List Int → Nat × List Int
  | _, [], st => st
  | i, c :: cs, st => scanFrom (i + 1) cs (scanStep st i c)

/-- Two strings are equal up to ASCII letter case: they agree once `A`-`Z` are mapped to
`a`-`z`. -/
def eqIgnoreCase (a b : AString) : Prop :=
  a.map Char.toLower = b.map Char.toLower

/-- A digest function whose output depends on the key only through its length, used to
evaluate the definitions on concrete inputs with two different tags. -/
def lengthDigest : AString → AString → Digest :=
  fun key _ _ => ⟨key.length % 256, Nat.mod_lt _ (by decide)⟩

/-- The byte held by a `char` of a buffer. -/
def charByte (c : Char) : Fin 256 :=
  ⟨c.toNat % 256, Nat.mod_lt _ (by decide)⟩

/-- Exclusive or of two bytes. -/
def xorByte (a b : Fin 256) : Fin 256 :=
  ⟨(a.val ^^^ b.val) % 256, Nat.mod_lt _ (by decide)⟩

/-- The bytes of a digest, in order. -/
def digestBytes (d : Digest) : List (Fin 256) :=
  (List.finRange 32).map d

/-- The key block of the HMAC construction (RFC 2104, as set up by
`mbedtls_md_hmac_starts`) over a hash function `hash` with 64-byte blocks: a key longer than
the block is replaced by its hash, and the key is then filled up to the block length with
zero bytes. -/
def hmacKeyBlock (hash : List (Fin 256) → Digest) (key : List (Fin 256)) : List (Fin 256) :=
  let k := if key.length > 64 then digestBytes (hash key) else key
  k ++ List.replicate (64 - k.length) 0

/-- The HMAC construction over a hash function `hash`,
`hash((K xor opad) ++ hash((K xor ipad) ++ message))` with `K` the key block, `ipad` the byte
`0x36` and `opad` the byte `0x5c`: the digest computed by the calls of `calculateHMAC` when
`hash` is SHA-256. It is one possible value of the parameter `hmacSha256`. -/
def hmacOver (hash : List (Fin 256) → Digest) (secret message : AString) : Digest :=
  let block := hmacKeyBlock hash (secret.map charByte)
  let inner := hash (block.map (xorByte 54) ++ message.map charByte)
  hash (block.map (xorByte 92) ++ digestBytes inner)

/-- The value given to `startIdx` by one iteration of the `while` loop of
`parseHealthPayload` entered at `startIdx` (lines 221-230): the payload length when no `':'`
is found, else the index after the `':'` found. -/
def nextStart (payload : AString) (startIdx : Int) : Int :=
  let colonIdx := indexOf payload ':' startIdx
  if colonIdx = -1 then (payload.length : Nat) else colonIdx + 1

/-- A digest function with constant output, used to evaluate the definitions on concrete
inputs; no statement depends on the choice. -/
def constDigest (b : Fin 256) : AString → AString → Digest :=
  fun _ _ _ => b

/-- A sample content of the storage in which `parseMessage` declares its local `msg`. -/
def sampleStack : LoRaMessage :=
  { senderId := [], command := [], targetId := [], sequence := [], timestamp := 7,
    payload := [], hmac := [],
    data := { tableId := [], position := [], detections := [], positionIndex := -7,
              totalPositions := -8 },
    health := { battery := 1, rssi := 2, snr := 3 }, valid := true }

/-! ## Facts about the `String` operations -/

@[simp] theorem toUnsigned_natCast (n : Nat) : toUnsigned (n : Int) = n := by
  unfold toUnsigned
  have h : ¬ ((n : Int) < 0) := by omega
  simp [h]

@[simp] theorem toUnsigned_zero : toUnsigned 0 = 0 := toUnsigned_natCast 0

@[simp] theorem toUnsigned_natCast_succ (n : Nat) : toUnsigned ((n : Int) + 1) = n + 1 := by
  have h : ((n : Int) + 1) = ((n + 1 : Nat) : Int) := by push_cast; rfl
  rw [h, toUnsigned_natCast]

theorem colon_ne_NUL : ':' ≠ NUL := by decide

theorem slash_ne_NUL : '/' ≠ NUL := by decide

theorem strchr_eq_none {s : List Char} {ch : Char} (h : ch ∉ s) (hch : ch ≠ NUL) :
    strchr s ch = none := by
  induction s with
  | nil => simp [strchr, hch]
  | cons c cs ih =>
    have hc : c ≠ ch := fun e => h (by simp [e])
    have hcs : ch ∉ cs := fun e => h (by simp [e])
    rw [strchr, if_neg hc, ih hcs]
    split_ifs <;> rfl

theorem strchr_append {tok : List Char} {ch : Char} (h : ch ∉ tok) (hn : NUL ∉ tok)
    (rest : List Char) : strchr (tok ++ ch :: rest) ch = some tok.length := by
  induction tok with
  | nil => simp [strchr]
  | cons c cs ih =>
    have hc : c ≠ ch := fun e => h (by simp [e])
    have hcs : ch ∉ cs := fun e => h (by simp [e])
    have hc0 : c ≠ NUL := fun e => hn (by simp [e])
    have hcs0 : NUL ∉ cs := fun e => hn (by simp [e])
    rw [List.cons_append, strchr, if_neg hc, if_neg hc0, ih hcs hcs0]
    rfl

theorem strrchr_eq_none {s : List Char} {ch : Char} (h : ch ∉ s) (hch : ch ≠ NUL) :
    strrchr s ch = none := by
  induction s with
  | nil => simp [strrchr, hch]
  | cons c cs ih =>
    have hc : c ≠ ch := fun e => h (by simp [e])
    have hcs : ch ∉ cs := fun e => h (by simp [e])
    rw [strrchr, ih hcs]
    simp [hc, hch]

theorem strrchr_append {tail : List Char} {ch : Char} (h : ch ∉ tail) (hch : ch ≠ NUL)
    {body : List Char} (hn : NUL ∉ body) :
    strrchr (body ++ ch :: tail) ch = some body.length := by
  induction body with
  | nil =>
    rw [List.nil_append, strrchr, if_neg hch, strrchr_eq_none h hch]
    simp
  | cons c cs ih =>
    have hc0 : c ≠ NUL := fun e => hn (by simp [e])
    have hcs0 : NUL ∉ cs := fun e => hn (by simp [e])
    rw [List.cons_append, strrchr, if_neg hc0, ih hcs0]
    rfl

/-- The first `ch` at or after the end of `pre` is found right after a token that holds
neither `ch` nor NUL. -/
theorem indexOf_append {tok : List Char} {ch : Char} (h : ch ∉ tok) (hn : NUL ∉ tok)
    (pre rest : List Char) :
    indexOf (pre ++ (tok ++ ch :: rest)) ch (pre.length : Nat) = ((pre.length + tok.length : Nat) : Int) := by
  unfold indexOf
  simp [strchr_append h hn]

/-- No `ch` is found from the end of `pre` on when the remainder is `ch`-free. -/
theorem indexOf_none {tok : List Char} {ch : Char} (h : ch ∉ tok) (hch : ch ≠ NUL)
    (pre : List Char) : indexOf (pre ++ tok) ch (pre.length : Nat) = -1 := by
  unfold indexOf
  by_cases hl : tok.length = 0
  · simp [hl]
  · simp [strchr_eq_none h hch]

theorem lastIndexOf_append {tail : List Char} {ch : Char} (h : ch ∉ tail) (hch : ch ≠ NUL)
    {body : List Char} (hn : NUL ∉ body) :
    lastIndexOf (body ++ ch :: tail) ch = (body.length : Nat) := by
  unfold lastIndexOf
  simp [strrchr_append h hch hn]

theorem lastIndexOf_none {s : List Char} {ch : Char} (h : ch ∉ s) (hch : ch ≠ NUL) :
    lastIndexOf s ch = -1 := by
  unfold lastIndexOf
  simp [strrchr_eq_none h hch]

theorem cstr_eq_self {s : List Char} (h : NUL ∉ s) : cstr s = s := by
  unfold cstr
  rw [List.takeWhile_eq_self_iff]
  intro c hc
  have : c ≠ NUL := fun e => h (e ▸ hc)
  simpa using this

theorem takeWhile_eq_of_length {p : Char → Bool} :
    ∀ a : List Char, (a.takeWhile p).length = a.length → a.takeWhile p = a := by
  intro a
  induction a with
  | nil => intro _; rfl
  | cons c cs ih =>
    intro h
    rw [List.takeWhile_cons] at h ⊢
    by_cases hp : p c = true
    · simp only [hp, if_true, List.length_cons, Nat.add_right_cancel_iff] at h ⊢
      rw [ih h]
    · simp [hp] at h

/-- The `==` of two `String`s against a NUL-free right-hand side is equality. -/
theorem equalsString_iff {a b : List Char} (hb : NUL ∉ b) :
    equalsString a b = true ↔ a = b := by
  unfold equalsString
  rw [cstr_eq_self hb]
  constructor
  · intro h
    simp only [Bool.and_eq_true, decide_eq_true_eq, beq_iff_eq] at h
    obtain ⟨hl, hc⟩ := h
    have := takeWhile_eq_of_length a (by
      show (cstr a).length = a.length
      rw [hc, hl])
    rw [← hc]
    exact this.symm
  · rintro rfl
    simp [cstr_eq_self hb]

theorem strncmpEq_eq_take :
    ∀ (pre s : List Char), NUL ∉ pre → pre.length ≤ s.length →
      strncmpEq s pre pre.length = (s.take pre.length == pre) := by
  intro pre
  induction pre with
  | nil => intro s _ _; simp [strncmpEq]
  | cons p ps ih =>
    intro s hn hl
    cases s with
    | nil => simp at hl
    | cons c cs =>
      have hp0 : p ≠ NUL := fun e => hn (by simp [e])
      have hps0 : NUL ∉ ps := fun e => hn (by simp [e])
      simp only [List.length_cons, strncmpEq, List.headD_cons, List.tail_cons, List.take_succ_cons]
      by_cases hcp : c = p
      · subst hcp
        simp only [ne_eq, not_true_eq_false, if_false, hp0]
        rw [ih cs hps0 (by simpa using hl)]
        simp
      · simp [hcp]

/-- Against a NUL-free prefix `startsWith` compares the first characters. -/
theorem startsWith_eq {pre : List Char} (hn : NUL ∉ pre) (s : List Char) :
    startsWith s pre = (if s.length < pre.length then false else s.take pre.length == pre) := by
  unfold startsWith
  by_cases hl : s.length < pre.length
  · simp [hl]
  · simp only [hl, if_false]
    exact strncmpEq_eq_take pre s hn (by omega)

theorem bat_no_nul : NUL ∉ "bat_".toList := by decide

theorem rssi_no_nul : NUL ∉ "rssi_".toList := by decide

theorem snr_no_nul : NUL ∉ "snr_".toList := by decide

theorem toLowerCase_eq_map {s : List Char} (h : NUL ∉ s) : toLowerCase s = s.map Char.toLower := by
  induction s with
  | nil => rfl
  | cons c cs ih =>
    have hc0 : c ≠ NUL := fun e => h (by simp [e])
    have hcs0 : NUL ∉ cs := fun e => h (by simp [e])
    rw [toLowerCase, if_neg hc0, ih hcs0]
    rfl

theorem substring_natCast (s : List Char) (a b : Nat) (hab : a ≤ b) :
    substring s (a : Nat) (b : Nat) = (s.take b).drop a := by
  unfold substring
  simp only [toUnsigned_natCast]
  have h1 : ¬ a > b := by omega
  simp only [h1, if_false]
  by_cases h2 : a ≥ s.length
  · simp [h2]
  · simp only [h2, if_false]
    by_cases h3 : b > s.length
    · simp only [h3, if_true]
      rw [List.take_of_length_le (Nat.le_refl _), List.take_of_length_le (by omega)]
    · simp [h3]

/-- The token between two known offsets. -/
theorem substring_append (pre tok rest : List Char) :
    substring (pre ++ (tok ++ rest)) (pre.length : Nat) ((pre.length + tok.length : Nat) : Int) = tok := by
  rw [substring_natCast _ _ _ (by omega)]
  simp [List.take_append_eq_append_take, List.drop_append_eq_append_drop]

theorem substringFrom_append (pre rest : List Char) :
    substringFrom (pre ++ rest) (pre.length : Nat) = rest := by
  unfold substringFrom
  rw [substring_natCast _ _ _ (by simp)]
  rw [List.take_of_length_le (Nat.le_refl _)]
  simp

/-! ## Facts about number formatting and parsing -/

theorem digitsLoop_fuel (b : Nat) (hb : 2 ≤ b) :
    ∀ (f g n : Nat) (acc : List Char), n < f → n < g →
      digitsLoop b f n acc = digitsLoop b g n acc := by
  intro f
  induction f with
  | zero => intro g n acc h; omega
  | succ f ih =>
    intro g n acc hf hg
    cases g with
    | zero => omega
    | succ g =>
      simp only [digitsLoop]
      by_cases h0 : n / b = 0
      · simp [h0]
      · simp only [h0, if_false]
        have hlt : n / b < n := Nat.div_lt_self (by
          rcases Nat.eq_zero_or_pos n with h | h
          · subst h; simp at h0
          · exact h) (by omega)
        exact ih g (n / b) _ (by omega) (by omega)

theorem digitsLoop_acc (b : Nat) :
    ∀ (f n : Nat) (acc : List Char), digitsLoop b f n acc = digitsLoop b f n [] ++ acc := by
  intro f
  induction f with
  | zero => intro n acc; simp [digitsLoop]
  | succ f ih =>
    intro n acc
    simp only [digitsLoop]
    by_cases h0 : n / b = 0
    · simp [h0]
    · simp only [h0, if_false]
      rw [ih (n / b) (hexDigit (n % b) :: acc), ih (n / b) [hexDigit (n % b)]]
      simp

/-- One step of the digit generation, most significant digits first. -/
theorem digitsLoop_unfold (b : Nat) (hb : 2 ≤ b) (n : Nat) :
    digitsLoop b (n + 1) n [] =
      if n < b then [hexDigit n] else digitsLoop b (n / b + 1) (n / b) [] ++ [hexDigit (n % b)] := by
  rw [show digitsLoop b (n + 1) n [] = (if n / b = 0 then [hexDigit (n % b)]
    else digitsLoop b n (n / b) [hexDigit (n % b)]) from rfl]
  by_cases h : n < b
  · simp [h, Nat.div_eq_of_lt h, Nat.mod_eq_of_lt h]
  · have h0 : n / b ≠ 0 := by
      intro e
      rcases (Nat.div_eq_zero_iff (by omega : 0 < b)).mp e with e' 
      omega
    have hlt : n / b < n := Nat.div_lt_self (by omega) (by omega)
    simp only [h0, h, if_false]
    rw [digitsLoop_acc, digitsLoop_fuel b hb n (n / b + 1) (n / b) [] hlt (by omega)]

theorem decimal_unfold (n : Nat) :
    decimal n = if n < 10 then [hexDigit n] else decimal (n / 10) ++ [hexDigit (n % 10)] :=
  digitsLoop_unfold 10 (by decide) n

theorem isDigit_hexDigit {d : Nat} (h : d < 10) : isDigit (hexDigit d) = true := by
  interval_cases d <;> rfl

theorem toNat_hexDigit {d : Nat} (h : d < 10) : (hexDigit d).toNat - 48 = d := by
  interval_cases d <;> rfl

/-- Every character of a decimal rendering is a digit. -/
theorem decimal_isDigit (n : Nat) : ∀ c ∈ decimal n, isDigit c = true := by
  induction n using Nat.strong_induction_on with
  | _ n ih =>
    rw [decimal_unfold]
    by_cases h : n < 10
    · simp only [h, if_true, List.mem_singleton]
      rintro c rfl
      exact isDigit_hexDigit h
    · simp only [h, if_false, List.mem_append, List.mem_singleton]
      rintro c (hc | rfl)
      · exact ih (n / 10) (by omega) c hc
      · exact isDigit_hexDigit (Nat.mod_lt _ (by decide))

theorem isDigit_ne_NUL {c : Char} (h : isDigit c = true) : c ≠ NUL := by
  rintro rfl
  revert h
  decide

theorem decimal_no_nul (n : Nat) : NUL ∉ decimal n :=
  fun h => isDigit_ne_NUL (decimal_isDigit n NUL h) rfl

theorem decimal_ne_nil (n : Nat) : decimal n ≠ [] := by
  rw [decimal_unfold]
  by_cases h : n < 10 <;> simp [h]

theorem atolDigits_append {ds : List Char} (h : ∀ c ∈ ds, isDigit c = true) (rest : List Char) :
    ∀ acc, atolDigits (ds ++ rest) acc = atolDigits rest (atolDigits ds acc) := by
  induction ds with
  | nil => intro acc; rfl
  | cons c cs ih =>
    intro acc
    have hc : isDigit c = true := h c (by simp)
    simp only [List.cons_append, atolDigits, hc, if_true]
    exact ih (fun d hd => h d (by simp [hd])) _

/-- The digit loop of `strtol` reads back what the decimal rendering wrote. -/
theorem atolDigits_decimal (n : Nat) : atolDigits (decimal n) 0 = n := by
  induction n using Nat.strong_induction_on with
  | _ n ih =>
    rw [decimal_unfold]
    by_cases h : n < 10
    · simp [h, atolDigits, isDigit_hexDigit h, toNat_hexDigit h]
    · simp only [h, if_false]
      rw [atolDigits_append (decimal_isDigit _), ih (n / 10) (by omega)]
      have hm : n % 10 < 10 := Nat.mod_lt _ (by decide)
      simp only [atolDigits, isDigit_hexDigit hm, toNat_hexDigit hm, if_true]
      omega

/-- The digit loop stops at the first character that is not a digit. -/
theorem atolDigits_decimal_append (n : Nat) {rest : List Char}
    (h : ∀ c, rest.head? = some c → isDigit c = false) :
    atolDigits (decimal n ++ rest) 0 = n := by
  rw [atolDigits_append (decimal_isDigit _), atolDigits_decimal]
  cases rest with
  | nil => rfl
  | cons c cs => simp [atolDigits, h c rfl]

theorem isSpace_of_isDigit {c : Char} (h : isDigit c = true) : isSpace c = false := by
  unfold isDigit at h
  unfold isSpace
  simp only [Bool.and_eq_true, decide_eq_true_eq] at h
  have h1 : c ≠ ' ' := by
    rintro rfl
    revert h
    decide
  simp [h1]
  omega

/-- `toInt` on a string that starts with a digit. -/
theorem toInt_of_isDigit {c : Char} (h : isDigit c = true) (cs : List Char) :
    toInt (c :: cs) = clampLong (atolDigits (c :: cs) 0 : Nat) := by
  have hm : c ≠ '-' := by
    rintro rfl
    revert h
    decide
  have hp : c ≠ '+' := by
    rintro rfl
    revert h
    decide
  unfold toInt atol
  simp only [List.dropWhile, isSpace_of_isDigit h]
  split
  · rename_i heq
    simp at heq
    exact absurd heq.1 hm
  · rename_i heq
    simp at heq
    exact absurd heq.1 hp
  · rfl

/-- `toInt` on a minus sign followed by a string. -/
theorem toInt_minus (cs : List Char) :
    toInt ('-' :: cs) = clampLong (-(atolDigits cs 0 : Nat)) := by
  unfold toInt atol
  rw [show List.dropWhile isSpace ('-' :: cs) = '-' :: cs from by
    simp [List.dropWhile, show isSpace '-' = false from by decide]]
  rfl

theorem clampLong_of_range {v : Int} (h1 : -2147483648 ≤ v) (h2 : v ≤ 2147483647) :
    clampLong v = v := by
  unfold clampLong
  have a : ¬ v > 2147483647 := by omega
  have b : ¬ v < -2147483648 := by omega
  simp [a, b]

/-- Reading back a decimal rendering that is followed by a non-digit (or by nothing). -/
theorem toInt_decimal_append (n : Nat) (hn : n ≤ 2147483647) (rest : List Char)
    (h : ∀ c, rest.head? = some c → isDigit c = false) :
    toInt (decimal n ++ rest) = n := by
  cases hd : decimal n with
  | nil => exact absurd hd (decimal_ne_nil n)
  | cons c cs =>
    have hc : isDigit c = true := decimal_isDigit n c (by simp [hd])
    rw [List.cons_append, toInt_of_isDigit hc, ← List.cons_append, ← hd,
      atolDigits_decimal_append n h]
    exact clampLong_of_range (by omega) (by omega)

theorem toInt_minus_decimal_append (n : Nat) (hn : n ≤ 2147483648) (rest : List Char)
    (h : ∀ c, rest.head? = some c → isDigit c = false) :
    toInt ('-' :: (decimal n ++ rest)) = -(n : Int) := by
  rw [toInt_minus, atolDigits_decimal_append n h]
  exact clampLong_of_range (by omega) (by omega)

theorem sprintf02x_byte {v : Nat} (h : v < 256) :
    sprintf02x v = [hexDigit (v / 16), hexDigit (v % 16)] := by
  unfold sprintf02x
  rw [digitsLoop_unfold 16 (by decide)]
  by_cases h1 : v < 16
  · simp [h1, zeroPad, Nat.div_eq_of_lt h1, Nat.mod_eq_of_lt h1, hexDigit]
  · have h2 : v / 16 < 16 := by omega
    simp only [h1, if_false]
    rw [digitsLoop_unfold 16 (by decide)]
    simp [h2, zeroPad]

theorem countColons_aux (s : List Char) :
    ∀ (pre : List Char) (init : Nat),
      (List.range' pre.length s.length).foldl
        (fun colonCount i => if charAt (pre ++ s) i = ':' then colonCount + 1 else colonCount)
        init = init + s.count ':' := by
  induction s with
  | nil => intro pre init; simp
  | cons c cs ih =>
    intro pre init
    have hc : charAt (pre ++ c :: cs) pre.length = c := by
      unfold charAt
      rw [List.getD_eq_getElem?_getD, List.getElem?_append_right (Nat.le_refl _)]
      simp
    have hstep := ih (pre ++ [c]) (if c = ':' then init + 1 else init)
    simp only [List.length_append, List.length_singleton, List.append_assoc,
      List.singleton_append] at hstep
    simp only [List.length_cons, List.range'_succ, List.foldl_cons, hc]
    rw [hstep]
    by_cases h : c = ':'
    · subst h; simp; omega
    · simp [h, List.count_cons_of_ne (Ne.symm h)]

/-- The counting loop of `parseMessage` counts the `':'` characters. -/
theorem countColons_eq_count (s : List Char) : countColons s = s.count ':' := by
  have h := countColons_aux s [] 0
  simp only [List.length_nil, List.nil_append, Nat.zero_add] at h
  unfold countColons
  rw [List.range_eq_range']
  exact h

theorem substring_zero (s : List Char) (b : Nat) : substring s 0 (b : Nat) = s.take b := by
  have h := substring_natCast s 0 b (Nat.zero_le _)
  simpa using h

theorem substringFrom_append_succ (pre : List Char) (c : Char) (rest : List Char) :
    substringFrom (pre ++ c :: rest) ((pre.length : Nat) + 1) = rest := by
  have h := substringFrom_append (pre ++ [c]) rest
  simp only [List.length_append, List.length_singleton, List.append_assoc,
    List.singleton_append] at h
  have e : ((pre.length : Nat) : Int) + 1 = ((pre.length + 1 : Nat) : Int) := by
    push_cast
    rfl
  rw [e]
  exact h

/-! ## Facts about the tag -/

section HmacFacts

variable (hmacSha256 : AString → AString → Digest)

theorem hexDigit_mem (n : Nat) : hexDigit n ∈ "0123456789abcdef".toList := by
  unfold hexDigit
  split <;> decide

theorem hexDigit_ne_colon (n : Nat) : hexDigit n ≠ ':' := by
  unfold hexDigit
  split <;> decide

/-- The tag written out byte by byte. -/
theorem calculateHMAC_eq (message secret : AString) :
    calculateHMAC hmacSha256 message secret =
      (digestPrefix (hmacSha256 secret message)).flatMap hexByte := by
  unfold calculateHMAC digestPrefix
  rw [show List.finRange 8 = [0, 1, 2, 3, 4, 5, 6, 7] from by decide]
  simp only [List.foldl_cons, List.foldl_nil, List.nil_append, List.map_cons, List.map_nil,
    List.flatMap_cons, List.flatMap_nil, List.append_nil, List.append_assoc]
  simp only [sprintf02x_byte (Fin.is_lt _), hexByte]
  rfl

theorem calculateHMAC_mem (message secret : AString) :
    ∀ c ∈ calculateHMAC hmacSha256 message secret, c ∈ "0123456789abcdef".toList := by
  intro c hc
  rw [calculateHMAC_eq, List.mem_flatMap] at hc
  obtain ⟨b, _, hb⟩ := hc
  unfold hexByte at hb
  rcases List.mem_cons.mp hb with rfl | hb
  · exact hexDigit_mem _
  · rcases List.mem_cons.mp hb with rfl | hb
    · exact hexDigit_mem _
    · simp at hb

theorem calculateHMAC_no_colon (message secret : AString) :
    ':' ∉ calculateHMAC hmacSha256 message secret := by
  intro h
  have := calculateHMAC_mem hmacSha256 message secret ':' h
  revert this
  decide

theorem calculateHMAC_no_nul (message secret : AString) :
    NUL ∉ calculateHMAC hmacSha256 message secret := by
  intro h
  have := calculateHMAC_mem hmacSha256 message secret NUL h
  revert this
  decide

theorem equalsString_self (a : AString) : equalsString a a = true := by
  simp [equalsString]

theorem calculateHMAC_length (message secret : AString) :
    (calculateHMAC hmacSha256 message secret).length = 16 := by
  rw [calculateHMAC_eq]
  simp [digestPrefix, hexByte]

theorem verifyHMAC_append (body secret : AString) (hn : NUL ∉ body) :
    verifyHMAC hmacSha256 (body ++ ':' :: calculateHMAC hmacSha256 body secret) secret = true := by
  unfold verifyHMAC
  have hl := lastIndexOf_append (calculateHMAC_no_colon hmacSha256 body secret) colon_ne_NUL hn
  simp only [hl]
  have hne : ((body.length : Nat) : Int) ≠ -1 := by omega
  simp only [hne, if_false]
  rw [substring_zero, substringFrom_append_succ]
  simp [equalsString_self]

theorem buildMessage_eq (clk : Clock) (senderId command targetId sequence payload secret : AString) :
    buildMessage hmacSha256 clk senderId command targetId sequence payload secret =
      frameBody senderId command targetId sequence (getCurrentTimestamp clk) payload ++ ':' ::
        calculateHMAC hmacSha256
          (frameBody senderId command targetId sequence (getCurrentTimestamp clk) payload)
          secret := by
  simp [buildMessage, frameBody]

end HmacFacts

/-! ## The `String` operations in terms of the unread remainder `raw.drop k` -/

theorem indexOf_of_drop {raw tok rest : List Char} {ch : Char} {k : Nat}
    (h : raw.drop k = tok ++ ch :: rest) (htok : ch ∉ tok) (hn : NUL ∉ tok) :
    indexOf raw ch (k : Nat) = ((k + tok.length : Nat) : Int) := by
  have hk : k ≤ raw.length := by
    by_contra hc
    rw [List.drop_eq_nil_of_le (by omega)] at h
    simp at h
  have hr : raw = raw.take k ++ (tok ++ ch :: rest) := by rw [← h, List.take_append_drop]
  have hlen : (raw.take k).length = k := by simp [hk]
  have := indexOf_append htok hn (raw.take k) rest
  rw [← hr, hlen] at this
  exact this

theorem indexOf_of_drop_none {raw : List Char} {ch : Char} {k : Nat} (h : ch ∉ raw.drop k)
    (hch : ch ≠ NUL) :
    indexOf raw ch (k : Nat) = -1 := by
  by_cases hk : k ≤ raw.length
  · have hlen : (raw.take k).length = k := by simp [hk]
    have := indexOf_none h hch (raw.take k)
    rw [List.take_append_drop, hlen] at this
    exact this
  · unfold indexOf
    have : toUnsigned (k : Nat) ≥ raw.length := by
      rw [toUnsigned_natCast]
      omega
    rw [if_pos this]

theorem substring_of_drop {raw tok rest : List Char} {k : Nat} (h : raw.drop k = tok ++ rest) :
    substring raw (k : Nat) ((k + tok.length : Nat) : Int) = tok := by
  rw [substring_natCast _ _ _ (by omega), List.drop_take, h]
  simp

theorem substringFrom_eq_drop (raw : List Char) (k : Nat) :
    substringFrom raw (k : Nat) = raw.drop k := by
  unfold substringFrom substring
  simp only [toUnsigned_natCast]
  by_cases hk : k > raw.length
  · simp [hk, List.drop_eq_nil_of_le (Nat.le_of_lt hk)]
  · simp only [hk, if_false]
    by_cases hk2 : k ≥ raw.length
    · simp [hk2, List.drop_eq_nil_of_le hk2]
    · simp [hk2]

theorem drop_of_drop {raw tok rest : List Char} {c : Char} {k : Nat}
    (h : raw.drop k = tok ++ c :: rest) : raw.drop (k + tok.length + 1) = rest := by
  have : raw.drop (k + tok.length + 1) = (raw.drop k).drop (tok.length + 1) := by
    rw [List.drop_drop, Nat.add_assoc]
  rw [this, h]
  simp [List.drop_append_eq_append_drop]

/-! ## Facts about `parseMessage` -/

/-- One iteration of the field loop on a header field: the text up to the next `':'` is
stored and the scan resumes after that `':'`. -/
theorem fieldLoop_step {raw tok rest : List Char} {k : Nat}
    (h : raw.drop k = tok ++ ':' :: rest) (htok : ':' ∉ tok) (hn : NUL ∉ tok) (n i : Nat)
    (hi : i < 5)
    (fields : List AString) :
    fieldLoop raw (n + 1) i (k : Nat) fields =
      fieldLoop raw n (i + 1) ((k + tok.length + 1 : Nat) : Int) (fields.set i tok) := by
  rw [fieldLoop]
  simp only [indexOf_of_drop h htok hn]
  have h1 : ¬ ((((k + tok.length : Nat) : Int) = -1) ∧ i < 5) := by omega
  have h2 : ¬ i = 5 := by omega
  simp only [h1, h2, if_false]
  rw [substring_of_drop h]
  congr 1

/-- The last iteration of the field loop stores the rest of the frame. -/
theorem fieldLoop_last (raw : List Char) (k : Nat) (fields : List AString) :
    fieldLoop raw 1 5 (k : Nat) fields = some (fields.set 5 (raw.drop k)) := by
  rw [fieldLoop]
  simp only [Nat.lt_irrefl, and_false, if_false, if_true, substringFrom_eq_drop]
  rfl

/-- The result of the field loop on a frame with five header fields free of `':'` and NUL. -/
theorem fieldLoop_frame (f0 f1 f2 f3 f4 p : List Char) (h0 : ':' ∉ f0) (h1 : ':' ∉ f1)
    (h2 : ':' ∉ f2) (h3 : ':' ∉ f3) (h4 : ':' ∉ f4) (n0 : NUL ∉ f0) (n1 : NUL ∉ f1)
    (n2 : NUL ∉ f2) (n3 : NUL ∉ f3) (n4 : NUL ∉ f4) :
    fieldLoop (f0 ++ ':' :: (f1 ++ ':' :: (f2 ++ ':' :: (f3 ++ ':' :: (f4 ++ ':' :: p))))) 6 0 0
      (List.replicate 6 []) = some [f0, f1, f2, f3, f4, p] := by
  have d0 : (f0 ++ ':' :: (f1 ++ ':' :: (f2 ++ ':' :: (f3 ++ ':' :: (f4 ++ ':' :: p))))).drop 0
      = f0 ++ ':' :: (f1 ++ ':' :: (f2 ++ ':' :: (f3 ++ ':' :: (f4 ++ ':' :: p)))) := rfl
  have d1 := drop_of_drop d0
  have d2 := drop_of_drop d1
  have d3 := drop_of_drop d2
  have d4 := drop_of_drop d3
  have d5 := drop_of_drop d4
  refine (fieldLoop_step d0 h0 n0 5 0 (by decide) _).trans ?_
  refine (fieldLoop_step d1 h1 n1 4 1 (by decide) _).trans ?_
  refine (fieldLoop_step d2 h2 n2 3 2 (by decide) _).trans ?_
  refine (fieldLoop_step d3 h3 n3 2 3 (by decide) _).trans ?_
  refine (fieldLoop_step d4 h4 n4 1 4 (by decide) _).trans ?_
  refine (fieldLoop_last _ _ _).trans ?_
  rw [d5]
  rfl

/-- The `':'` count of a frame with five `':'`-free header fields is five plus that of the
last field. -/
theorem count_frame (f0 f1 f2 f3 f4 p : List Char) (h0 : ':' ∉ f0) (h1 : ':' ∉ f1)
    (h2 : ':' ∉ f2) (h3 : ':' ∉ f3) (h4 : ':' ∉ f4) :
    (f0 ++ ':' :: (f1 ++ ':' :: (f2 ++ ':' :: (f3 ++ ':' :: (f4 ++ ':' :: p))))).count ':' =
      5 + p.count ':' := by
  simp only [List.count_append, List.count_cons_self, List.count_eq_zero_of_not_mem h0,
    List.count_eq_zero_of_not_mem h1, List.count_eq_zero_of_not_mem h2,
    List.count_eq_zero_of_not_mem h3, List.count_eq_zero_of_not_mem h4]
  omega

/-- `parseMessage` on a frame with five header fields free of `':'` and NUL: the header
fields are returned as written, the fifth read as a number, and the payload is the whole
remainder. -/
theorem parseMessage_frame (stack : LoRaMessage) (f0 f1 f2 f3 f4 p : List Char)
    (h0 : ':' ∉ f0) (h1 : ':' ∉ f1) (h2 : ':' ∉ f2) (h3 : ':' ∉ f3) (h4 : ':' ∉ f4)
    (n0 : NUL ∉ f0) (n1 : NUL ∉ f1) (n2 : NUL ∉ f2) (n3 : NUL ∉ f3) (n4 : NUL ∉ f4) :
    parseMessage stack
        (f0 ++ ':' :: (f1 ++ ':' :: (f2 ++ ':' :: (f3 ++ ':' :: (f4 ++ ':' :: p))))) =
      { declareMessage stack with
        senderId := f0, command := f1, targetId := f2, sequence := f3,
        timestamp := toUnsignedLong (toInt f4), payload := p, hmac := [], valid := true } := by
  unfold parseMessage
  have hc : ¬ countColons
      (f0 ++ ':' :: (f1 ++ ':' :: (f2 ++ ':' :: (f3 ++ ':' :: (f4 ++ ':' :: p))))) < 5 := by
    rw [countColons_eq_count, count_frame f0 f1 f2 f3 f4 p h0 h1 h2 h3 h4]
    omega
  simp only [hc, if_false, fieldLoop_frame f0 f1 f2 f3 f4 p h0 h1 h2 h3 h4 n0 n1 n2 n3 n4]
  rfl

theorem decimal_no_colon (n : Nat) : ':' ∉ decimal n := by
  intro h
  have := decimal_isDigit n ':' h
  revert this
  decide

theorem toInt_decimal (n : Nat) (hn : n ≤ 2147483647) : toInt (decimal n) = n := by
  have h := toInt_decimal_append n hn [] (by simp)
  rwa [List.append_nil] at h

theorem toUnsignedLong_natCast (n : Nat) (hn : n < 4294967296) : toUnsignedLong (n : Int) = n := by
  unfold toUnsignedLong
  omega

/-- The frame built by `buildMessage`, as read by `parseMessage`. -/
theorem parseMessage_buildMessage (hmacSha256 : AString → AString → Digest) (stack : LoRaMessage)
    (clk : Clock) (senderId command targetId sequence payload secret : AString)
    (hs : ':' ∉ senderId) (hc : ':' ∉ command) (ht : ':' ∉ targetId) (hq : ':' ∉ sequence)
    (ns : NUL ∉ senderId) (nc : NUL ∉ command) (nt : NUL ∉ targetId) (nq : NUL ∉ sequence) :
    parseMessage stack
        (buildMessage hmacSha256 clk senderId command targetId sequence payload secret) =
      { declareMessage stack with
        senderId := senderId, command := command, targetId := targetId, sequence := sequence,
        timestamp := toUnsignedLong (toInt (decimal (getCurrentTimestamp clk))),
        payload := payload ++ ':' :: calculateHMAC hmacSha256
          (frameBody senderId command targetId sequence (getCurrentTimestamp clk) payload) secret,
        hmac := [], valid := true } := by
  rw [buildMessage_eq]
  have e : frameBody senderId command targetId sequence (getCurrentTimestamp clk) payload ++ ':' ::
      calculateHMAC hmacSha256
        (frameBody senderId command targetId sequence (getCurrentTimestamp clk) payload) secret =
      senderId ++ ':' :: (command ++ ':' :: (targetId ++ ':' :: (sequence ++ ':' ::
        (decimal (getCurrentTimestamp clk) ++ ':' :: (payload ++ ':' :: calculateHMAC hmacSha256
          (frameBody senderId command targetId sequence (getCurrentTimestamp clk) payload)
          secret))))) := by
    simp [frameBody]
  rw [e, parseMessage_frame stack _ _ _ _ _ _ hs hc ht hq (decimal_no_colon _) ns nc nt nq
    (decimal_no_nul _)]

/-- No `ch` is found in a buffer whose first NUL comes before every `ch`. -/
theorem strchr_nul {tok : List Char} {ch : Char} (h : ch ∉ tok) (hch : ch ≠ NUL)
    (rest : List Char) : strchr (tok ++ NUL :: rest) ch = none := by
  induction tok with
  | nil => simp [strchr, hch.symm]
  | cons c cs ih =>
    have hc : c ≠ ch := fun e => h (by simp [e])
    have hcs : ch ∉ cs := fun e => h (by simp [e])
    rw [List.cons_append, strchr, if_neg hc, ih hcs]
    split_ifs <;> rfl

/-- The field loop takes its error return at once when the first search finds nothing. -/
theorem fieldLoop_none_of_strchr {raw : List Char} (h : strchr raw ':' = none) (n : Nat)
    (fields : List AString) : fieldLoop raw (n + 1) 0 0 fields = none := by
  rw [fieldLoop]
  have hi : indexOf raw ':' 0 = -1 := by
    unfold indexOf
    by_cases hl : toUnsigned 0 ≥ raw.length
    · rw [if_pos hl]
    · rw [if_neg hl]
      simp [h]
  simp [hi]

/-- A frame whose first search for `':'` finds nothing is rejected with the initial fields. -/
theorem parseMessage_strchr_none (stack : LoRaMessage) {raw : List Char}
    (h : strchr raw ':' = none) :
    parseMessage stack raw = { declareMessage stack with valid := false } := by
  unfold parseMessage
  simp only [fieldLoop_none_of_strchr h]
  split_ifs <;> rfl

/-- No `ch` is found from the right in a buffer whose first NUL comes before every `ch`. -/
theorem strrchr_nul {tok : List Char} {ch : Char} (h : ch ∉ tok) (hch : ch ≠ NUL)
    (rest : List Char) : strrchr (tok ++ NUL :: rest) ch = none := by
  induction tok with
  | nil => simp [strrchr, hch]
  | cons c cs ih =>
    have hc : c ≠ ch := fun e => h (by simp [e])
    have hcs : ch ∉ cs := fun e => h (by simp [e])
    rw [List.cons_append, strrchr, ih hcs]
    simp [hc, hch]

/-- What lies behind the first NUL does not matter to `strrchr`. -/
theorem strrchr_cut {pre : List Char} {ch : Char} (hn : NUL ∉ pre) (hch : ch ≠ NUL)
    (rest : List Char) : strrchr (pre ++ NUL :: rest) ch = strrchr pre ch := by
  induction pre with
  | nil => simp [strrchr, hch]
  | cons c cs ih =>
    have hc0 : c ≠ NUL := fun e => hn (by simp [e])
    have hcs0 : NUL ∉ cs := fun e => hn (by simp [e])
    rw [List.cons_append, strrchr, if_neg hc0, ih hcs0, strrchr, if_neg hc0]

theorem strrchr_lt {s : List Char} {ch : Char} (hch : ch ≠ NUL) :
    ∀ {k : Nat}, strrchr s ch = some k → k < s.length := by
  induction s with
  | nil => intro k h; simp [strrchr, hch] at h
  | cons c cs ih =>
    intro k h
    rw [strrchr] at h
    by_cases hc0 : c = NUL
    · simp [hc0, hch] at h
    · rw [if_neg hc0] at h
      cases hr : strrchr cs ch with
      | some j =>
        rw [hr] at h
        have := ih hr
        simp only [Option.some.injEq] at h
        simp only [List.length_cons]
        omega
      | none =>
        rw [hr] at h
        by_cases hcc : c = ch
        · simp [hcc] at h
          simp only [List.length_cons]
          omega
        · simp [hcc] at h

theorem frameBody_no_nul {senderId command targetId sequence payload : AString} (t : Nat)
    (ns : NUL ∉ senderId) (nc : NUL ∉ command) (nt : NUL ∉ targetId) (nq : NUL ∉ sequence)
    (np : NUL ∉ payload) : NUL ∉ frameBody senderId command targetId sequence t payload := by
  unfold frameBody
  have hd := decimal_no_nul t
  have hcol : NUL ≠ ':' := by decide
  simp [ns, nc, nt, nq, np, hd, hcol]

/-! ## Round trip of `buildMessage` and `parseMessage` -/

/-- C1, as stated, fails in three ways, whatever the digest function and the initial storage
are. On the frame built for sender `GW01`, command `POLL`, target `D1`, sequence `001` and
payload `null` (none of which contains `':'`), the payload returned by `parseMessage` is not
`null`. With the sender `G<NUL>` (a `G` followed by a NUL character, no `':'`) the built frame
is not valid. At the clock value 3000000000 the timestamp returned is 2147483647. -/
theorem parse_build_payload_not_reproduced :
    (¬ ∃ (hmacSha256 : AString → AString → Digest) (stack : LoRaMessage),
      (parseMessage stack (buildMessage hmacSha256 ⟨0, 5000⟩ "GW01".toList "POLL".toList
        "D1".toList "001".toList "null".toList "k".toList)).payload = "null".toList) ∧
    (¬ ∃ (hmacSha256 : AString → AString → Digest) (stack : LoRaMessage),
      (parseMessage stack (buildMessage hmacSha256 ⟨0, 5000⟩ ['G', NUL] "POLL".toList
        "D1".toList "001".toList "null".toList "k".toList)).valid = true) ∧
    (¬ ∃ (hmacSha256 : AString → AString → Digest) (stack : LoRaMessage),
      (parseMessage stack (buildMessage hmacSha256 ⟨3000000000, 0⟩ "GW01".toList "POLL".toList
        "D1".toList "001".toList "null".toList "k".toList)).timestamp = 3000000000) := by
  refine ⟨?_, ?_, ?_⟩
  · rintro ⟨md, stack, h⟩
    rw [parseMessage_buildMessage md stack _ _ _ _ _ _ _ (by decide) (by decide) (by decide)
      (by decide) (by decide) (by decide) (by decide) (by decide)] at h
    have hl := congrArg List.length h
    simp only [List.length_append, List.length_cons, calculateHMAC_length] at hl
    revert hl
    decide
  · rintro ⟨md, stack, h⟩
    have hs : strchr (buildMessage md ⟨0, 5000⟩ ['G', NUL] "POLL".toList
        "D1".toList "001".toList "null".toList "k".toList) ':' = none :=
      @strchr_nul ['G'] ':' (by decide) (by decide) _
    rw [parseMessage_strchr_none stack hs] at h
    exact Bool.noConfusion h
  · rintro ⟨md, stack, h⟩
    rw [parseMessage_buildMessage md stack _ _ _ _ _ _ _ (by decide) (by decide) (by decide)
      (by decide) (by decide) (by decide) (by decide) (by decide)] at h
    have e : toUnsignedLong (toInt (decimal (getCurrentTimestamp ⟨3000000000, 0⟩))) =
        2147483647 := by decide
    have h2 : toUnsignedLong (toInt (decimal (getCurrentTimestamp ⟨3000000000, 0⟩))) =
        3000000000 := h
    rw [e] at h2
    exact absurd h2 (by decide)

/-- C1 (amended): for every sender, command, target and sequence without `':'` and without
NUL, every payload without `':'`, every secret and every clock value up to 2147483647,
`parseMessage (buildMessage ...)` is valid and reproduces sender, command, target, sequence
and the clock value, while its payload is the payload followed by `':'` and the tag of the
six-field body. -/
theorem parse_build_roundtrip (hmacSha256 : AString → AString → Digest) (stack : LoRaMessage)
    (clk : Clock) (senderId command targetId sequence payload secret : AString)
    (hs : ':' ∉ senderId) (hc : ':' ∉ command) (ht : ':' ∉ targetId) (hq : ':' ∉ sequence)
    (_hp : ':' ∉ payload) (ns : NUL ∉ senderId) (nc : NUL ∉ command) (nt : NUL ∉ targetId)
    (nq : NUL ∉ sequence) (hclk : getCurrentTimestamp clk ≤ 2147483647) :
    (parseMessage stack (buildMessage hmacSha256 clk senderId command targetId sequence payload
        secret)).valid = true ∧
    (parseMessage stack (buildMessage hmacSha256 clk senderId command targetId sequence payload
        secret)).senderId = senderId ∧
    (parseMessage stack (buildMessage hmacSha256 clk senderId command targetId sequence payload
        secret)).command = command ∧
    (parseMessage stack (buildMessage hmacSha256 clk senderId command targetId sequence payload
        secret)).targetId = targetId ∧
    (parseMessage stack (buildMessage hmacSha256 clk senderId command targetId sequence payload
        secret)).sequence = sequence ∧
    (parseMessage stack (buildMessage hmacSha256 clk senderId command targetId sequence payload
        secret)).timestamp = getCurrentTimestamp clk ∧
    (parseMessage stack (buildMessage hmacSha256 clk senderId command targetId sequence payload
        secret)).payload =
      payload ++ ":".toList ++ calculateHMAC hmacSha256
        (senderId ++ ":".toList ++ command ++ ":".toList ++ targetId ++ ":".toList ++ sequence ++
          ":".toList ++ decimal (getCurrentTimestamp clk) ++ ":".toList ++ payload) secret := by
  rw [parseMessage_buildMessage hmacSha256 stack clk _ _ _ _ _ _ hs hc ht hq ns nc nt nq]
  refine ⟨rfl, rfl, rfl, rfl, rfl, ?_, ?_⟩
  · show toUnsignedLong (toInt (decimal (getCurrentTimestamp clk))) = getCurrentTimestamp clk
    rw [toInt_decimal _ hclk]
    exact toUnsignedLong_natCast _ (by omega)
  · show payload ++ ':' :: calculateHMAC hmacSha256
      (frameBody senderId command targetId sequence (getCurrentTimestamp clk) payload) secret = _
    simp [frameBody]

/-- Witness for C1 (amended): the frame built for `GW01:POLL:D1:001` at clock value 5 with
payload `null`. -/
theorem parse_build_roundtrip_witness :
    (parseMessage sampleStack (buildMessage (constDigest 0) ⟨0, 5000⟩ "GW01".toList
        "POLL".toList "D1".toList "001".toList "null".toList "k".toList)).timestamp = 5 ∧
    (parseMessage sampleStack (buildMessage (constDigest 0) ⟨0, 5000⟩ "GW01".toList
        "POLL".toList "D1".toList "001".toList "null".toList "k".toList)).payload =
      "null:0000000000000000".toList :=
  have h := parse_build_roundtrip (constDigest 0) sampleStack ⟨0, 5000⟩ "GW01".toList
    "POLL".toList "D1".toList "001".toList "null".toList "k".toList (by decide) (by decide)
    (by decide) (by decide) (by decide) (by decide) (by decide) (by decide) (by decide)
    (by decide)
  ⟨h.2.2.2.2.2.1, h.2.2.2.2.2.2.trans (by decide)⟩

/-! ## Rejection of malformed frames -/

/-- C6: for every raw input with fewer than five `':'` characters, the empty string
included, `parseMessage` returns a message, and that message has `valid = false`. -/
theorem parseMessage_rejects_short (stack : LoRaMessage) (rawMessage : AString)
    (h : rawMessage.count ':' < 5) :
    ∃ msg, parseMessage stack rawMessage = msg ∧ msg.valid = false := by
  refine ⟨_, rfl, ?_⟩
  unfold parseMessage
  rw [countColons_eq_count]
  simp [h]

/-- Witness for C6: the empty input and an input with three `':'`. -/
theorem parseMessage_rejects_short_witness :
    (∃ msg, parseMessage sampleStack [] = msg ∧ msg.valid = false) ∧
    (∃ msg, parseMessage sampleStack "GW01:POLL:D1:001".toList = msg ∧ msg.valid = false) :=
  ⟨parseMessage_rejects_short sampleStack [] (by decide),
   parseMessage_rejects_short sampleStack "GW01:POLL:D1:001".toList (by decide)⟩

/-! ## Verification of built frames -/

section VerifyBuilt

variable (hmacSha256 : AString → AString → Digest)

/-- Without a `':'` before the first NUL the verification fails. -/
theorem verifyHMAC_strrchr_none {message : AString} (secret : AString)
    (h : strrchr message ':' = none) : verifyHMAC hmacSha256 message secret = false := by
  unfold verifyHMAC
  have hl : lastIndexOf message ':' = -1 := by
    unfold lastIndexOf
    split_ifs
    · rfl
    · simp [h]
  simp [hl]

end VerifyBuilt

/-- C8, as stated, fails when the body holds a NUL character, whatever the digest function
is: the frame built for the sender `G<NUL>` (a `G` followed by a NUL) is not accepted under
the secret it was built with, and neither is the body `a<NUL>` followed by `':'` and its
tag. -/
theorem verifyHMAC_nul_body_rejected :
    (¬ ∃ hmacSha256 : AString → AString → Digest,
      verifyHMAC hmacSha256 (buildMessage hmacSha256 ⟨0, 5000⟩ ['G', NUL] "POLL".toList
        "D1".toList "001".toList "null".toList "k".toList) "k".toList = true) ∧
    (¬ ∃ hmacSha256 : AString → AString → Digest,
      verifyHMAC hmacSha256
        (['a', NUL] ++ ":".toList ++ calculateHMAC hmacSha256 ['a', NUL] "k".toList)
        "k".toList = true) := by
  constructor
  · rintro ⟨md, h⟩
    have hs : strrchr (buildMessage md ⟨0, 5000⟩ ['G', NUL] "POLL".toList
        "D1".toList "001".toList "null".toList "k".toList) ':' = none :=
      @strrchr_nul ['G'] ':' (by decide) (by decide) _
    rw [verifyHMAC_strrchr_none md _ hs] at h
    exact Bool.noConfusion h
  · rintro ⟨md, h⟩
    have hs : strrchr (['a', NUL] ++ ":".toList ++ calculateHMAC md ['a', NUL] "k".toList)
        ':' = none :=
      @strrchr_nul ['a'] ':' (by decide) (by decide) _
    rw [verifyHMAC_strrchr_none md _ hs] at h
    exact Bool.noConfusion h

/-- C8 (amended): for every sender, command, target, sequence and payload without NUL
character, every secret and every clock value, `verifyHMAC` accepts the frame built by
`buildMessage` under the same secret; and for every body without NUL character and every
secret it accepts the body followed by `':'` and the tag of the body. -/
theorem verifyHMAC_buildMessage (hmacSha256 : AString → AString → Digest) :
    (∀ (clk : Clock) (senderId command targetId sequence payload secret : AString),
      NUL ∉ senderId → NUL ∉ command → NUL ∉ targetId → NUL ∉ sequence → NUL ∉ payload →
      verifyHMAC hmacSha256
        (buildMessage hmacSha256 clk senderId command targetId sequence payload secret)
        secret = true) ∧
    (∀ body secret : AString, NUL ∉ body →
      verifyHMAC hmacSha256 (body ++ ":".toList ++ calculateHMAC hmacSha256 body secret)
        secret = true) := by
  constructor
  · intro clk senderId command targetId sequence payload secret ns nc nt nq np
    rw [buildMessage_eq]
    exact verifyHMAC_append hmacSha256 _ secret (frameBody_no_nul _ ns nc nt nq np)
  · intro body secret hn
    have h := verifyHMAC_append hmacSha256 body secret hn
    simpa using h

/-- Witness for C8 (amended): the frame built for `GW01:POLL:D1:001` with payload `null`,
and the body `a`. -/
theorem verifyHMAC_buildMessage_witness :
    verifyHMAC (constDigest 171)
      (buildMessage (constDigest 171) ⟨0, 5000⟩ "GW01".toList "POLL".toList "D1".toList
        "001".toList "null".toList "k".toList) "k".toList = true ∧
    verifyHMAC (constDigest 171)
      ("a".toList ++ ":".toList ++ calculateHMAC (constDigest 171) "a".toList "k".toList)
      "k".toList = true :=
  ⟨(verifyHMAC_buildMessage (constDigest 171)).1 ⟨0, 5000⟩ "GW01".toList "POLL".toList
      "D1".toList "001".toList "null".toList "k".toList (by decide) (by decide) (by decide)
      (by decide) (by decide),
   (verifyHMAC_buildMessage (constDigest 171)).2 "a".toList "k".toList (by decide)⟩

/-! ## Shape of built frames -/

/-- C9: `buildMessage` returns the six-field body, a `':'` and the tag of that body under the
secret; when the five string arguments contain no `':'`, the frame has exactly six `':'`. -/
theorem buildMessage_shape (hmacSha256 : AString → AString → Digest) (clk : Clock)
    (senderId command targetId sequence payload secret : AString) :
    buildMessage hmacSha256 clk senderId command targetId sequence payload secret =
      (senderId ++ ":".toList ++ command ++ ":".toList ++ targetId ++ ":".toList ++ sequence ++
        ":".toList ++ decimal (getCurrentTimestamp clk) ++ ":".toList ++ payload) ++ ":".toList ++
      calculateHMAC hmacSha256
        (senderId ++ ":".toList ++ command ++ ":".toList ++ targetId ++ ":".toList ++ sequence ++
          ":".toList ++ decimal (getCurrentTimestamp clk) ++ ":".toList ++ payload) secret ∧
    (':' ∉ senderId → ':' ∉ command → ':' ∉ targetId → ':' ∉ sequence → ':' ∉ payload →
      (buildMessage hmacSha256 clk senderId command targetId sequence payload secret).count ':'
        = 6) := by
  refine ⟨rfl, ?_⟩
  intro hs hc ht hq hp
  rw [buildMessage_eq]
  have e : frameBody senderId command targetId sequence (getCurrentTimestamp clk) payload ++ ':' ::
      calculateHMAC hmacSha256
        (frameBody senderId command targetId sequence (getCurrentTimestamp clk) payload) secret =
      senderId ++ ':' :: (command ++ ':' :: (targetId ++ ':' :: (sequence ++ ':' ::
        (decimal (getCurrentTimestamp clk) ++ ':' :: (payload ++ ':' :: calculateHMAC hmacSha256
          (frameBody senderId command targetId sequence (getCurrentTimestamp clk) payload)
          secret))))) := by
    simp [frameBody]
  rw [e, count_frame _ _ _ _ _ _ hs hc ht hq (decimal_no_colon _), List.count_append,
    List.count_cons_self, List.count_eq_zero_of_not_mem hp,
    List.count_eq_zero_of_not_mem (calculateHMAC_no_colon hmacSha256 _ _)]

/-- Witness for C9: the frame for `GW01:POLL:D1:001` with payload `null` at clock value 5. -/
theorem buildMessage_shape_witness :
    buildMessage (constDigest 171) ⟨0, 5000⟩ "GW01".toList "POLL".toList "D1".toList
        "001".toList "null".toList "k".toList = "GW01:POLL:D1:001:5:null:abababababababab".toList ∧
    (buildMessage (constDigest 171) ⟨0, 5000⟩ "GW01".toList "POLL".toList "D1".toList
        "001".toList "null".toList "k".toList).count ':' = 6 :=
  ⟨by decide,
   (buildMessage_shape (constDigest 171) ⟨0, 5000⟩ "GW01".toList "POLL".toList "D1".toList
      "001".toList "null".toList "k".toList).2 (by decide) (by decide) (by decide) (by decide)
      (by decide)⟩

/-! ## Format of the tag -/

/-- C10: for every message and secret, `calculateHMAC` returns exactly `HMAC_LENGTH` = 16
characters, each one of `0`-`9`, `a`-`f`, namely the two-digit lowercase hexadecimal
renderings of the first 8 bytes of the digest, in order. -/
theorem calculateHMAC_format (hmacSha256 : AString → AString → Digest)
    (message secret : AString) :
    (calculateHMAC hmacSha256 message secret).length = HMAC_LENGTH ∧
    (∀ c ∈ calculateHMAC hmacSha256 message secret, c ∈ "0123456789abcdef".toList) ∧
    calculateHMAC hmacSha256 message secret =
      (digestPrefix (hmacSha256 secret message)).flatMap hexByte :=
  ⟨calculateHMAC_length hmacSha256 message secret, calculateHMAC_mem hmacSha256 message secret,
   calculateHMAC_eq hmacSha256 message secret⟩

/-! ## The sequence generator -/

theorem decimal_lt_ten {n : Nat} (h : n < 10) : decimal n = [hexDigit n] := by
  rw [decimal_unfold]
  simp [h]

theorem decimal_ge_ten {n : Nat} (h : 10 ≤ n) :
    decimal n = decimal (n / 10) ++ [hexDigit (n % 10)] := by
  rw [decimal_unfold]
  have : ¬ n < 10 := by omega
  simp [this]

/-- `%03d` on a value in `0 .. 999`. -/
theorem sprintf03d_eq_pad3 (k : Nat) (h : k ≤ 999) : sprintf03d (k : Int) = pad3 k := by
  unfold sprintf03d pad3
  have hneg : ¬ ((k : Int) < 0) := by omega
  simp only [hneg, if_false, Int.toNat_ofNat]
  by_cases h1 : k < 10
  · rw [decimal_lt_ten h1]
    have a : k / 100 = 0 := by omega
    have b : k / 10 % 10 = 0 := by omega
    have c : k % 10 = k := by omega
    simp [zeroPad, a, b, c, hexDigit]
  · by_cases h2 : k < 100
    · rw [decimal_ge_ten (by omega), decimal_lt_ten (by omega : k / 10 < 10)]
      have a : k / 100 = 0 := by omega
      have b : k / 10 % 10 = k / 10 := by omega
      simp [zeroPad, a, b, hexDigit]
    · rw [decimal_ge_ten (by omega), decimal_ge_ten (by omega : 10 ≤ k / 10),
        decimal_lt_ten (by omega : k / 10 / 10 < 10)]
      have a : k / 10 / 10 = k / 100 := by omega
      simp [zeroPad, a]

theorem generateSequence_lt (c : Nat) (h : c < 999) :
    generateSequence (c : Int) = (pad3 (c + 1), ((c + 1 : Nat) : Int)) := by
  unfold generateSequence
  have h1 : ¬ ((c : Int) + 1 > 999) := by omega
  simp only [h1, if_false]
  rw [show ((c : Int) + 1) = ((c + 1 : Nat) : Int) from by push_cast; rfl,
    sprintf03d_eq_pad3 _ (by omega)]

theorem counterAfter_eq (n : Nat) :
    ∀ c : Nat, c + n ≤ 999 → counterAfter n (c : Int) = ((c + n : Nat) : Int) := by
  induction n with
  | zero => intro c _; rfl
  | succ n ih =>
    intro c h
    rw [counterAfter, generateSequence_lt c (by omega)]
    have := ih (c + 1) (by omega)
    rw [this]
    congr 1
    omega

theorem hexDigit_lt {a b : Nat} (h : a < b) (hb : b < 10) : hexDigit a < hexDigit b := by
  interval_cases b <;> interval_cases a <;> decide

theorem pad3_lt {j k : Nat} (h : j < k) (hk : k ≤ 999) : pad3 j < pad3 k := by
  unfold pad3
  show List.Lex (· < ·) _ _
  by_cases h1 : j / 100 < k / 100
  · exact List.Lex.rel (hexDigit_lt h1 (by omega))
  · have e1 : j / 100 = k / 100 := by omega
    rw [e1]
    refine List.Lex.cons ?_
    by_cases h2 : j / 10 % 10 < k / 10 % 10
    · exact List.Lex.rel (hexDigit_lt h2 (by omega))
    · have e2 : j / 10 % 10 = k / 10 % 10 := by omega
      rw [e2]
      refine List.Lex.cons ?_
      exact List.Lex.rel (hexDigit_lt (by omega) (by omega))

theorem nthCall_eq (k : Nat) (h1 : 1 ≤ k) (h2 : k ≤ 999) :
    nthCall k 0 = (pad3 k, (k : Int)) := by
  unfold nthCall
  have h := counterAfter_eq (k - 1) 0 (by omega)
  rw [show ((0 : Nat) : Int) = 0 from rfl] at h
  rw [h, generateSequence_lt _ (by omega)]
  have e : 0 + (k - 1) + 1 = k := by omega
  rw [e]

/-- C7: starting from `counter = 0`, for every `k` with `1 ≤ k ≤ 999` the `k`-th call of
`generateSequence` returns the zero-padded 3-digit decimal string of `k` and leaves the
counter at `k`; the returned strings are strictly increasing; and the 1000th call returns
`"001"` with the counter back at 1. -/
theorem generateSequence_from_zero :
    (∀ k, 1 ≤ k → k ≤ 999 → nthCall k 0 = (pad3 k, (k : Int))) ∧
    (∀ j k, 1 ≤ j → j < k → k ≤ 999 → (nthCall j 0).1 < (nthCall k 0).1) ∧
    nthCall 1000 0 = ("001".toList, 1) := by
  refine ⟨nthCall_eq, ?_, ?_⟩
  · intro j k hj hjk hk
    rw [nthCall_eq j hj (by omega), nthCall_eq k (by omega) hk]
    exact pad3_lt hjk hk
  · unfold nthCall
    have h := counterAfter_eq 999 0 (by omega)
    rw [show ((0 : Nat) : Int) = 0 from rfl] at h
    rw [show 1000 - 1 = 999 from rfl, h]
    decide

/-- Witness for C7: the 42nd call returns `"042"`, the 999th returns `"999"`, and the 41st
string is below the 42nd. -/
theorem generateSequence_from_zero_witness :
    nthCall 42 0 = ("042".toList, 42) ∧ nthCall 999 0 = ("999".toList, 999) ∧
    (nthCall 41 0).1 < (nthCall 42 0).1 :=
  ⟨generateSequence_from_zero.1 42 (by decide) (by decide),
   generateSequence_from_zero.1 999 (by decide) (by decide),
   generateSequence_from_zero.2.1 41 42 (by decide) (by decide) (by decide)⟩

/-! ## The data decoder on the documented examples -/

/-- C2: what the code does on the example payload
`BLR-13-IL-01:left:motherboard:40%,led_on:50%:1/5`: table and position are as documented, but
`detections` stops at the third `':'` (`motherboard`), `positionIndex` is read from the text
after it (`40`), and only `totalPositions` is `5`. -/
theorem parseDataPayload_example (msg : LoRaMessage) :
    (parseDataPayload { msg with payload := examplePayload }).data =
      { tableId := "BLR-13-IL-01".toList, position := "left".toList,
        detections := "motherboard".toList, positionIndex := 40, totalPositions := 5 } ∧
    (parseDataPayload { msg with payload := examplePayload }).data.detections ≠
      "motherboard:40%,led_on:50%".toList ∧
    (parseDataPayload { msg with payload := examplePayload }).data.positionIndex ≠ 1 := by
  have h0 : ¬ (equalsCStr examplePayload "null".toList = true ∨
      isEmpty examplePayload = true) := by decide
  have c2 : (scanColons examplePayload).1 ≥ 2 := by decide
  have c3 : (scanColons examplePayload).1 ≥ 3 := by decide
  have cs : indexOf (substringFrom examplePayload ((scanColons examplePayload).2.getD 2 (-1) + 1))
      '/' 0 ≠ -1 := by decide
  have e1 : substring examplePayload 0 ((scanColons examplePayload).2.getD 0 (-1)) =
      "BLR-13-IL-01".toList := by decide
  have e2 : substring examplePayload ((scanColons examplePayload).2.getD 0 (-1) + 1)
      ((scanColons examplePayload).2.getD 1 (-1)) = "left".toList := by decide
  have e3 : substring examplePayload ((scanColons examplePayload).2.getD 1 (-1) + 1)
      ((scanColons examplePayload).2.getD 2 (-1)) = "motherboard".toList := by decide
  have e4 : toInt (substring
      (substringFrom examplePayload ((scanColons examplePayload).2.getD 2 (-1) + 1)) 0
      (indexOf (substringFrom examplePayload ((scanColons examplePayload).2.getD 2 (-1) + 1))
        '/' 0)) = 40 := by decide
  have e5 : toInt (substringFrom
      (substringFrom examplePayload ((scanColons examplePayload).2.getD 2 (-1) + 1))
      (indexOf (substringFrom examplePayload ((scanColons examplePayload).2.getD 2 (-1) + 1))
        '/' 0 + 1)) = 5 := by decide
  have key : (parseDataPayload { msg with payload := examplePayload }).data =
      { tableId := "BLR-13-IL-01".toList, position := "left".toList,
        detections := "motherboard".toList, positionIndex := 40, totalPositions := 5 } := by
    unfold parseDataPayload
    dsimp only
    rw [if_neg h0, if_pos c2, if_pos c3, if_pos c3, if_pos cs, e1, e2, e3, e4, e5]
  rw [key]
  exact ⟨rfl, by decide, by decide⟩

/-- C3: what the code does on the example payload without suffix,
`BLR-13-IL-01:left:motherboard:40%,led_on:50%`: table and position are as documented and
`positionIndex`, `totalPositions` keep their previous values, but `detections` stops at the
third `':'` (`motherboard`). -/
theorem parseDataPayload_example_no_suffix (msg : LoRaMessage) :
    (parseDataPayload { msg with payload := examplePayloadNoSuffix }).data =
      { tableId := "BLR-13-IL-01".toList, position := "left".toList,
        detections := "motherboard".toList, positionIndex := msg.data.positionIndex,
        totalPositions := msg.data.totalPositions } ∧
    (parseDataPayload { msg with payload := examplePayloadNoSuffix }).data.detections ≠
      "motherboard:40%,led_on:50%".toList := by
  have h0 : ¬ (equalsCStr examplePayloadNoSuffix "null".toList = true ∨
      isEmpty examplePayloadNoSuffix = true) := by decide
  have c2 : (scanColons examplePayloadNoSuffix).1 ≥ 2 := by decide
  have c3 : (scanColons examplePayloadNoSuffix).1 ≥ 3 := by decide
  have cs : ¬ indexOf (substringFrom examplePayloadNoSuffix
      ((scanColons examplePayloadNoSuffix).2.getD 2 (-1) + 1)) '/' 0 ≠ -1 := by decide
  have e1 : substring examplePayloadNoSuffix 0
      ((scanColons examplePayloadNoSuffix).2.getD 0 (-1)) = "BLR-13-IL-01".toList := by decide
  have e2 : substring examplePayloadNoSuffix
      ((scanColons examplePayloadNoSuffix).2.getD 0 (-1) + 1)
      ((scanColons examplePayloadNoSuffix).2.getD 1 (-1)) = "left".toList := by decide
  have e3 : substring examplePayloadNoSuffix
      ((scanColons examplePayloadNoSuffix).2.getD 1 (-1) + 1)
      ((scanColons examplePayloadNoSuffix).2.getD 2 (-1)) = "motherboard".toList := by decide
  have key : (parseDataPayload { msg with payload := examplePayloadNoSuffix }).data =
      { tableId := "BLR-13-IL-01".toList, position := "left".toList,
        detections := "motherboard".toList, positionIndex := msg.data.positionIndex,
        totalPositions := msg.data.totalPositions } := by
    unfold parseDataPayload
    dsimp only
    rw [if_neg h0, if_pos c2, if_pos c3, if_pos c3, if_neg cs, e1, e2, e3]
  rw [key]
  refine ⟨rfl, ?_⟩
  show "motherboard".toList ≠ "motherboard:40%,led_on:50%".toList
  decide

/-! ## The health decoder as a fold over the `':'`-separated tokens -/

theorem parseHealthField_nil (health : HealthPayload) : parseHealthField [] health = health := rfl

theorem healthLoop_done (payload : AString) (fuel k : Nat) (health : HealthPayload)
    (hk : payload.length ≤ k) : healthLoop payload fuel (k : Nat) health = some health := by
  rw [healthLoop.eq_def]
  have : ¬ ((k : Int) < (payload.length : Nat)) := by omega
  simp [this]

theorem indexOf_of_strchr_none {raw : List Char} {ch : Char} {k : Nat}
    (h : strchr (raw.drop k) ch = none) : indexOf raw ch (k : Nat) = -1 := by
  unfold indexOf
  rw [toUnsigned_natCast]
  split_ifs
  · rfl
  · simp [h]

/-- No `ch` is found when a NUL comes before the first `ch`. -/
theorem strchr_none_of_nul_mem {tok : List Char} {ch : Char} (hn : NUL ∈ tok) (h : ch ∉ tok)
    (hch : ch ≠ NUL) (rest : List Char) : strchr (tok ++ ch :: rest) ch = none := by
  obtain ⟨a, b, rfl⟩ := List.append_of_mem hn
  have ha : ch ∉ a := fun e => h (by simp [e])
  rw [List.append_assoc, List.cons_append]
  exact strchr_nul ha hch _

theorem scanFields_single (x : AString) : scanFields [x] = [x] := by
  unfold scanFields
  split_ifs
  · simp [List.intercalate]
  · rfl

theorem scanFields_of_no_nul :
    ∀ toks : List AString, (∀ t ∈ toks, NUL ∉ t) → scanFields toks = toks := by
  intro toks
  induction toks with
  | nil => intro _; rfl
  | cons t ts ih =>
    intro h
    rw [scanFields, if_neg (h t (by simp)), ih (fun u hu => h u (by simp [hu]))]

theorem splitOn_first {tok : List Char} (htok : ':' ∉ tok) (rest : List Char) :
    List.splitOn ':' (tok ++ ':' :: rest) = tok :: List.splitOn ':' rest := by
  unfold List.splitOn
  exact List.splitOnP_first _ tok (fun x hx e => htok (by rw [beq_iff_eq] at e; exact e ▸ hx))
    ':' (by simp) rest

theorem splitOn_single {s : List Char} (h : ':' ∉ s) : List.splitOn ':' s = [s] := by
  unfold List.splitOn
  exact List.splitOnP_eq_single _ _ (fun x hx e => h (by rw [beq_iff_eq] at e; exact e ▸ hx))

/-- The token loop of `parseHealthPayload`, given enough fuel, applies `parseHealthField` to
the fields of the unread part of the payload, from left to right. -/
theorem healthLoop_eq_foldl (payload : AString) :
    ∀ (fuel k : Nat) (health : HealthPayload), payload.length - k ≤ fuel →
      healthLoop payload fuel (k : Nat) health =
        some ((scanFields (List.splitOn ':' (payload.drop k))).foldl
          (fun h tok => parseHealthField tok h) health) := by
  intro fuel
  induction fuel with
  | zero =>
    intro k health hf
    rw [healthLoop_done payload 0 k health (by omega), List.drop_eq_nil_of_le (by omega)]
    rfl
  | succ fuel ih =>
    intro k health hf
    by_cases hk : payload.length ≤ k
    · rw [healthLoop_done payload _ k health hk, List.drop_eq_nil_of_le hk]
      rfl
    · rw [healthLoop.eq_def]
      have hlt : ((k : Int) < (payload.length : Nat)) := by omega
      simp only [hlt, if_true]
      by_cases hm : ':' ∈ payload.drop k
      · obtain ⟨tok, rest, hd, htok⟩ := List.eq_append_cons_of_mem hm
        by_cases hnul : NUL ∈ tok
        · have hi : indexOf payload ':' (k : Nat) = -1 :=
            indexOf_of_strchr_none (by
              rw [hd]
              exact strchr_none_of_nul_mem hnul htok colon_ne_NUL rest)
          simp only [hi, if_true]
          rw [substringFrom_eq_drop, healthLoop_done payload fuel _ _ (Nat.le_refl _)]
          have e : scanFields (List.splitOn ':' (payload.drop k)) = [payload.drop k] := by
            have h1 : List.intercalate [':'] (List.splitOn ':' (payload.drop k)) =
                payload.drop k := List.intercalate_splitOn _ ':'
            rw [hd, splitOn_first htok] at h1 ⊢
            rw [scanFields, if_pos hnul, h1]
          rw [e]
          rfl
        · have hi := indexOf_of_drop hd htok hnul
          have hne : ¬ (((k + tok.length : Nat) : Int) = -1) := by omega
          simp only [hi, hne, if_false]
          rw [substring_of_drop hd,
            show ((k + tok.length : Nat) : Int) + 1 = ((k + tok.length + 1 : Nat) : Int) from by
              push_cast; rfl,
            ih (k + tok.length + 1) _ (by omega), drop_of_drop hd, hd, splitOn_first htok,
            scanFields, if_neg hnul]
          rfl
      · have hi := indexOf_of_drop_none hm colon_ne_NUL
        simp only [hi, if_true]
        rw [substringFrom_eq_drop, healthLoop_done payload fuel _ _ (Nat.le_refl _),
          splitOn_single hm, scanFields_single]
        rfl

/-- Every buffer is its C string, or its C string followed by a NUL and more. -/
theorem cstr_cases (s : List Char) : s = cstr s ∨ ∃ rest, s = cstr s ++ NUL :: rest := by
  induction s with
  | nil => left; rfl
  | cons c cs ih =>
    by_cases hc : c = NUL
    · right
      exact ⟨cs, by simp [cstr, hc]⟩
    · have e : cstr (c :: cs) = c :: cstr cs := by
        simp [cstr, hc]
      rw [e]
      rcases ih with h | ⟨rest, h⟩
      · left
        rw [← h]
      · right
        exact ⟨rest, by rw [List.cons_append, ← h]⟩

theorem parseHealthField_of_n (rest : List Char) (health : HealthPayload) :
    parseHealthField ('n' :: rest) health = health := by
  have h1 : startsWith ('n' :: rest) "bat_".toList = false := by
    rw [startsWith_eq bat_no_nul]
    split_ifs
    · rfl
    · simp
  have h2 : startsWith ('n' :: rest) "rssi_".toList = false := by
    rw [startsWith_eq rssi_no_nul]
    split_ifs
    · rfl
    · simp
  have h3 : startsWith ('n' :: rest) "snr_".toList = false := by
    rw [startsWith_eq snr_no_nul]
    split_ifs
    · rfl
    · simp
  unfold parseHealthField
  rw [h1, h2, h3]
  rfl

/-- On a payload that compares equal to `null` the fields leave the health triple as it
is. -/
theorem foldl_of_equals_null {payload : AString} (h : equalsCStr payload "null".toList = true)
    (health : HealthPayload) :
    (scanFields (List.splitOn ':' payload)).foldl (fun h tok => parseHealthField tok h) health =
      health := by
  have hc : cstr payload = "null".toList := by
    unfold equalsCStr at h
    rw [beq_iff_eq] at h
    rw [h]
    decide
  rcases cstr_cases payload with e | ⟨rest, e⟩
  · rw [hc] at e
    rw [e, show scanFields (List.splitOn ':' "null".toList) = ["null".toList] from by decide]
    exact parseHealthField_of_n "ull".toList health
  · rw [hc] at e
    have hs : strchr payload ':' = none := by
      rw [e]
      exact strchr_nul (by decide) colon_ne_NUL rest
    have hf : scanFields (List.splitOn ':' payload) = [payload] := by
      by_cases hm : ':' ∈ payload
      · obtain ⟨tok, more, hd, htok⟩ := List.eq_append_cons_of_mem hm
        have hnul : NUL ∈ tok := by
          by_contra hnn
          rw [hd, strchr_append htok hnn] at hs
          exact Option.noConfusion hs
        have h1 : List.intercalate [':'] (List.splitOn ':' payload) = payload :=
          List.intercalate_splitOn _ ':'
        rw [hd, splitOn_first htok] at h1 ⊢
        rw [scanFields, if_pos hnul, h1]
      · rw [splitOn_single hm, scanFields_single]
    rw [hf, e]
    exact parseHealthField_of_n ("ull".toList ++ NUL :: rest) health

/-- `parseHealthPayload` returns for every message, and the health triple it stores is the
fold of `parseHealthField` over the fields of the payload, started from the unknown triple. -/
theorem parseHealthPayload_eq_fields (msg : LoRaMessage) :
    parseHealthPayload msg =
      some { msg with health := ((scanFields (List.splitOn ':' msg.payload)).foldl
        (fun h tok => parseHealthField tok h) unknownHealth) } := by
  unfold parseHealthPayload
  by_cases h : equalsCStr msg.payload "null".toList = true ∨ isEmpty msg.payload = true
  · rw [if_pos h]
    rcases h with h | h
    · rw [foldl_of_equals_null h]
      rfl
    · have : msg.payload = [] := by
        unfold isEmpty at h
        simpa using h
      rw [this]
      rfl
  · rw [if_neg h]
    have := healthLoop_eq_foldl msg.payload msg.payload.length 0 unknownHealth (by omega)
    rw [show ((0 : Nat) : Int) = 0 from rfl, List.drop_zero] at this
    dsimp only
    rw [show ({ battery := -1, rssi := -999, snr := -999 } : HealthPayload) = unknownHealth from rfl,
      this]
    rfl

theorem mem_of_mem_intercalate {sep : List Char} {x : Char} :
    ∀ {toks : List (List Char)} {t : List Char}, t ∈ toks → x ∈ t →
      x ∈ List.intercalate sep toks := by
  intro toks
  induction toks with
  | nil => intro t ht; simp at ht
  | cons u us ih =>
    intro t ht hx
    cases us with
    | nil =>
      have : t = u := by simpa using ht
      subst this
      simpa [List.intercalate] using hx
    | cons v vs =>
      have e : List.intercalate sep (u :: v :: vs) = u ++ (sep ++ List.intercalate sep (v :: vs)) := by
        simp [List.intercalate]
      rw [e]
      rcases List.mem_cons.mp ht with h | h
      · subst h
        exact List.mem_append_left _ hx
      · exact List.mem_append_right _ (List.mem_append_right _ (ih h hx))

/-- The tokens of a payload without NUL are without NUL. -/
theorem splitOn_no_nul {payload : AString} (hn : NUL ∉ payload) :
    ∀ t ∈ List.splitOn ':' payload, NUL ∉ t := by
  intro t ht hx
  apply hn
  have h1 : List.intercalate [':'] (List.splitOn ':' payload) = payload :=
    List.intercalate_splitOn _ ':'
  rw [← h1]
  exact mem_of_mem_intercalate ht hx

/-- On a payload without NUL character the fields are the `':'`-separated tokens:
`parseHealthPayload` returns, and the health triple it stores is the fold of
`parseHealthField` over the tokens of the payload, started from the unknown triple. -/
theorem parseHealthPayload_eq (msg : LoRaMessage) (hn : NUL ∉ msg.payload) :
    parseHealthPayload msg =
      some { msg with health := ((List.splitOn ':' msg.payload).foldl
        (fun h tok => parseHealthField tok h) unknownHealth) } := by
  rw [parseHealthPayload_eq_fields, scanFields_of_no_nul _ (splitOn_no_nul hn)]

/-- A recognized prefix that starts a field which runs on behind a token with a NUL starts
that token. -/
theorem startsWith_of_append {pre t : List Char} (hn : NUL ∉ pre) (ht : NUL ∈ t)
    (more : List Char) (h : startsWith (t ++ more) pre = true) : startsWith t pre = true := by
  rw [startsWith_eq hn] at h ⊢
  by_cases hl : (t ++ more).length < pre.length
  · rw [if_pos hl] at h
    exact Bool.noConfusion h
  · rw [if_neg hl, beq_iff_eq] at h
    have hle : pre.length ≤ t.length := by
      by_contra hlt
      have e : (t ++ more).take pre.length = t ++ more.take (pre.length - t.length) := by
        rw [List.take_append_eq_append_take, List.take_of_length_le (by omega)]
      rw [e] at h
      exact hn (by rw [← h]; exact List.mem_append_left _ ht)
    have hl2 : ¬ t.length < pre.length := by omega
    rw [List.take_append_of_le_length hle] at h
    rw [if_neg hl2, beq_iff_eq, h]

/-- A prefix that starts none of the tokens starts none of the fields. -/
theorem scanFields_startsWith {pre : List Char} (hn : NUL ∉ pre) :
    ∀ toks : List AString, (∀ tok ∈ toks, startsWith tok pre = false) →
      ∀ f ∈ scanFields toks, startsWith f pre = false := by
  intro toks
  induction toks with
  | nil => intro _ f hf; simp [scanFields] at hf
  | cons t ts ih =>
    intro h f hf
    rw [scanFields] at hf
    by_cases hnul : NUL ∈ t
    · rw [if_pos hnul] at hf
      have hf' : f = List.intercalate [':'] (t :: ts) := by simpa using hf
      have e : ∃ more, List.intercalate [':'] (t :: ts) = t ++ more := by
        cases ts with
        | nil => exact ⟨[], by simp [List.intercalate]⟩
        | cons v vs => exact ⟨[':'] ++ List.intercalate [':'] (v :: vs), by simp [List.intercalate]⟩
      obtain ⟨more, e⟩ := e
      rw [hf', e]
      by_contra hc
      have hc' : startsWith (t ++ more) pre = true := by
        simpa using hc
      have := startsWith_of_append hn hnul more hc'
      rw [h t (by simp)] at this
      exact Bool.noConfusion this
    · rw [if_neg hnul] at hf
      rcases List.mem_cons.mp hf with e | e
      · rw [e]
        exact h t (by simp)
      · exact ih (fun tok ht => h tok (by simp [ht])) f e

theorem parseHealthField_battery {tok : AString} (h : startsWith tok "bat_".toList = false)
    (health : HealthPayload) : (parseHealthField tok health).battery = health.battery := by
  unfold parseHealthField
  rw [h]
  simp only [Bool.false_eq_true, if_false]
  split_ifs <;> rfl

theorem parseHealthField_rssi {tok : AString} (h : startsWith tok "rssi_".toList = false)
    (health : HealthPayload) : (parseHealthField tok health).rssi = health.rssi := by
  unfold parseHealthField
  rw [h]
  simp only [Bool.false_eq_true, if_false]
  split_ifs <;> rfl

theorem parseHealthField_snr {tok : AString} (h : startsWith tok "snr_".toList = false)
    (health : HealthPayload) : (parseHealthField tok health).snr = health.snr := by
  unfold parseHealthField
  rw [h]
  simp only [Bool.false_eq_true, if_false]
  split_ifs <;> rfl

theorem foldl_battery (toks : List AString) :
    ∀ health : HealthPayload, (∀ tok ∈ toks, startsWith tok "bat_".toList = false) →
      (toks.foldl (fun h tok => parseHealthField tok h) health).battery = health.battery := by
  induction toks with
  | nil => intro health _; rfl
  | cons t ts ih =>
    intro health h
    rw [List.foldl_cons, ih _ (fun tok ht => h tok (by simp [ht])),
      parseHealthField_battery (h t (by simp))]

theorem foldl_rssi (toks : List AString) :
    ∀ health : HealthPayload, (∀ tok ∈ toks, startsWith tok "rssi_".toList = false) →
      (toks.foldl (fun h tok => parseHealthField tok h) health).rssi = health.rssi := by
  induction toks with
  | nil => intro health _; rfl
  | cons t ts ih =>
    intro health h
    rw [List.foldl_cons, ih _ (fun tok ht => h tok (by simp [ht])),
      parseHealthField_rssi (h t (by simp))]

theorem foldl_snr (toks : List AString) :
    ∀ health : HealthPayload, (∀ tok ∈ toks, startsWith tok "snr_".toList = false) →
      (toks.foldl (fun h tok => parseHealthField tok h) health).snr = health.snr := by
  induction toks with
  | nil => intro health _; rfl
  | cons t ts ih =>
    intro health h
    rw [List.foldl_cons, ih _ (fun tok ht => h tok (by simp [ht])),
      parseHealthField_snr (h t (by simp))]

/-! ## The health decoder: unknown sentinels -/

/-- C5: for every message, `parseHealthPayload` returns, and each health field whose prefix
(`bat_`, `rssi_`, `snr_`) starts none of the `':'`-separated tokens of the payload holds its
unknown sentinel (`battery = -1`, `rssi = -999`, `snr = -999`), whatever it held before. -/
theorem parseHealthPayload_unknown (msg : LoRaMessage) :
    ∃ out, parseHealthPayload msg = some out ∧
      ((∀ tok ∈ List.splitOn ':' msg.payload, startsWith tok "bat_".toList = false) →
        out.health.battery = -1) ∧
      ((∀ tok ∈ List.splitOn ':' msg.payload, startsWith tok "rssi_".toList = false) →
        out.health.rssi = -999) ∧
      ((∀ tok ∈ List.splitOn ':' msg.payload, startsWith tok "snr_".toList = false) →
        out.health.snr = -999) :=
  ⟨_, parseHealthPayload_eq_fields msg,
    fun h => foldl_battery _ unknownHealth (scanFields_startsWith bat_no_nul _ h),
    fun h => foldl_rssi _ unknownHealth (scanFields_startsWith rssi_no_nul _ h),
    fun h => foldl_snr _ unknownHealth (scanFields_startsWith snr_no_nul _ h)⟩

/-- Witness for C5: the payloads `null` and the empty payload give the triple
`(-1, -999, -999)`, and `bat_95` gives `battery = 95` with `rssi = -999` and `snr = -999`. -/
theorem parseHealthPayload_unknown_witness :
    (∃ out, parseHealthPayload { sampleStack with payload := "null".toList } = some out ∧
      out.health = { battery := -1, rssi := -999, snr := -999 }) ∧
    (∃ out, parseHealthPayload { sampleStack with payload := [] } = some out ∧
      out.health = { battery := -1, rssi := -999, snr := -999 }) ∧
    (∃ out, parseHealthPayload { sampleStack with payload := "bat_95".toList } = some out ∧
      out.health = { battery := 95, rssi := -999, snr := -999 }) := by
  refine ⟨?_, ?_, ?_⟩
  · obtain ⟨out, h, hb, hr, hs⟩ :=
      parseHealthPayload_unknown { sampleStack with payload := "null".toList }
    refine ⟨out, h, ?_⟩
    have e1 := hb (by decide)
    have e2 := hr (by decide)
    have e3 := hs (by decide)
    cases hh : out.health
    rw [hh] at e1 e2 e3
    simp only at e1 e2 e3
    rw [e1, e2, e3]
  · obtain ⟨out, h, hb, hr, hs⟩ := parseHealthPayload_unknown { sampleStack with payload := [] }
    refine ⟨out, h, ?_⟩
    have e1 := hb (by decide)
    have e2 := hr (by decide)
    have e3 := hs (by decide)
    cases hh : out.health
    rw [hh] at e1 e2 e3
    simp only at e1 e2 e3
    rw [e1, e2, e3]
  · obtain ⟨out, h, _, hr, hs⟩ :=
      parseHealthPayload_unknown { sampleStack with payload := "bat_95".toList }
    refine ⟨out, h, ?_⟩
    have e1 : out.health.battery = 95 := by
      have h' : parseHealthPayload { sampleStack with payload := "bat_95".toList } =
          some { sampleStack with payload := "bat_95".toList,
                                  health := { battery := 95, rssi := -999, snr := -999 } } := by
        decide
      rw [h'] at h
      injection h with h
      rw [← h]
    have e2 := hr (by decide)
    have e3 := hs (by decide)
    cases hh : out.health
    rw [hh] at e1 e2 e3
    simp only at e1 e2 e3
    rw [e1, e2, e3]

/-! ## The health decoder on a full triple -/

theorem renderInt_no_colon (v : Int) : ':' ∉ renderInt v := by
  unfold renderInt
  split_ifs
  · intro h
    rcases List.mem_cons.mp h with h | h
    · revert h
      decide
    · exact decimal_no_colon _ h
  · exact decimal_no_colon _

/-- Reading back the decimal text of a value in the `int` range. -/
theorem toInt_renderInt (v : Int) (h1 : -2147483648 ≤ v) (h2 : v ≤ 2147483647) :
    toInt (renderInt v) = v := by
  unfold renderInt
  split_ifs with hneg
  · have h := toInt_minus_decimal_append v.natAbs (by omega) [] (by simp)
    rw [List.append_nil] at h
    rw [h]
    omega
  · rw [toInt_decimal _ (by omega)]
    omega

theorem renderInt_no_nul (v : Int) : NUL ∉ renderInt v := by
  unfold renderInt
  split_ifs
  · intro h
    rcases List.mem_cons.mp h with h | h
    · revert h
      decide
    · exact decimal_no_nul _ h
  · exact decimal_no_nul _

theorem startsWith_append_self {pre : List Char} (hn : NUL ∉ pre) (text : List Char) :
    startsWith (pre ++ text) pre = true := by
  rw [startsWith_eq hn]
  simp

theorem parseHealthField_bat (text : AString) (health : HealthPayload) :
    parseHealthField ("bat_".toList ++ text) health =
      { health with battery := toInt text } := by
  have hs : startsWith ("bat_".toList ++ text) "bat_".toList = true :=
    startsWith_append_self bat_no_nul text
  have hsub : substringFrom ("bat_".toList ++ text) 4 = text :=
    substringFrom_append "bat_".toList text
  unfold parseHealthField
  rw [hs, hsub]
  rfl

theorem parseHealthField_rssi_text (text : AString) (health : HealthPayload) :
    parseHealthField ("rssi_".toList ++ text) health =
      { health with rssi := toInt text } := by
  have hb : startsWith ("rssi_".toList ++ text) "bat_".toList = false := by
    rw [startsWith_eq bat_no_nul]
    split_ifs
    · rfl
    · simp
  have hs : startsWith ("rssi_".toList ++ text) "rssi_".toList = true :=
    startsWith_append_self rssi_no_nul text
  have hsub : substringFrom ("rssi_".toList ++ text) 5 = text :=
    substringFrom_append "rssi_".toList text
  unfold parseHealthField
  rw [hb, hs, hsub]
  rfl

theorem parseHealthField_snr_text (text : AString) (health : HealthPayload) :
    parseHealthField ("snr_".toList ++ text) health =
      { health with snr := toInt text } := by
  have hb : startsWith ("snr_".toList ++ text) "bat_".toList = false := by
    rw [startsWith_eq bat_no_nul]
    split_ifs
    · rfl
    · simp
  have hr : startsWith ("snr_".toList ++ text) "rssi_".toList = false := by
    rw [startsWith_eq rssi_no_nul]
    split_ifs
    · rfl
    · simp
  have hs : startsWith ("snr_".toList ++ text) "snr_".toList = true :=
    startsWith_append_self snr_no_nul text
  have hsub : substringFrom ("snr_".toList ++ text) 4 = text :=
    substringFrom_append "snr_".toList text
  unfold parseHealthField
  rw [hb, hr, hs, hsub]
  rfl

theorem splitOn_three (a b c : List Char) (ha : ':' ∉ a) (hb : ':' ∉ b) (hc : ':' ∉ c) :
    List.splitOn ':' (a ++ ':' :: (b ++ ':' :: c)) = [a, b, c] := by
  unfold List.splitOn
  rw [List.splitOnP_first _ a (fun x hx e => ha (by rw [beq_iff_eq] at e; exact e ▸ hx)) ':'
      (by simp),
    List.splitOnP_first _ b (fun x hx e => hb (by rw [beq_iff_eq] at e; exact e ▸ hx)) ':'
      (by simp),
    List.splitOnP_eq_single _ c (fun x hx e => hc (by rw [beq_iff_eq] at e; exact e ▸ hx))]

/-- C4: for all integers `b`, `r`, `s` in the `int` range, `parseHealthPayload` on the payload
`bat_<b>:rssi_<r>:snr_<s>` (negative values written with a leading `'-'`) returns with
`battery = b`, `rssi = r` and `snr = s`. -/
theorem parseHealthPayload_triple (msg : LoRaMessage) (b r s : Int)
    (hb : -2147483648 ≤ b ∧ b ≤ 2147483647) (hr : -2147483648 ≤ r ∧ r ≤ 2147483647)
    (hs : -2147483648 ≤ s ∧ s ≤ 2147483647) :
    ∃ out,
      parseHealthPayload { msg with payload := ("bat_".toList ++ renderInt b ++
        ":rssi_".toList ++ renderInt r ++ ":snr_".toList ++ renderInt s) } = some out ∧
      out.health.battery = b ∧ out.health.rssi = r ∧ out.health.snr = s := by
  have hnul : NUL ∉ "bat_".toList ++ renderInt b ++ ":rssi_".toList ++ renderInt r ++
      ":snr_".toList ++ renderInt s := by
    simp only [List.mem_append, not_or]
    exact ⟨⟨⟨⟨⟨by decide, renderInt_no_nul b⟩, by decide⟩, renderInt_no_nul r⟩, by decide⟩,
      renderInt_no_nul s⟩
  refine ⟨_, parseHealthPayload_eq _ hnul, ?_⟩
  have e : "bat_".toList ++ renderInt b ++ ":rssi_".toList ++ renderInt r ++ ":snr_".toList ++
      renderInt s =
      ("bat_".toList ++ renderInt b) ++ ':' :: (("rssi_".toList ++ renderInt r) ++ ':' ::
        ("snr_".toList ++ renderInt s)) := by
    simp
  have n1 : ':' ∉ "bat_".toList ++ renderInt b := by
    simp [renderInt_no_colon]
  have n2 : ':' ∉ "rssi_".toList ++ renderInt r := by
    simp [renderInt_no_colon]
  have n3 : ':' ∉ "snr_".toList ++ renderInt s := by
    simp [renderInt_no_colon]
  dsimp only
  rw [e, splitOn_three _ _ _ n1 n2 n3]
  simp only [List.foldl_cons, List.foldl_nil, parseHealthField_bat, parseHealthField_rssi_text,
    parseHealthField_snr_text, toInt_renderInt b hb.1 hb.2, toInt_renderInt r hr.1 hr.2,
    toInt_renderInt s hs.1 hs.2, and_self]

/-- Witness for C4: the payload `bat_95:rssi_-45:snr_8` gives `battery = 95`, `rssi = -45`
and `snr = 8`. -/
theorem parseHealthPayload_triple_witness :
    "bat_".toList ++ renderInt 95 ++ ":rssi_".toList ++ renderInt (-45) ++ ":snr_".toList ++
      renderInt 8 = "bat_95:rssi_-45:snr_8".toList ∧
    ∃ out,
      parseHealthPayload { sampleStack with payload := ("bat_".toList ++ renderInt 95 ++
        ":rssi_".toList ++ renderInt (-45) ++ ":snr_".toList ++ renderInt 8) } = some out ∧
      out.health.battery = 95 ∧ out.health.rssi = -45 ∧ out.health.snr = 8 :=
  ⟨by decide,
   parseHealthPayload_triple sampleStack 95 (-45) 8 (by decide) (by decide) (by decide)⟩

/-! ## The health decoder on a payload given by its tokens -/

theorem foldl_splitOn_intercalate (toks : List AString) (hfree : ∀ t ∈ toks, ':' ∉ t)
    (health : HealthPayload) :
    (List.splitOn ':' ([':'].intercalate toks)).foldl (fun h tok => parseHealthField tok h) health
      = toks.foldl (fun h tok => parseHealthField tok h) health := by
  by_cases h : toks = []
  · subst h
    rfl
  · rw [List.splitOn_intercalate toks ':' hfree h]

theorem intercalate_no_nul :
    ∀ toks : List AString, (∀ t ∈ toks, NUL ∉ t) → NUL ∉ [':'].intercalate toks := by
  intro toks
  induction toks with
  | nil => intro _; simp [List.intercalate]
  | cons u us ih =>
    intro h
    cases us with
    | nil => simpa [List.intercalate] using h u (by simp)
    | cons v vs =>
      have e : List.intercalate [':'] (u :: v :: vs) =
          u ++ ([':'] ++ List.intercalate [':'] (v :: vs)) := by
        simp [List.intercalate]
      rw [e]
      intro hm
      rcases List.mem_append.mp hm with h1 | h1
      · exact h u (by simp) h1
      · rcases List.mem_append.mp h1 with h2 | h2
        · revert h2
          decide
        · exact ih (fun t ht => h t (by simp [ht])) h2

/-- The health decoder on the `':'`-join of tokens without `':'` and without NUL folds
`parseHealthField` over these tokens. -/
theorem parseHealthPayload_intercalate (msg : LoRaMessage) (toks : List AString)
    (hfree : ∀ t ∈ toks, ':' ∉ t) (hnul : ∀ t ∈ toks, NUL ∉ t) :
    (parseHealthPayload { msg with payload := [':'].intercalate toks }).map (fun m => m.health) =
      some (toks.foldl (fun h tok => parseHealthField tok h) unknownHealth) := by
  rw [parseHealthPayload_eq _ (intercalate_no_nul toks hnul)]
  simp only [Option.map_some']
  rw [foldl_splitOn_intercalate toks hfree]

theorem startsWith_eq_true {t pre : AString} (hn : NUL ∉ pre) (h : startsWith t pre = true) :
    ∃ rest, t = pre ++ rest := by
  rw [startsWith_eq hn] at h
  by_cases hl : t.length < pre.length
  · simp [hl] at h
  · simp only [hl, if_false, beq_iff_eq] at h
    have e := List.take_append_drop pre.length t
    rw [h] at e
    exact ⟨t.drop pre.length, e.symm⟩

theorem parseHealthField_unrecognized {u : AString} (hb : startsWith u "bat_".toList = false)
    (hr : startsWith u "rssi_".toList = false) (hs : startsWith u "snr_".toList = false)
    (health : HealthPayload) : parseHealthField u health = health := by
  unfold parseHealthField
  rw [hb, hr, hs]
  rfl

theorem foldl_unrecognized (pre post : List AString) (u : AString)
    (hb : startsWith u "bat_".toList = false) (hr : startsWith u "rssi_".toList = false)
    (hs : startsWith u "snr_".toList = false) (health : HealthPayload) :
    (pre ++ u :: post).foldl (fun h tok => parseHealthField tok h) health =
      (pre ++ post).foldl (fun h tok => parseHealthField tok h) health := by
  rw [List.foldl_append, List.foldl_append, List.foldl_cons,
    parseHealthField_unrecognized hb hr hs]

theorem eq_of_countP_le_one {p : AString → Bool} :
    ∀ (toks : List AString), toks.countP p ≤ 1 →
      ∀ x ∈ toks, ∀ y ∈ toks, p x = true → p y = true → x = y := by
  intro toks
  induction toks with
  | nil => intro _ x hx; simp at hx
  | cons t ts ih =>
    intro hc x hx y hy px py
    rw [List.countP_cons] at hc
    rcases List.mem_cons.mp hx with rfl | hx' <;> rcases List.mem_cons.mp hy with rfl | hy'
    · rfl
    · have : 0 < ts.countP p := List.countP_pos_iff.mpr ⟨y, hy', py⟩
      simp only [px, if_true] at hc
      omega
    · have : 0 < ts.countP p := List.countP_pos_iff.mpr ⟨x, hx', px⟩
      simp only [py, if_true] at hc
      omega
    · exact ih (by omega) x hx' y hy' px py

/-- Two different tokens that do not carry the same recognized prefix can be decoded in either
order. -/
theorem parseHealthField_comm (x y : AString) (health : HealthPayload)
    (hb : startsWith x "bat_".toList = true → startsWith y "bat_".toList = true → x = y)
    (hr : startsWith x "rssi_".toList = true → startsWith y "rssi_".toList = true → x = y)
    (hs : startsWith x "snr_".toList = true → startsWith y "snr_".toList = true → x = y) :
    parseHealthField y (parseHealthField x health) =
      parseHealthField x (parseHealthField y health) := by
  by_cases hxy : x = y
  · subst hxy
    rfl
  · unfold parseHealthField
    split_ifs <;> first | rfl | (exfalso; simp_all)

/-! ## The health decoder: order, duplicates, unrecognized tokens -/

/-- C11, as stated, fails when a token holds a NUL character: the `':'`-free tokens `x<NUL>`
(an `x` followed by a NUL) and `bat_5`, of which one starts with `bat_` and none with `rssi_`
or `snr_`, decode to the triple `(-1, -999, -999)` when joined in this order and to
`(5, -999, -999)` when joined in the other order. -/
theorem parseHealthPayload_perm_nul :
    (parseHealthPayload { sampleStack with payload := ([':'].intercalate
      [['x', NUL], "bat_5".toList]) }).map (fun m => m.health) =
      some { battery := -1, rssi := -999, snr := -999 } ∧
    (parseHealthPayload { sampleStack with payload := ([':'].intercalate
      ["bat_5".toList, ['x', NUL]]) }).map (fun m => m.health) =
      some { battery := 5, rssi := -999, snr := -999 } := by
  decide

/-- C11 (amended): for every list of tokens without `':'` and without NUL character in which
at most one token starts with each of `bat_`, `rssi_`, `snr_`, the health decoder returns the
same `(battery, rssi, snr)` triple on the `':'`-join of the tokens and on the `':'`-join of
any permutation of them. -/
theorem parseHealthPayload_perm (msg : LoRaMessage) (toks toks' : List AString)
    (hperm : toks.Perm toks') (hfree : ∀ t ∈ toks, ':' ∉ t) (hnul : ∀ t ∈ toks, NUL ∉ t)
    (hbat : toks.countP (fun t => startsWith t "bat_".toList) ≤ 1)
    (hrssi : toks.countP (fun t => startsWith t "rssi_".toList) ≤ 1)
    (hsnr : toks.countP (fun t => startsWith t "snr_".toList) ≤ 1) :
    ∃ health,
      (parseHealthPayload { msg with payload := [':'].intercalate toks }).map
        (fun m => m.health) = some health ∧
      (parseHealthPayload { msg with payload := [':'].intercalate toks' }).map
        (fun m => m.health) = some health := by
  refine ⟨_, parseHealthPayload_intercalate msg toks hfree hnul, ?_⟩
  rw [parseHealthPayload_intercalate msg toks' (fun t ht => hfree t (hperm.mem_iff.mpr ht))
    (fun t ht => hnul t (hperm.mem_iff.mpr ht))]
  congr 1
  refine (List.Perm.foldl_eq' hperm ?_ unknownHealth).symm
  intro x hx y hy z
  exact parseHealthField_comm x y z
    (fun px py => eq_of_countP_le_one toks hbat x hx y hy px py)
    (fun px py => eq_of_countP_le_one toks hrssi x hx y hy px py)
    (fun px py => eq_of_countP_le_one toks hsnr x hx y hy px py)

/-- Witness for C11 (amended): `bat_95:rssi_-45:snr_8` and `snr_8:bat_95:rssi_-45` decode to
the same triple. -/
theorem parseHealthPayload_perm_witness :
    ∃ health,
      (parseHealthPayload { sampleStack with payload := ([':'].intercalate
        ["bat_95".toList, "rssi_-45".toList, "snr_8".toList]) }).map
        (fun m => m.health) = some health ∧
      (parseHealthPayload { sampleStack with payload := ([':'].intercalate
        ["snr_8".toList, "bat_95".toList, "rssi_-45".toList]) }).map
        (fun m => m.health) = some health :=
  parseHealthPayload_perm sampleStack ["bat_95".toList, "rssi_-45".toList, "snr_8".toList]
    ["snr_8".toList, "bat_95".toList, "rssi_-45".toList] (by decide) (by decide) (by decide)
    (by decide) (by decide) (by decide)

/-- C12, as stated, fails when the payload holds a NUL character: the payload
`bat_1<NUL>:bat_2` (a NUL after the `1`) has the tokens `bat_1<NUL>` and `bat_2`, the last
token that starts with `bat_` has the value 2, and the health decoder returns
`battery = 1`. -/
theorem parseHealthPayload_last_wins_nul :
    List.splitOn ':' ("bat_1".toList ++ NUL :: ":bat_2".toList) =
      ["bat_1".toList ++ [NUL], "bat_2".toList] ∧
    toInt ("bat_2".toList.drop 4) = 2 ∧
    (parseHealthPayload { sampleStack with
      payload := ("bat_1".toList ++ NUL :: ":bat_2".toList) }).map
        (fun m => m.health.battery) = some 1 := by
  decide

/-- C12 (amended): for every payload without NUL character, when `t` is the last of the
`':'`-separated tokens of the payload that starts with a recognized prefix (`bat_`, `rssi_`
or `snr_`), the health decoder returns with the corresponding field equal to the integer
value of the text of `t` after the prefix, whatever tokens with that prefix come before
it. -/
theorem parseHealthPayload_last_wins (msg : LoRaMessage) (pre post : List AString) (t : AString)
    (hnul : NUL ∉ msg.payload)
    (hsplit : List.splitOn ':' msg.payload = pre ++ t :: post) :
    ∃ out, parseHealthPayload msg = some out ∧
      (startsWith t "bat_".toList = true →
        (∀ u ∈ post, startsWith u "bat_".toList = false) →
        out.health.battery = toInt (t.drop 4)) ∧
      (startsWith t "rssi_".toList = true →
        (∀ u ∈ post, startsWith u "rssi_".toList = false) →
        out.health.rssi = toInt (t.drop 5)) ∧
      (startsWith t "snr_".toList = true →
        (∀ u ∈ post, startsWith u "snr_".toList = false) →
        out.health.snr = toInt (t.drop 4)) := by
  refine ⟨_, parseHealthPayload_eq msg hnul, ?_, ?_, ?_⟩
  · intro ht hpost
    obtain ⟨rest, rfl⟩ := startsWith_eq_true bat_no_nul ht
    show HealthPayload.battery (List.foldl _ _ (List.splitOn ':' msg.payload)) = _
    rw [hsplit, List.foldl_append, List.foldl_cons, foldl_battery post _ hpost,
      parseHealthField_bat]
    rfl
  · intro ht hpost
    obtain ⟨rest, rfl⟩ := startsWith_eq_true rssi_no_nul ht
    show HealthPayload.rssi (List.foldl _ _ (List.splitOn ':' msg.payload)) = _
    rw [hsplit, List.foldl_append, List.foldl_cons, foldl_rssi post _ hpost,
      parseHealthField_rssi_text]
    rfl
  · intro ht hpost
    obtain ⟨rest, rfl⟩ := startsWith_eq_true snr_no_nul ht
    show HealthPayload.snr (List.foldl _ _ (List.splitOn ':' msg.payload)) = _
    rw [hsplit, List.foldl_append, List.foldl_cons, foldl_snr post _ hpost,
      parseHealthField_snr_text]
    rfl

/-- Witness for C12 (amended): the payload `bat_10:bat_20` gives `battery = 20`. -/
theorem parseHealthPayload_last_wins_witness :
    ∃ out, parseHealthPayload { sampleStack with payload := "bat_10:bat_20".toList } = some out ∧
      out.health.battery = 20 := by
  obtain ⟨out, h, hb, _, _⟩ := parseHealthPayload_last_wins
    { sampleStack with payload := "bat_10:bat_20".toList } ["bat_10".toList] [] "bat_20".toList
    (by decide) (by decide)
  exact ⟨out, h, (hb (by decide) (by decide)).trans (by decide)⟩

/-- C13, as stated, fails when a token holds a NUL character: the `':'`-free token `x<NUL>`
(an `x` followed by a NUL) starts with none of `bat_`, `rssi_`, `snr_`; the payload `bat_5`
decodes to `battery = 5`, and with this token inserted before it, `x<NUL>:bat_5`, to
`battery = -1`. -/
theorem parseHealthPayload_unrecognized_nul :
    startsWith ['x', NUL] "bat_".toList = false ∧
    startsWith ['x', NUL] "rssi_".toList = false ∧
    startsWith ['x', NUL] "snr_".toList = false ∧
    (parseHealthPayload { sampleStack with payload := ([':'].intercalate
      ([] ++ ['x', NUL] :: ["bat_5".toList])) }).map (fun m => m.health) =
      some { battery := -1, rssi := -999, snr := -999 } ∧
    (parseHealthPayload { sampleStack with payload := ([':'].intercalate
      ([] ++ ["bat_5".toList])) }).map (fun m => m.health) =
      some { battery := 5, rssi := -999, snr := -999 } := by
  decide

/-- C13 (amended): inserting into (or removing from) the token list of a payload whose tokens
hold neither `':'` nor NUL a token without `':'` and without NUL that starts with none of
`bat_`, `rssi_`, `snr_`, at any token position, does not change the `(battery, rssi, snr)`
triple returned by the health decoder. -/
theorem parseHealthPayload_ignores_unrecognized (msg : LoRaMessage) (pre post : List AString)
    (u : AString) (hpre : ∀ t ∈ pre, ':' ∉ t) (hpost : ∀ t ∈ post, ':' ∉ t) (hu : ':' ∉ u)
    (npre : ∀ t ∈ pre, NUL ∉ t) (npost : ∀ t ∈ post, NUL ∉ t) (nu : NUL ∉ u)
    (hb : startsWith u "bat_".toList = false) (hr : startsWith u "rssi_".toList = false)
    (hs : startsWith u "snr_".toList = false) :
    ∃ health,
      (parseHealthPayload { msg with payload := [':'].intercalate (pre ++ u :: post) }).map
        (fun m => m.health) = some health ∧
      (parseHealthPayload { msg with payload := [':'].intercalate (pre ++ post) }).map
        (fun m => m.health) = some health := by
  have h1 : ∀ t ∈ pre ++ u :: post, ':' ∉ t := by
    intro t ht
    rcases List.mem_append.mp ht with h | h
    · exact hpre t h
    · rcases List.mem_cons.mp h with rfl | h
      · exact hu
      · exact hpost t h
  have h2 : ∀ t ∈ pre ++ post, ':' ∉ t := by
    intro t ht
    rcases List.mem_append.mp ht with h | h
    · exact hpre t h
    · exact hpost t h
  have n1 : ∀ t ∈ pre ++ u :: post, NUL ∉ t := by
    intro t ht
    rcases List.mem_append.mp ht with h | h
    · exact npre t h
    · rcases List.mem_cons.mp h with rfl | h
      · exact nu
      · exact npost t h
  have n2 : ∀ t ∈ pre ++ post, NUL ∉ t := by
    intro t ht
    rcases List.mem_append.mp ht with h | h
    · exact npre t h
    · exact npost t h
  refine ⟨_, parseHealthPayload_intercalate msg _ h1 n1, ?_⟩
  rw [parseHealthPayload_intercalate msg _ h2 n2, foldl_unrecognized pre post u hb hr hs]

/-- Witness for C13 (amended): `bat_95:fw_2:snr_8` and `bat_95:snr_8` decode to the same
triple. -/
theorem parseHealthPayload_ignores_unrecognized_witness :
    [':'].intercalate (["bat_95".toList] ++ "fw_2".toList :: ["snr_8".toList]) =
      "bat_95:fw_2:snr_8".toList ∧
    [':'].intercalate (["bat_95".toList] ++ ["snr_8".toList]) = "bat_95:snr_8".toList ∧
    ∃ health,
      (parseHealthPayload { sampleStack with payload := ([':'].intercalate
        (["bat_95".toList] ++ "fw_2".toList :: ["snr_8".toList])) }).map
        (fun m => m.health) = some health ∧
      (parseHealthPayload { sampleStack with payload := ([':'].intercalate
        (["bat_95".toList] ++ ["snr_8".toList])) }).map (fun m => m.health) = some health :=
  ⟨by decide, by decide,
   parseHealthPayload_ignores_unrecognized sampleStack ["bat_95".toList] ["snr_8".toList]
    "fw_2".toList (by decide) (by decide) (by decide) (by decide) (by decide) (by decide)
    (by decide) (by decide) (by decide)⟩

/-! ## Frames with at least five `':'` -/

theorem exists_first_colon {s : List Char} (h : 0 < s.count ':') :
    ∃ tok rest, s = tok ++ ':' :: rest ∧ ':' ∉ tok ∧ s.count ':' = rest.count ':' + 1 := by
  obtain ⟨tok, rest, hs, htok⟩ := List.eq_append_cons_of_mem (List.count_pos_iff.mp h)
  refine ⟨tok, rest, hs, htok, ?_⟩
  rw [hs, List.count_append, List.count_cons_self, List.count_eq_zero_of_not_mem htok]
  omega

/-- Every string with at least five `':'` is a frame: five `':'`-free header fields, each
followed by `':'`, and a remainder. -/
theorem exists_frame {raw : List Char} (h : 5 ≤ raw.count ':') :
    ∃ f0 f1 f2 f3 f4 p, raw = f0 ++ ':' :: (f1 ++ ':' :: (f2 ++ ':' :: (f3 ++ ':' ::
      (f4 ++ ':' :: p)))) ∧ ':' ∉ f0 ∧ ':' ∉ f1 ∧ ':' ∉ f2 ∧ ':' ∉ f3 ∧ ':' ∉ f4 := by
  obtain ⟨f0, r0, e0, h0, c0⟩ := exists_first_colon (s := raw) (by omega)
  obtain ⟨f1, r1, e1, h1, c1⟩ := exists_first_colon (s := r0) (by omega)
  obtain ⟨f2, r2, e2, h2, c2⟩ := exists_first_colon (s := r1) (by omega)
  obtain ⟨f3, r3, e3, h3, c3⟩ := exists_first_colon (s := r2) (by omega)
  obtain ⟨f4, r4, e4, h4, _⟩ := exists_first_colon (s := r3) (by omega)
  exact ⟨f0, f1, f2, f3, f4, r4, by rw [e0, e1, e2, e3, e4], h0, h1, h2, h3, h4⟩

theorem cstr_no_nul (s : List Char) : NUL ∉ cstr s := by
  intro h
  have := List.mem_takeWhile_imp h
  simp at this

/-- Every string with at least five `':'` before its first NUL is a frame: five header
fields without `':'` and without NUL, each followed by `':'`, and a remainder. -/
theorem exists_frame_cstr {raw : List Char} (h : 5 ≤ (cstr raw).count ':') :
    ∃ f0 f1 f2 f3 f4 p, raw = f0 ++ ':' :: (f1 ++ ':' :: (f2 ++ ':' :: (f3 ++ ':' ::
      (f4 ++ ':' :: p)))) ∧ (':' ∉ f0 ∧ ':' ∉ f1 ∧ ':' ∉ f2 ∧ ':' ∉ f3 ∧ ':' ∉ f4) ∧
      (NUL ∉ f0 ∧ NUL ∉ f1 ∧ NUL ∉ f2 ∧ NUL ∉ f3 ∧ NUL ∉ f4) := by
  obtain ⟨f0, f1, f2, f3, f4, p, e, h0, h1, h2, h3, h4⟩ := exists_frame h
  have hn := cstr_no_nul raw
  rw [e] at hn
  simp only [List.mem_append, List.mem_cons, not_or] at hn
  have hraw : ∃ tail, raw = cstr raw ++ tail := by
    rcases cstr_cases raw with hc | ⟨rest, hc⟩
    · exact ⟨[], by rw [List.append_nil]; exact hc⟩
    · exact ⟨NUL :: rest, hc⟩
  obtain ⟨tail, hraw⟩ := hraw
  refine ⟨f0, f1, f2, f3, f4, p ++ tail, ?_, ⟨h0, h1, h2, h3, h4⟩,
    ⟨hn.1, hn.2.2.1, hn.2.2.2.2.1, hn.2.2.2.2.2.2.1, hn.2.2.2.2.2.2.2.2.1⟩⟩
  rw [hraw, e]
  simp

theorem atolDigits_of_not_digit {s : List Char}
    (h : ∀ c, s.head? = some c → isDigit c = false) : atolDigits s 0 = 0 := by
  cases s with
  | nil => rfl
  | cons c cs => simp [atolDigits, h c rfl]

/-- `toInt` returns 0 on a text that, after leading white space, does not start with an
optional sign followed by a digit. -/
theorem toInt_of_not_startsNumeric {s : AString}
    (h : startsNumeric (s.dropWhile isSpace) = false) : toInt s = 0 := by
  unfold toInt atol
  split
  · rename_i rest heq
    rw [heq] at h
    have hd : atolDigits rest 0 = 0 := by
      apply atolDigits_of_not_digit
      intro c hc
      cases rest with
      | nil => simp at hc
      | cons d ds =>
        simp only [List.head?_cons, Option.some.injEq] at hc
        subst hc
        simpa [startsNumeric] using h
    rw [hd]
    rfl
  · rename_i rest heq
    rw [heq] at h
    have hd : atolDigits rest 0 = 0 := by
      apply atolDigits_of_not_digit
      intro c hc
      cases rest with
      | nil => simp at hc
      | cons d ds =>
        simp only [List.head?_cons, Option.some.injEq] at hc
        subst hc
        simpa [startsNumeric] using h
    rw [hd]
    rfl
  · rename_i rest hm hp
    have hd : atolDigits (s.dropWhile isSpace) 0 = 0 := by
      apply atolDigits_of_not_digit
      intro c hc
      cases hs : s.dropWhile isSpace with
      | nil => rw [hs] at hc; simp at hc
      | cons d ds =>
        rw [hs] at hc h
        simp only [List.head?_cons, Option.some.injEq] at hc
        subst hc
        have h1 : d ≠ '-' := fun e => hm ds (by rw [hs, e])
        have h2 : d ≠ '+' := fun e => hp ds (by rw [hs, e])
        simpa [startsNumeric, h1, h2] using h
    rw [hd]
    rfl

/-! ## `parseMessage`: the final field, acceptance, non-numeric timestamps -/

/-- C14, as stated, fails in two ways. The frame `GW01:POLL:D1:001:3000000000:null` carries
the decimal text of 3000000000 in its fifth field, and the timestamp returned by
`parseMessage` is 2147483647. The frame `D1:DATA<NUL>:GW01:007:5:p` (a NUL character after
`DATA`, no `':'` inside a header field) is not valid. -/
theorem parseMessage_timestamp_out_of_range :
    decimal 3000000000 = "3000000000".toList ∧
    (parseMessage sampleStack ("GW01".toList ++ ":".toList ++ "POLL".toList ++ ":".toList ++
        "D1".toList ++ ":".toList ++ "001".toList ++ ":".toList ++ decimal 3000000000 ++
        ":".toList ++ "null".toList)).timestamp = 2147483647 ∧
    (parseMessage sampleStack ("D1".toList ++ ":".toList ++ ("DATA".toList ++ [NUL]) ++
        ":".toList ++ "GW01".toList ++ ":".toList ++ "007".toList ++ ":".toList ++ decimal 5 ++
        ":".toList ++ "p".toList)).valid = false := by
  decide

/-- C14 (amended): for every sender, command, target and sequence without `':'` and without
NUL character, every timestamp `t` up to 2147483647 written in decimal, and every payload `p`
(which may contain `':'`), `parseMessage` on `sender:command:target:sequence:t:p` is valid,
returns the first four fields as written, `timestamp = t`, and `payload = p` exactly. -/
theorem parseMessage_final_field (stack : LoRaMessage)
    (senderId command targetId sequence p : AString) (t : Nat)
    (hs : ':' ∉ senderId) (hc : ':' ∉ command) (ht : ':' ∉ targetId) (hq : ':' ∉ sequence)
    (ns : NUL ∉ senderId) (nc : NUL ∉ command) (nt : NUL ∉ targetId) (nq : NUL ∉ sequence)
    (hrange : t ≤ 2147483647) :
    (parseMessage stack (senderId ++ ":".toList ++ command ++ ":".toList ++ targetId ++
      ":".toList ++ sequence ++ ":".toList ++ decimal t ++ ":".toList ++ p)).valid = true ∧
    (parseMessage stack (senderId ++ ":".toList ++ command ++ ":".toList ++ targetId ++
      ":".toList ++ sequence ++ ":".toList ++ decimal t ++ ":".toList ++ p)).senderId = senderId ∧
    (parseMessage stack (senderId ++ ":".toList ++ command ++ ":".toList ++ targetId ++
      ":".toList ++ sequence ++ ":".toList ++ decimal t ++ ":".toList ++ p)).command = command ∧
    (parseMessage stack (senderId ++ ":".toList ++ command ++ ":".toList ++ targetId ++
      ":".toList ++ sequence ++ ":".toList ++ decimal t ++ ":".toList ++ p)).targetId = targetId ∧
    (parseMessage stack (senderId ++ ":".toList ++ command ++ ":".toList ++ targetId ++
      ":".toList ++ sequence ++ ":".toList ++ decimal t ++ ":".toList ++ p)).sequence = sequence ∧
    (parseMessage stack (senderId ++ ":".toList ++ command ++ ":".toList ++ targetId ++
      ":".toList ++ sequence ++ ":".toList ++ decimal t ++ ":".toList ++ p)).timestamp = t ∧
    (parseMessage stack (senderId ++ ":".toList ++ command ++ ":".toList ++ targetId ++
      ":".toList ++ sequence ++ ":".toList ++ decimal t ++ ":".toList ++ p)).payload = p := by
  have e : senderId ++ ":".toList ++ command ++ ":".toList ++ targetId ++
      ":".toList ++ sequence ++ ":".toList ++ decimal t ++ ":".toList ++ p =
      senderId ++ ':' :: (command ++ ':' :: (targetId ++ ':' :: (sequence ++ ':' ::
        (decimal t ++ ':' :: p)))) := by
    simp
  rw [e, parseMessage_frame stack _ _ _ _ _ _ hs hc ht hq (decimal_no_colon _) ns nc nt nq
    (decimal_no_nul _)]
  refine ⟨rfl, rfl, rfl, rfl, rfl, ?_, rfl⟩
  show toUnsignedLong (toInt (decimal t)) = t
  rw [toInt_decimal _ hrange]
  exact toUnsignedLong_natCast _ (by omega)

/-- Witness for C14 (amended): a payload with embedded `':'` is kept verbatim. -/
theorem parseMessage_final_field_witness :
    (parseMessage sampleStack "D1:DATA:GW01:007:1728567890:T1:left:dets:1/5".toList).timestamp =
      1728567890 ∧
    (parseMessage sampleStack "D1:DATA:GW01:007:1728567890:T1:left:dets:1/5".toList).payload =
      "T1:left:dets:1/5".toList := by
  have h := parseMessage_final_field sampleStack "D1".toList "DATA".toList "GW01".toList
    "007".toList "T1:left:dets:1/5".toList 1728567890 (by decide) (by decide) (by decide)
    (by decide) (by decide) (by decide) (by decide) (by decide) (by decide)
  have e : "D1".toList ++ ":".toList ++ "DATA".toList ++ ":".toList ++ "GW01".toList ++
      ":".toList ++ "007".toList ++ ":".toList ++ decimal 1728567890 ++ ":".toList ++
      "T1:left:dets:1/5".toList = "D1:DATA:GW01:007:1728567890:T1:left:dets:1/5".toList := by
    decide
  rw [e] at h
  exact ⟨h.2.2.2.2.2.1, h.2.2.2.2.2.2⟩

/-- C15, as stated, fails when a NUL character comes before the fifth `':'`: the raw string
`D1:ONLINE<NUL>:GW01:001:5:bat_95` (a NUL after `ONLINE`) has five `':'`, one of them before
the NUL, and `parseMessage` returns `valid = false`. -/
theorem parseMessage_nul_rejected :
    ("D1:ONLINE".toList ++ NUL :: ":GW01:001:5:bat_95".toList).count ':' = 5 ∧
    (cstr ("D1:ONLINE".toList ++ NUL :: ":GW01:001:5:bat_95".toList)).count ':' = 1 ∧
    (parseMessage sampleStack
      ("D1:ONLINE".toList ++ NUL :: ":GW01:001:5:bat_95".toList)).valid = false := by
  decide

/-- C15 (amended): for every raw string with at least five `':'` before its first NUL
character (`cstr` is the whole string when it holds no NUL), `parseMessage` returns
`valid = true`; neither a clock nor a secret is an input of the decision, and the content of
the fields plays no role. -/
theorem parseMessage_accepts (stack : LoRaMessage) (rawMessage : AString)
    (h : 5 ≤ (cstr rawMessage).count ':') : (parseMessage stack rawMessage).valid = true := by
  obtain ⟨f0, f1, f2, f3, f4, p, rfl, ⟨h0, h1, h2, h3, h4⟩, ⟨n0, n1, n2, n3, n4⟩⟩ :=
    exists_frame_cstr h
  rw [parseMessage_frame stack f0 f1 f2 f3 f4 p h0 h1 h2 h3 h4 n0 n1 n2 n3 n4]

/-- Witness for C15 (amended): a frame with a stale timestamp and no tag, one with a non-numeric
timestamp, and one with a tag are all accepted. -/
theorem parseMessage_accepts_witness :
    (parseMessage sampleStack "D1:ONLINE:GW01:001:5:bat_95".toList).valid = true ∧
    (parseMessage sampleStack "D1:ONLINE:GW01:001:abc:bat_95".toList).valid = true ∧
    (parseMessage sampleStack "GW01:POLL:D1:001:5:null:0000000000000000".toList).valid = true :=
  ⟨parseMessage_accepts sampleStack _ (by decide), parseMessage_accepts sampleStack _ (by decide),
   parseMessage_accepts sampleStack _ (by decide)⟩

/-- C16, as stated, fails in two ways. The fifth field of `GW01:POLL:D1:001: 12:null` does
not start with an optional sign followed by a digit (it starts with a blank), and the
timestamp returned by `parseMessage` is 12, not 0. The raw string
`D1:ONLINE<NUL>:GW01:001:abc:x` (a NUL after `ONLINE`) has five `':'` and the non-numeric
fifth field `abc`, and `parseMessage` returns `valid = false`. -/
theorem parseMessage_blank_timestamp :
    (startsNumeric " 12".toList = false ∧
      (parseMessage sampleStack "GW01:POLL:D1:001: 12:null".toList).timestamp = 12) ∧
    (("D1:ONLINE".toList ++ NUL :: ":GW01:001:abc:x".toList).count ':' = 5 ∧
      startsNumeric "abc".toList = false ∧
      (parseMessage sampleStack
        ("D1:ONLINE".toList ++ NUL :: ":GW01:001:abc:x".toList)).valid = false) := by
  decide

/-- C16 (amended): for every frame with five header fields without `':'` and without NUL
character whose fifth field, after its leading white space, is empty or does not start with
an optional sign followed by a digit, `parseMessage` returns `valid = true` with
`timestamp = 0`, the first four fields as written and the remainder as payload. -/
theorem parseMessage_non_numeric (stack : LoRaMessage) (f0 f1 f2 f3 f4 p : AString)
    (h0 : ':' ∉ f0) (h1 : ':' ∉ f1) (h2 : ':' ∉ f2) (h3 : ':' ∉ f3) (h4 : ':' ∉ f4)
    (n0 : NUL ∉ f0) (n1 : NUL ∉ f1) (n2 : NUL ∉ f2) (n3 : NUL ∉ f3) (n4 : NUL ∉ f4)
    (hnum : startsNumeric (f4.dropWhile isSpace) = false) :
    (parseMessage stack (f0 ++ ":".toList ++ f1 ++ ":".toList ++ f2 ++ ":".toList ++ f3 ++
      ":".toList ++ f4 ++ ":".toList ++ p)).valid = true ∧
    (parseMessage stack (f0 ++ ":".toList ++ f1 ++ ":".toList ++ f2 ++ ":".toList ++ f3 ++
      ":".toList ++ f4 ++ ":".toList ++ p)).timestamp = 0 ∧
    (parseMessage stack (f0 ++ ":".toList ++ f1 ++ ":".toList ++ f2 ++ ":".toList ++ f3 ++
      ":".toList ++ f4 ++ ":".toList ++ p)).senderId = f0 ∧
    (parseMessage stack (f0 ++ ":".toList ++ f1 ++ ":".toList ++ f2 ++ ":".toList ++ f3 ++
      ":".toList ++ f4 ++ ":".toList ++ p)).command = f1 ∧
    (parseMessage stack (f0 ++ ":".toList ++ f1 ++ ":".toList ++ f2 ++ ":".toList ++ f3 ++
      ":".toList ++ f4 ++ ":".toList ++ p)).targetId = f2 ∧
    (parseMessage stack (f0 ++ ":".toList ++ f1 ++ ":".toList ++ f2 ++ ":".toList ++ f3 ++
      ":".toList ++ f4 ++ ":".toList ++ p)).sequence = f3 ∧
    (parseMessage stack (f0 ++ ":".toList ++ f1 ++ ":".toList ++ f2 ++ ":".toList ++ f3 ++
      ":".toList ++ f4 ++ ":".toList ++ p)).payload = p := by
  have e : f0 ++ ":".toList ++ f1 ++ ":".toList ++ f2 ++ ":".toList ++ f3 ++
      ":".toList ++ f4 ++ ":".toList ++ p =
      f0 ++ ':' :: (f1 ++ ':' :: (f2 ++ ':' :: (f3 ++ ':' :: (f4 ++ ':' :: p)))) := by
    simp
  rw [e, parseMessage_frame stack f0 f1 f2 f3 f4 p h0 h1 h2 h3 h4 n0 n1 n2 n3 n4]
  refine ⟨rfl, ?_, rfl, rfl, rfl, rfl, rfl⟩
  show toUnsignedLong (toInt f4) = 0
  rw [toInt_of_not_startsNumeric hnum]
  rfl

/-- Witness for C16 (amended): the timestamp fields `abc` and the empty one are read as 0. -/
theorem parseMessage_non_numeric_witness :
    (parseMessage sampleStack "GW01:POLL:D1:001:abc:null".toList).timestamp = 0 ∧
    (parseMessage sampleStack "GW01:POLL:D1:001::null".toList).timestamp = 0 ∧
    (parseMessage sampleStack "GW01:POLL:D1:001::null".toList).valid = true :=
  have ha := parseMessage_non_numeric sampleStack "GW01".toList "POLL".toList "D1".toList
    "001".toList "abc".toList "null".toList (by decide) (by decide) (by decide) (by decide)
    (by decide) (by decide) (by decide) (by decide) (by decide) (by decide) (by decide)
  have hb := parseMessage_non_numeric sampleStack "GW01".toList "POLL".toList "D1".toList
    "001".toList [] "null".toList (by decide) (by decide) (by decide) (by decide)
    (by decide) (by decide) (by decide) (by decide) (by decide) (by decide) (by decide)
  ⟨ha.2.1, hb.2.1, hb.1⟩

/-! ## The colon position loop of the data decoder -/

theorem scanColons_aux (s : List Char) :
    ∀ (pre : List Char) (st : Nat × List Int),
      (List.range' pre.length s.length).foldl
        (fun st i =>
          if charAt (pre ++ s) i = ':' then
            (st.1 + 1, if st.1 < 4 then st.2.set st.1 (i : Int) else st.2)
          else st) st = scanFrom pre.length s st := by
  induction s with
  | nil => intro pre st; simp [scanFrom]
  | cons c cs ih =>
    intro pre st
    have hc : charAt (pre ++ c :: cs) pre.length = c := by
      unfold charAt
      rw [List.getD_eq_getElem?_getD, List.getElem?_append_right (Nat.le_refl _)]
      simp
    have hstep := ih (pre ++ [c]) (scanStep st pre.length c)
    simp only [List.length_append, List.length_singleton, List.append_assoc,
      List.singleton_append] at hstep
    simp only [List.length_cons, List.range'_succ, List.foldl_cons, hc, scanFrom]
    rw [← hstep]
    rfl

theorem scanColons_eq (payload : AString) :
    scanColons payload = scanFrom 0 payload (0, [-1, -1, -1, -1]) := by
  have h := scanColons_aux payload [] (0, [-1, -1, -1, -1])
  simp only [List.length_nil, List.nil_append] at h
  unfold scanColons
  rw [List.range_eq_range']
  exact h

theorem scanFrom_no_colon {tok : List Char} (h : ':' ∉ tok) :
    ∀ (i : Nat) (st : Nat × List Int), scanFrom i tok st = st := by
  induction tok with
  | nil => intro i st; rfl
  | cons c cs ih =>
    intro i st
    have hc : c ≠ ':' := fun e => h (by simp [e])
    have hcs : ':' ∉ cs := fun e => h (by simp [e])
    rw [scanFrom, scanStep, if_neg hc]
    exact ih hcs _ _

theorem scanFrom_append (xs ys : List Char) :
    ∀ (i : Nat) (st : Nat × List Int),
      scanFrom i (xs ++ ys) st = scanFrom (i + xs.length) ys (scanFrom i xs st) := by
  induction xs with
  | nil => intro i st; rfl
  | cons c cs ih =>
    intro i st
    rw [List.cons_append, scanFrom, scanFrom, ih]
    congr 1
    simp only [List.length_cons]
    omega

/-- The loop over a `':'`-free token and the `':'` after it: the count goes up by one and
the position of that `':'` is stored if fewer than four were seen. -/
theorem scanFrom_token {tok : List Char} (h : ':' ∉ tok) (rest : List Char) (i : Nat)
    (st : Nat × List Int) :
    scanFrom i (tok ++ ':' :: rest) st =
      scanFrom (i + tok.length + 1) rest
        (st.1 + 1, if st.1 < 4 then st.2.set st.1 ((i + tok.length : Nat) : Int) else st.2) := by
  rw [scanFrom_append, scanFrom_no_colon h, scanFrom, scanStep, if_pos rfl]

theorem scanFrom_fst (s : List Char) :
    ∀ (i : Nat) (st : Nat × List Int), (scanFrom i s st).1 = st.1 + s.count ':' := by
  induction s with
  | nil => intro i st; rfl
  | cons c cs ih =>
    intro i st
    rw [scanFrom, ih, scanStep]
    by_cases hc : c = ':'
    · subst hc
      simp
      omega
    · simp [hc, List.count_cons_of_ne (Ne.symm hc)]

theorem scanFrom_getD (s : List Char) :
    ∀ (i : Nat) (st : Nat × List Int) (k : Nat) (d : Int), k < st.1 →
      (scanFrom i s st).2.getD k d = st.2.getD k d := by
  induction s with
  | nil => intro i st k d _; rfl
  | cons c cs ih =>
    intro i st k d hk
    rw [scanFrom, scanStep]
    by_cases hc : c = ':'
    · rw [if_pos hc, ih _ _ k d (by simp; omega)]
      by_cases h4 : st.1 < 4
      · simp only [h4, if_true]
        rw [List.getD_eq_getElem?_getD, List.getD_eq_getElem?_getD,
          List.getElem?_set_ne (by omega)]
      · simp [h4]
    · rw [if_neg hc]
      exact ih _ _ k d hk

/-- The colon count of `parseDataPayload` is the number of `':'` in the payload. -/
theorem scanColons_fst (payload : AString) : (scanColons payload).1 = payload.count ':' := by
  rw [scanColons_eq, scanFrom_fst]
  simp

theorem substringFrom_cast_succ (s : List Char) (k : Nat) :
    substringFrom s ((k : Int) + 1) = s.drop (k + 1) := by
  rw [show ((k : Int) + 1) = ((k + 1 : Nat) : Int) from by push_cast; rfl, substringFrom_eq_drop]

theorem substring_cast_succ {s tok rest : List Char} {k m : Nat}
    (h : s.drop (k + 1) = tok ++ rest) (hm : m = k + 1 + tok.length) :
    substring s ((k : Int) + 1) (m : Int) = tok := by
  subst hm
  rw [show ((k : Int) + 1) = ((k + 1 : Nat) : Int) from by push_cast; rfl]
  exact substring_of_drop h

theorem drop_token (a rest : List Char) : (a ++ ':' :: rest).drop (a.length + 1) = rest := by
  have h : (a ++ ':' :: rest).drop 0 = a ++ ':' :: rest := rfl
  have := drop_of_drop h
  rwa [Nat.zero_add] at this

theorem drop_two_tokens (a b rest : List Char) :
    (a ++ ':' :: (b ++ ':' :: rest)).drop (a.length + 1 + b.length + 1) = rest :=
  drop_of_drop (drop_token a (b ++ ':' :: rest))

theorem drop_three_tokens (a b c rest : List Char) :
    (a ++ ':' :: (b ++ ':' :: (c ++ ':' :: rest))).drop
      (a.length + 1 + b.length + 1 + c.length + 1) = rest :=
  drop_of_drop (drop_two_tokens a b (c ++ ':' :: rest))

/-- The state of the colon position loop after two `':'`-free tokens and their `':'`. -/
theorem scanColons_two (a b rest : List Char) (ha : ':' ∉ a) (hb : ':' ∉ b) :
    scanColons (a ++ ':' :: (b ++ ':' :: rest)) =
      scanFrom (a.length + 1 + b.length + 1) rest
        (2, [(a.length : Int), ((a.length + 1 + b.length : Nat) : Int), -1, -1]) := by
  rw [scanColons_eq, scanFrom_token ha, scanFrom_token hb]
  simp only [Nat.zero_add, Nat.lt_irrefl, List.set]
  rfl

/-- The state of the colon position loop after three `':'`-free tokens and their `':'`. -/
theorem scanColons_three (a b c rest : List Char) (ha : ':' ∉ a) (hb : ':' ∉ b)
    (hc : ':' ∉ c) :
    scanColons (a ++ ':' :: (b ++ ':' :: (c ++ ':' :: rest))) =
      scanFrom (a.length + 1 + b.length + 1 + c.length + 1) rest
        (3, [(a.length : Int), ((a.length + 1 + b.length : Nat) : Int),
          ((a.length + 1 + b.length + 1 + c.length : Nat) : Int), -1]) := by
  rw [scanColons_two a b _ ha hb, scanFrom_token hc]
  rfl

theorem positions_zero (a b rest : List Char) (ha : ':' ∉ a) (hb : ':' ∉ b) :
    (scanColons (a ++ ':' :: (b ++ ':' :: rest))).2.getD 0 (-1) = (a.length : Int) := by
  rw [scanColons_two a b rest ha hb, scanFrom_getD _ _ _ 0 (-1) (by show 0 < 2; omega)]
  rfl

theorem positions_one (a b rest : List Char) (ha : ':' ∉ a) (hb : ':' ∉ b) :
    (scanColons (a ++ ':' :: (b ++ ':' :: rest))).2.getD 1 (-1) =
      ((a.length + 1 + b.length : Nat) : Int) := by
  rw [scanColons_two a b rest ha hb, scanFrom_getD _ _ _ 1 (-1) (by show 1 < 2; omega)]
  rfl

theorem positions_two (a b c rest : List Char) (ha : ':' ∉ a) (hb : ':' ∉ b) (hc : ':' ∉ c) :
    (scanColons (a ++ ':' :: (b ++ ':' :: (c ++ ':' :: rest)))).2.getD 2 (-1) =
      ((a.length + 1 + b.length + 1 + c.length : Nat) : Int) := by
  rw [scanColons_three a b c rest ha hb hc, scanFrom_getD _ _ _ 2 (-1) (by show 2 < 3; omega)]
  rfl

theorem not_null_of_colon {payload : AString}
    (hnl : equalsCStr payload "null".toList = false) (h : ':' ∈ payload) :
    ¬ (equalsCStr payload "null".toList = true ∨ isEmpty payload = true) := by
  rintro (e | e)
  · rw [hnl] at e
    exact Bool.noConfusion e
  · unfold isEmpty at e
    have : payload = [] := by simpa using e
    rw [this] at h
    simp at h

/-! ## The data decoder by number of `':'` -/

/-- With fewer than two `':'` (in particular on `null` and on the empty payload) the data
decoder returns the message as it is. -/
theorem parseDataPayload_few (msg : LoRaMessage) (h : msg.payload.count ':' < 2) :
    parseDataPayload msg = msg := by
  unfold parseDataPayload
  by_cases h0 : equalsCStr msg.payload "null".toList = true ∨ isEmpty msg.payload = true
  · rw [if_pos h0]
  · have c2 : ¬ (scanColons msg.payload).1 ≥ 2 := by
      rw [scanColons_fst]
      omega
    rw [if_neg h0]
    dsimp only
    rw [if_neg c2]

/-- On a payload that compares equal to `null` the data decoder returns the message as it
is. -/
theorem parseDataPayload_of_null (msg : LoRaMessage)
    (h : equalsCStr msg.payload "null".toList = true) : parseDataPayload msg = msg := by
  unfold parseDataPayload
  rw [if_pos (Or.inl h)]

/-- With exactly two `':'`, on a payload that does not compare equal to `null`: table,
position, and the rest as detections. -/
theorem parseDataPayload_two (msg : LoRaMessage) (a b c : AString) (ha : ':' ∉ a)
    (hb : ':' ∉ b) (hc : ':' ∉ c)
    (hnl : equalsCStr (a ++ ':' :: (b ++ ':' :: c)) "null".toList = false) :
    parseDataPayload { msg with payload := a ++ ':' :: (b ++ ':' :: c) } =
      { msg with
        payload := a ++ ':' :: (b ++ ':' :: c),
        data := { msg.data with tableId := a, position := b, detections := c } } := by
  have hnull := @not_null_of_colon (a ++ ':' :: (b ++ ':' :: c)) hnl (by simp)
  have hcnt : (scanColons (a ++ ':' :: (b ++ ':' :: c))).1 = 2 := by
    rw [scanColons_fst, List.count_append, List.count_cons_self, List.count_append,
      List.count_cons_self, List.count_eq_zero_of_not_mem ha, List.count_eq_zero_of_not_mem hb,
      List.count_eq_zero_of_not_mem hc]
  have c2 : (scanColons (a ++ ':' :: (b ++ ':' :: c))).1 ≥ 2 := by omega
  have c3 : ¬ (scanColons (a ++ ':' :: (b ++ ':' :: c))).1 ≥ 3 := by omega
  have e1 : substring (a ++ ':' :: (b ++ ':' :: c)) 0 (a.length : Int) = a := by
    rw [substring_zero]
    simp
  have e2 : substring (a ++ ':' :: (b ++ ':' :: c)) ((a.length : Int) + 1)
      ((a.length + 1 + b.length : Nat) : Int) = b :=
    substring_cast_succ (drop_token a (b ++ ':' :: c)) rfl
  have e3 : substringFrom (a ++ ':' :: (b ++ ':' :: c))
      (((a.length + 1 + b.length : Nat) : Int) + 1) = c := by
    rw [substringFrom_cast_succ, drop_two_tokens]
  unfold parseDataPayload
  dsimp only
  rw [if_neg hnull, if_pos c2, if_neg c3, positions_zero a b c ha hb,
    positions_one a b c ha hb, e1, e2, e3]

/-- With at least three `':'`, on a payload that does not compare equal to `null`: table,
position, the text between the second and the third `':'` as detections, and the index/total
pair when a `'/'` is found in the text after the third `':'`. -/
theorem parseDataPayload_three (msg : LoRaMessage) (a b c extra : AString) (ha : ':' ∉ a)
    (hb : ':' ∉ b) (hc : ':' ∉ c)
    (hnl : equalsCStr (a ++ ':' :: (b ++ ':' :: (c ++ ':' :: extra))) "null".toList = false) :
    parseDataPayload { msg with payload := a ++ ':' :: (b ++ ':' :: (c ++ ':' :: extra)) } =
      if indexOf extra '/' 0 ≠ -1 then
        { msg with
          payload := a ++ ':' :: (b ++ ':' :: (c ++ ':' :: extra)),
          data := { tableId := a, position := b, detections := c,
                    positionIndex := toInt (substring extra 0 (indexOf extra '/' 0)),
                    totalPositions := toInt (substringFrom extra (indexOf extra '/' 0 + 1)) } }
      else
        { msg with
          payload := a ++ ':' :: (b ++ ':' :: (c ++ ':' :: extra)),
          data := { msg.data with tableId := a, position := b, detections := c } } := by
  have hnull := @not_null_of_colon (a ++ ':' :: (b ++ ':' :: (c ++ ':' :: extra))) hnl
    (by simp)
  have hcnt : (scanColons (a ++ ':' :: (b ++ ':' :: (c ++ ':' :: extra)))).1 =
      3 + extra.count ':' := by
    rw [scanColons_three a b c extra ha hb hc, scanFrom_fst]
  have c2 : (scanColons (a ++ ':' :: (b ++ ':' :: (c ++ ':' :: extra)))).1 ≥ 2 := by omega
  have c3 : (scanColons (a ++ ':' :: (b ++ ':' :: (c ++ ':' :: extra)))).1 ≥ 3 := by omega
  have e1 : substring (a ++ ':' :: (b ++ ':' :: (c ++ ':' :: extra))) 0 (a.length : Int) = a := by
    rw [substring_zero]
    simp
  have e2 : substring (a ++ ':' :: (b ++ ':' :: (c ++ ':' :: extra))) ((a.length : Int) + 1)
      ((a.length + 1 + b.length : Nat) : Int) = b :=
    substring_cast_succ (drop_token a (b ++ ':' :: (c ++ ':' :: extra))) rfl
  have e3 : substring (a ++ ':' :: (b ++ ':' :: (c ++ ':' :: extra)))
      (((a.length + 1 + b.length : Nat) : Int) + 1)
      ((a.length + 1 + b.length + 1 + c.length : Nat) : Int) = c :=
    substring_cast_succ (drop_two_tokens a b (c ++ ':' :: extra)) rfl
  have e4 : substringFrom (a ++ ':' :: (b ++ ':' :: (c ++ ':' :: extra)))
      (((a.length + 1 + b.length + 1 + c.length : Nat) : Int) + 1) = extra := by
    rw [substringFrom_cast_succ, drop_three_tokens]
  unfold parseDataPayload
  dsimp only
  rw [if_neg hnull, if_pos c2, if_pos c3, if_pos c3, positions_zero a _ _ ha hb,
    positions_one a _ _ ha hb, positions_two a b c extra ha hb hc, e1, e2, e3, e4]

theorem with_payload_self (msg : LoRaMessage) : { msg with payload := msg.payload } = msg := by
  cases msg
  rfl

theorem indexOf_zero_none {s : List Char} {ch : Char} (h : ch ∉ s) (hch : ch ≠ NUL) :
    indexOf s ch 0 = -1 := by
  have := @indexOf_of_drop_none s ch 0 (by simpa using h) hch
  exact this

/-- Table and position on a payload with at least two `':'`. -/
theorem parseDataPayload_table_position (msg : LoRaMessage) (a b rest : AString)
    (ha : ':' ∉ a) (hb : ':' ∉ b)
    (hnl : equalsCStr (a ++ ':' :: (b ++ ':' :: rest)) "null".toList = false) :
    (parseDataPayload { msg with payload := a ++ ':' :: (b ++ ':' :: rest) }).data.tableId = a ∧
    (parseDataPayload { msg with payload := a ++ ':' :: (b ++ ':' :: rest) }).data.position = b := by
  by_cases hr : ':' ∈ rest
  · obtain ⟨c, extra, rfl, hc⟩ := List.eq_append_cons_of_mem hr
    rw [parseDataPayload_three msg a b c extra ha hb hc hnl]
    split_ifs <;> exact ⟨rfl, rfl⟩
  · rw [parseDataPayload_two msg a b rest ha hb hr hnl]
    exact ⟨rfl, rfl⟩

/-- The index/total pair on a payload with fewer than three `':'`. -/
theorem parseDataPayload_index_unchanged (msg : LoRaMessage) (h : msg.payload.count ':' < 3) :
    (parseDataPayload msg).data.positionIndex = msg.data.positionIndex ∧
    (parseDataPayload msg).data.totalPositions = msg.data.totalPositions := by
  by_cases h2 : msg.payload.count ':' < 2
  · rw [parseDataPayload_few msg h2]
    exact ⟨rfl, rfl⟩
  by_cases hnl : equalsCStr msg.payload "null".toList = true
  · rw [parseDataPayload_of_null msg hnl]
    exact ⟨rfl, rfl⟩
  · obtain ⟨a, r0, e0, ha, c0⟩ := exists_first_colon (s := msg.payload) (by omega)
    obtain ⟨b, c, e1, hb, c1⟩ := exists_first_colon (s := r0) (by omega)
    have hc : ':' ∉ c := by
      intro hm
      have := List.count_pos_iff.mpr hm
      omega
    have hm : msg = { msg with payload := a ++ ':' :: (b ++ ':' :: c) } := by
      rw [← e1, ← e0, with_payload_self]
    have hnl' : equalsCStr (a ++ ':' :: (b ++ ':' :: c)) "null".toList = false := by
      rw [← e1, ← e0]
      simpa using hnl
    rw [hm, parseDataPayload_two msg a b c ha hb hc hnl']
    exact ⟨rfl, rfl⟩

/-! ## The data decoder: layered optionality -/

/-- C17, as stated, fails on a payload that starts with `null` followed by a NUL character:
the payload `null<NUL>:left:x` is neither `null` nor empty and has two `':'`, the text before
its first `':'` is `null<NUL>`, and `parseDataPayload` leaves the data as it was, with an
empty `tableId`. -/
theorem parseDataPayload_null_nul :
    "null".toList ++ NUL :: ":left:x".toList ≠ "null".toList ∧
    "null".toList ++ NUL :: ":left:x".toList ≠ [] ∧
    ("null".toList ++ NUL :: ":left:x".toList).count ':' = 2 ∧
    "null".toList ++ NUL :: ":left:x".toList =
      ("null".toList ++ [NUL]) ++ ":".toList ++ "left".toList ++ ":".toList ++ "x".toList ∧
    (parseDataPayload { sampleStack with
      payload := "null".toList ++ NUL :: ":left:x".toList }).data = sampleStack.data ∧
    sampleStack.data.tableId = [] := by
  decide

/-- C17 (amended): for every message whose payload compares equal to `null` (the comparison
reads the payload up to its first NUL character; the payload `null` itself is one), is empty,
or contains fewer than two `':'`, `parseDataPayload` leaves `tableId`, `position`,
`detections`, `positionIndex` and `totalPositions` unchanged; on every other payload,
`tableId` is the text before the first `':'` and `position` is the text between the first and
the second `':'`. -/
theorem parseDataPayload_needs_two (msg : LoRaMessage) :
    ((equalsCStr msg.payload "null".toList = true ∨ msg.payload = [] ∨
        msg.payload.count ':' < 2) →
      (parseDataPayload msg).data = msg.data) ∧
    (equalsCStr msg.payload "null".toList = false →
      ∀ a b rest : AString, msg.payload = a ++ ":".toList ++ b ++ ":".toList ++ rest →
      ':' ∉ a → ':' ∉ b →
      (parseDataPayload msg).data.tableId = a ∧ (parseDataPayload msg).data.position = b) := by
  constructor
  · intro h
    rcases h with h | h | h
    · rw [parseDataPayload_of_null msg h]
    · rw [parseDataPayload_few msg (by rw [h]; decide)]
    · rw [parseDataPayload_few msg h]
  · intro hnl a b rest hp ha hb
    have e : a ++ ':' :: (b ++ ':' :: rest) = msg.payload := by
      rw [hp]
      simp
    have hm : msg = { msg with payload := a ++ ':' :: (b ++ ':' :: rest) } := by
      rw [e, with_payload_self]
    rw [hm]
    exact parseDataPayload_table_position msg a b rest ha hb (by rw [e]; exact hnl)

/-- Witness for C17 (amended): `T1` alone changes nothing, and `T1:left:dets` gives table
`T1` and position `left`. -/
theorem parseDataPayload_needs_two_witness :
    (parseDataPayload { sampleStack with payload := "T1".toList }).data = sampleStack.data ∧
    (parseDataPayload { sampleStack with payload := "T1:left:dets".toList }).data.tableId =
      "T1".toList ∧
    (parseDataPayload { sampleStack with payload := "T1:left:dets".toList }).data.position =
      "left".toList :=
  ⟨(parseDataPayload_needs_two { sampleStack with payload := "T1".toList }).1
      (Or.inr (Or.inr (by decide))),
   ((parseDataPayload_needs_two { sampleStack with payload := "T1:left:dets".toList }).2
      (by decide) "T1".toList "left".toList "dets".toList (by decide) (by decide)
      (by decide)).1,
   ((parseDataPayload_needs_two { sampleStack with payload := "T1:left:dets".toList }).2
      (by decide) "T1".toList "left".toList "dets".toList (by decide) (by decide)
      (by decide)).2⟩

/-- C18, as stated, fails: the payload `T1:left:dets:1/5` has exactly three `':'`, and
`parseDataPayload` assigns `positionIndex = 1` and `totalPositions = 5`, which differ from
the values `-7` and `-8` held before. -/
theorem parseDataPayload_three_colons_assigns :
    "T1:left:dets:1/5".toList.count ':' = 3 ∧
    sampleStack.data.positionIndex = -7 ∧ sampleStack.data.totalPositions = -8 ∧
    (parseDataPayload { sampleStack with payload := "T1:left:dets:1/5".toList }).data.positionIndex
      = 1 ∧
    (parseDataPayload { sampleStack with payload := "T1:left:dets:1/5".toList }).data.totalPositions
      = 5 := by
  decide

/-- C18 (amended): `parseDataPayload` assigns `positionIndex` and `totalPositions` only if the
payload contains at least three `':'`: for every payload with fewer than three `':'`, in
particular with exactly two, both are left unchanged. -/
theorem parseDataPayload_index_needs_three (msg : LoRaMessage)
    (h : msg.payload.count ':' < 3) :
    (parseDataPayload msg).data.positionIndex = msg.data.positionIndex ∧
    (parseDataPayload msg).data.totalPositions = msg.data.totalPositions :=
  parseDataPayload_index_unchanged msg h

/-- Witness for C18 (amended): the payload `T1:left:1/5`, with exactly two `':'`, leaves the
pair unchanged. -/
theorem parseDataPayload_index_needs_three_witness :
    (parseDataPayload { sampleStack with payload := "T1:left:1/5".toList }).data.positionIndex
      = -7 ∧
    (parseDataPayload { sampleStack with payload := "T1:left:1/5".toList }).data.totalPositions
      = -8 :=
  parseDataPayload_index_needs_three { sampleStack with payload := "T1:left:1/5".toList }
    (by decide)

/-- C19, as stated, fails on a payload that starts with `null` followed by a NUL character:
the payload `null<NUL>:left:dets:COMPLETE` has three `':'` and no `'/'` after the third, and
`parseDataPayload` does not set `tableId`, `position` and `detections`: the data stay as they
were, with an empty `tableId`. -/
theorem parseDataPayload_no_slash_nul :
    ("null".toList ++ NUL :: ":left:dets:COMPLETE".toList).count ':' = 3 ∧
    "null".toList ++ NUL :: ":left:dets:COMPLETE".toList =
      ("null".toList ++ [NUL]) ++ ":".toList ++ "left".toList ++ ":".toList ++ "dets".toList ++
        ":".toList ++ "COMPLETE".toList ∧
    (parseDataPayload { sampleStack with
      payload := "null".toList ++ NUL :: ":left:dets:COMPLETE".toList }).data =
        sampleStack.data ∧
    sampleStack.data.tableId = [] := by
  decide

/-- C19 (amended): for every payload with at least three `':'` that does not compare equal to
`null` (the comparison reads the payload up to its first NUL character) and whose text after
the third `':'` contains no `'/'`, `parseDataPayload` leaves `positionIndex` and
`totalPositions` unchanged and sets `tableId`, `position` and `detections` to the first three
`':'`-separated fields. -/
theorem parseDataPayload_no_slash (msg : LoRaMessage) (a b c extra : AString)
    (ha : ':' ∉ a) (hb : ':' ∉ b) (hc : ':' ∉ c) (hslash : '/' ∉ extra)
    (hnl : equalsCStr (a ++ ":".toList ++ b ++ ":".toList ++ c ++ ":".toList ++ extra)
      "null".toList = false) :
    (parseDataPayload { msg with payload := (a ++ ":".toList ++ b ++ ":".toList ++ c ++
      ":".toList ++ extra) }).data =
      { tableId := a, position := b, detections := c,
        positionIndex := msg.data.positionIndex,
        totalPositions := msg.data.totalPositions } := by
  have e : a ++ ":".toList ++ b ++ ":".toList ++ c ++ ":".toList ++ extra =
      a ++ ':' :: (b ++ ':' :: (c ++ ':' :: extra)) := by
    simp
  rw [e] at hnl ⊢
  rw [parseDataPayload_three msg a b c extra ha hb hc hnl,
    indexOf_zero_none hslash slash_ne_NUL]
  rfl

/-- Witness for C19 (amended): the payload `T1:left:dets:COMPLETE`. -/
theorem parseDataPayload_no_slash_witness :
    (parseDataPayload { sampleStack with payload := ("T1".toList ++ ":".toList ++ "left".toList ++
      ":".toList ++ "dets".toList ++ ":".toList ++ "COMPLETE".toList) }).data =
      { tableId := "T1".toList, position := "left".toList, detections := "dets".toList,
        positionIndex := -7, totalPositions := -8 } :=
  parseDataPayload_no_slash sampleStack "T1".toList "left".toList "dets".toList
    "COMPLETE".toList (by decide) (by decide) (by decide) (by decide) (by decide)

/-- C20, as stated, fails when `a` starts with `null` followed by a NUL character: `null<NUL>`
and `b` are non-empty and `':'`-free, `c` is `':'`-free, and on the payload `null<NUL>:b:c`
`parseDataPayload` leaves the data as they were, with an empty `tableId`. -/
theorem parseDataPayload_exactly_two_nul :
    "null".toList ++ [NUL] ≠ [] ∧ ':' ∉ "null".toList ++ [NUL] ∧
    (parseDataPayload { sampleStack with
      payload := (("null".toList ++ [NUL]) ++ ":".toList ++ "b".toList ++ ":".toList ++
        "c".toList) }).data = sampleStack.data ∧
    sampleStack.data.tableId = [] := by
  decide

/-- C20 (amended): for all non-empty `':'`-free `a`, `b` and every `':'`-free `c` such that
the payload `a:b:c` does not compare equal to `null` (the comparison reads the payload up to
its first NUL character), `parseDataPayload` on the payload `a:b:c` sets `tableId = a`,
`position = b` and `detections = c`, and leaves `positionIndex` and `totalPositions`
unchanged. -/
theorem parseDataPayload_exactly_two (msg : LoRaMessage) (a b c : AString)
    (_hane : a ≠ []) (_hbne : b ≠ []) (ha : ':' ∉ a) (hb : ':' ∉ b) (hc : ':' ∉ c)
    (hnl : equalsCStr (a ++ ":".toList ++ b ++ ":".toList ++ c) "null".toList = false) :
    (parseDataPayload { msg with payload := (a ++ ":".toList ++ b ++ ":".toList ++ c) }).data =
      { tableId := a, position := b, detections := c,
        positionIndex := msg.data.positionIndex,
        totalPositions := msg.data.totalPositions } := by
  have e : a ++ ":".toList ++ b ++ ":".toList ++ c = a ++ ':' :: (b ++ ':' :: c) := by
    simp
  rw [e] at hnl ⊢
  rw [parseDataPayload_two msg a b c ha hb hc hnl]

/-- Witness for C20 (amended): the payloads `T1:left:dets` and `T1:left:` (empty
detections). -/
theorem parseDataPayload_exactly_two_witness :
    (parseDataPayload { sampleStack with payload := ("T1".toList ++ ":".toList ++ "left".toList ++
      ":".toList ++ "dets".toList) }).data =
      { tableId := "T1".toList, position := "left".toList, detections := "dets".toList,
        positionIndex := -7, totalPositions := -8 } ∧
    (parseDataPayload { sampleStack with payload := ("T1".toList ++ ":".toList ++ "left".toList ++
      ":".toList ++ []) }).data =
      { tableId := "T1".toList, position := "left".toList, detections := [],
        positionIndex := -7, totalPositions := -8 } :=
  ⟨parseDataPayload_exactly_two sampleStack "T1".toList "left".toList "dets".toList
    (by decide) (by decide) (by decide) (by decide) (by decide) (by decide),
   parseDataPayload_exactly_two sampleStack "T1".toList "left".toList []
    (by decide) (by decide) (by decide) (by decide) (by decide) (by decide)⟩

/-! ## Verification: the comparison of the tags -/

theorem toLower_colon_iff (c : Char) : c.toLower = ':' ↔ c = ':' := by
  constructor
  · intro h
    unfold Char.toLower at h
    by_cases hc : c.toNat ≥ 65 ∧ c.toNat ≤ 90
    · simp only [hc, and_self, if_true] at h
      exfalso
      obtain ⟨h1, h2⟩ := hc
      generalize c.toNat = n at h h1 h2
      interval_cases n <;> exact absurd h (by decide)
    · simpa [hc] using h
  · rintro rfl
    rfl

theorem colon_mem_map_toLower {s : AString} : ':' ∈ s.map Char.toLower ↔ ':' ∈ s := by
  rw [List.mem_map]
  constructor
  · rintro ⟨c, hc, h⟩
    rw [(toLower_colon_iff c).mp h] at hc
    exact hc
  · intro h
    exact ⟨':', h, rfl⟩

theorem nul_mem_map_toLower {s : AString} (h : NUL ∈ s) : NUL ∈ s.map Char.toLower :=
  List.mem_map.mpr ⟨NUL, h, by decide⟩

theorem nul_mem_toLowerCase {s : AString} (h : NUL ∈ s) : NUL ∈ toLowerCase s := by
  induction s with
  | nil => simp at h
  | cons c cs ih =>
    rw [toLowerCase]
    by_cases hc : c = NUL
    · rw [if_pos hc]
      exact h
    · rw [if_neg hc]
      rcases List.mem_cons.mp h with e | e
      · exact absurd e.symm hc
      · exact List.mem_cons_of_mem _ (ih e)

/-- Against a text without NUL, lower-casing up to the first NUL and lower-casing every
character give the same comparison. -/
theorem toLowerCase_eq_iff {s t : AString} (ht : NUL ∉ t) :
    toLowerCase s = t ↔ s.map Char.toLower = t := by
  by_cases hs : NUL ∈ s
  · constructor
    · intro h
      exact absurd (h ▸ nul_mem_toLowerCase hs) ht
    · intro h
      exact absurd (h ▸ nul_mem_map_toLower hs) ht
  · rw [toLowerCase_eq_map hs]

theorem map_toLower_calculateHMAC (hmacSha256 : AString → AString → Digest)
    (message secret : AString) :
    (calculateHMAC hmacSha256 message secret).map Char.toLower =
      calculateHMAC hmacSha256 message secret := by
  have h : ∀ c ∈ calculateHMAC hmacSha256 message secret, Char.toLower c = c := by
    intro c hc
    have hm := calculateHMAC_mem hmacSha256 message secret c hc
    have hall : ∀ d ∈ "0123456789abcdef".toList, Char.toLower d = d := by decide
    exact hall c hm
  calc (calculateHMAC hmacSha256 message secret).map Char.toLower
      = (calculateHMAC hmacSha256 message secret).map id := List.map_congr_left h
    _ = calculateHMAC hmacSha256 message secret := List.map_id _

theorem toLowerCase_calculateHMAC (hmacSha256 : AString → AString → Digest)
    (message secret : AString) :
    toLowerCase (calculateHMAC hmacSha256 message secret) =
      calculateHMAC hmacSha256 message secret := by
  rw [toLowerCase_eq_map (calculateHMAC_no_nul hmacSha256 message secret),
    map_toLower_calculateHMAC]

/-- On a message whose last `':'` is followed by `tail` and has no NUL before it,
verification compares the lower-cased `tail` with the lower-cased tag of the text before that
`':'`. -/
theorem verifyHMAC_split (hmacSha256 : AString → AString → Digest) (body tail secret : AString)
    (h : ':' ∉ tail) (hn : NUL ∉ body) :
    verifyHMAC hmacSha256 (body ++ ':' :: tail) secret =
      equalsString (toLowerCase tail)
        (toLowerCase (calculateHMAC hmacSha256 body secret)) := by
  unfold verifyHMAC
  have hl := lastIndexOf_append h colon_ne_NUL hn
  simp only [hl]
  have hne : ((body.length : Nat) : Int) ≠ -1 := by omega
  simp only [hne, if_false]
  rw [substring_zero, substringFrom_append_succ]
  simp

/-- The same comparison, as equality up to ASCII letter case. -/
theorem verifyHMAC_split_iff (hmacSha256 : AString → AString → Digest)
    (body tail secret : AString) (h : ':' ∉ tail) (hn : NUL ∉ body) :
    verifyHMAC hmacSha256 (body ++ ':' :: tail) secret = true ↔
      eqIgnoreCase tail (calculateHMAC hmacSha256 body secret) := by
  rw [verifyHMAC_split hmacSha256 body tail secret h hn, toLowerCase_calculateHMAC,
    equalsString_iff (calculateHMAC_no_nul hmacSha256 body secret),
    toLowerCase_eq_iff (calculateHMAC_no_nul hmacSha256 body secret)]
  unfold eqIgnoreCase
  rw [map_toLower_calculateHMAC]

theorem verifyHMAC_no_colon (hmacSha256 : AString → AString → Digest) (message secret : AString)
    (h : ':' ∉ message) : verifyHMAC hmacSha256 message secret = false :=
  verifyHMAC_strrchr_none hmacSha256 secret (strrchr_eq_none h colon_ne_NUL)

theorem toUpper_hex :
    ∀ d ∈ "0123456789abcdef".toList, Char.toLower (Char.toUpper d) = Char.toLower d := by
  decide

/-- The upper-cased tag equals the tag up to ASCII letter case. -/
theorem eqIgnoreCase_toUpper (hmacSha256 : AString → AString → Digest)
    (message secret : AString) :
    eqIgnoreCase ((calculateHMAC hmacSha256 message secret).map Char.toUpper)
      (calculateHMAC hmacSha256 message secret) := by
  unfold eqIgnoreCase
  rw [List.map_map]
  exact List.map_congr_left
    (fun c hc => toUpper_hex c (calculateHMAC_mem hmacSha256 message secret c hc))

/-! ## Verification: case, malformed input -/

/-- C21, as stated, fails when the body holds a NUL character, whatever the digest function
is: the upper-cased tag of the body `a<NUL>` (an `a` followed by a NUL) equals the tag up to
ASCII letter case, and the body followed by `':'` and the upper-cased tag is not accepted. -/
theorem verifyHMAC_case_nul :
    (¬ ∃ hmacSha256 : AString → AString → Digest,
      ¬ eqIgnoreCase ((calculateHMAC hmacSha256 ['a', NUL] "k".toList).map Char.toUpper)
        (calculateHMAC hmacSha256 ['a', NUL] "k".toList)) ∧
    (¬ ∃ hmacSha256 : AString → AString → Digest,
      verifyHMAC hmacSha256 (['a', NUL] ++ ":".toList ++
        (calculateHMAC hmacSha256 ['a', NUL] "k".toList).map Char.toUpper) "k".toList =
          true) := by
  constructor
  · rintro ⟨md, h⟩
    exact h (eqIgnoreCase_toUpper md _ _)
  · rintro ⟨md, h⟩
    have hs : strrchr (['a', NUL] ++ ":".toList ++
        (calculateHMAC md ['a', NUL] "k".toList).map Char.toUpper) ':' = none :=
      @strrchr_nul ['a'] ':' (by decide) (by decide) _
    rw [verifyHMAC_strrchr_none md _ hs] at h
    exact Bool.noConfusion h

/-- C21 (amended): for every body without NUL character, every secret and every string `T`
that equals `calculateHMAC(body, secret)` up to ASCII letter case,
`verifyHMAC(body + ":" + T, secret)` is true. -/
theorem verifyHMAC_case_insensitive (hmacSha256 : AString → AString → Digest)
    (body secret T : AString) (hn : NUL ∉ body)
    (hT : eqIgnoreCase T (calculateHMAC hmacSha256 body secret)) :
    verifyHMAC hmacSha256 (body ++ ":".toList ++ T) secret = true := by
  have hcolon : ':' ∉ T := by
    intro hm
    have h1 : ':' ∈ T.map Char.toLower := colon_mem_map_toLower.mpr hm
    unfold eqIgnoreCase at hT
    rw [hT] at h1
    exact calculateHMAC_no_colon hmacSha256 body secret (colon_mem_map_toLower.mp h1)
  have e : body ++ ":".toList ++ T = body ++ ':' :: T := by simp
  rw [e]
  exact (verifyHMAC_split_iff hmacSha256 body T secret hcolon hn).mpr hT

/-- Witness for C21 (amended): the upper-cased tag `ABABABABABABABAB` is accepted for the tag
`abababababababab`. -/
theorem verifyHMAC_case_insensitive_witness :
    calculateHMAC (constDigest 171) "GW01:POLL:D1:001:5:null".toList "k".toList =
      "abababababababab".toList ∧
    verifyHMAC (constDigest 171)
      ("GW01:POLL:D1:001:5:null".toList ++ ":".toList ++ "ABABABABABABABAB".toList)
      "k".toList = true :=
  ⟨by decide,
   verifyHMAC_case_insensitive (constDigest 171) "GW01:POLL:D1:001:5:null".toList "k".toList
    "ABABABABABABABAB".toList (by decide) (by unfold eqIgnoreCase; decide)⟩

/-- C22, as stated, fails when a NUL character comes before the last `':'`, whatever the
digest function is: in the message `GW01<NUL>:POLL` followed by `':'` and the tag of
`GW01<NUL>:POLL`, the text after the last `':'` is the tag of the text before it, and
`verifyHMAC` does not return true. -/
theorem verifyHMAC_nul_before_colon :
    ¬ ∃ hmacSha256 : AString → AString → Digest,
      verifyHMAC hmacSha256 (("GW01".toList ++ NUL :: ":POLL".toList) ++ ":".toList ++
        calculateHMAC hmacSha256 ("GW01".toList ++ NUL :: ":POLL".toList) "k".toList)
        "k".toList = true := by
  rintro ⟨md, h⟩
  have hs : strrchr (("GW01".toList ++ NUL :: ":POLL".toList) ++ ":".toList ++
      calculateHMAC md ("GW01".toList ++ NUL :: ":POLL".toList) "k".toList) ':' = none :=
    @strrchr_nul "GW01".toList ':' (by decide) (by decide) _
  rw [verifyHMAC_strrchr_none md _ hs] at h
  exact Bool.noConfusion h

/-- C22 (amended): for every message without `':'` (the empty one included) and every
secret, `verifyHMAC` returns false; and on a message with a `':'` and no NUL character before
its last `':'`, where `tail` is the text after the last `':'` and `body` the text before
it, it returns true exactly when `tail` equals the tag of `body` up to ASCII letter case. -/
theorem verifyHMAC_fails_closed (hmacSha256 : AString → AString → Digest) (secret : AString) :
    (∀ message : AString, ':' ∉ message → verifyHMAC hmacSha256 message secret = false) ∧
    (∀ body tail : AString, ':' ∉ tail → NUL ∉ body →
      (verifyHMAC hmacSha256 (body ++ ":".toList ++ tail) secret = true ↔
        eqIgnoreCase tail (calculateHMAC hmacSha256 body secret))) := by
  refine ⟨fun message h => verifyHMAC_no_colon hmacSha256 message secret h, ?_⟩
  intro body tail h hn
  have e : body ++ ":".toList ++ tail = body ++ ':' :: tail := by simp
  rw [e]
  exact verifyHMAC_split_iff hmacSha256 body tail secret h hn

/-- Witness for C22 (amended): the empty message and a message without `':'` are rejected, and
`a:b:0000000000000000` is accepted under the all-zero digest while `a:b:0` is not. -/
theorem verifyHMAC_fails_closed_witness :
    verifyHMAC (constDigest 0) [] "k".toList = false ∧
    verifyHMAC (constDigest 0) "GW01".toList "k".toList = false ∧
    verifyHMAC (constDigest 0) ("a:b".toList ++ ":".toList ++ "0000000000000000".toList)
      "k".toList = true ∧
    ¬ verifyHMAC (constDigest 0) ("a:b".toList ++ ":".toList ++ "0".toList) "k".toList = true :=
  ⟨(verifyHMAC_fails_closed (constDigest 0) "k".toList).1 [] (by decide),
   (verifyHMAC_fails_closed (constDigest 0) "k".toList).1 "GW01".toList (by decide),
   ((verifyHMAC_fails_closed (constDigest 0) "k".toList).2 "a:b".toList
      "0000000000000000".toList (by decide) (by decide)).mpr (by unfold eqIgnoreCase; decide),
   fun h => absurd (((verifyHMAC_fails_closed (constDigest 0) "k".toList).2 "a:b".toList
      "0".toList (by decide) (by decide)).mp h) (by unfold eqIgnoreCase; decide)⟩

/-! ## Verification under another secret -/

/-- A built frame without NUL character in its body verifies under `secret'` exactly when the
tag of its body under `secret'` is the tag under the building secret. -/
theorem verifyHMAC_buildMessage_iff (hmacSha256 : AString → AString → Digest) (clk : Clock)
    (senderId command targetId sequence payload secret secret' : AString)
    (hn : NUL ∉ frameBody senderId command targetId sequence (getCurrentTimestamp clk)
      payload) :
    verifyHMAC hmacSha256
        (buildMessage hmacSha256 clk senderId command targetId sequence payload secret)
        secret' = true ↔
      calculateHMAC hmacSha256
          (frameBody senderId command targetId sequence (getCurrentTimestamp clk) payload)
          secret' =
        calculateHMAC hmacSha256
          (frameBody senderId command targetId sequence (getCurrentTimestamp clk) payload)
          secret := by
  rw [buildMessage_eq, verifyHMAC_split hmacSha256 _ _ secret'
    (calculateHMAC_no_colon hmacSha256 _ secret) hn, toLowerCase_calculateHMAC,
    toLowerCase_calculateHMAC, equalsString_iff (calculateHMAC_no_nul hmacSha256 _ _)]
  exact eq_comm

/-- The tag depends on the digest only through its first 8 bytes. -/
theorem calculateHMAC_congr (hmacSha256 : AString → AString → Digest)
    (message secret secret' : AString)
    (h : (fun i : Fin 8 => hmacSha256 secret message (Fin.castLE (by decide) i)) =
      (fun i : Fin 8 => hmacSha256 secret' message (Fin.castLE (by decide) i))) :
    calculateHMAC hmacSha256 message secret = calculateHMAC hmacSha256 message secret' := by
  unfold calculateHMAC
  have hi : ∀ i : Fin 8, hmacSha256 secret message (Fin.castLE (by decide) i) =
      hmacSha256 secret' message (Fin.castLE (by decide) i) := fun i => congrFun h i
  simp only [hi]

/-- For every message there are two different secrets with the same tag: the tags are
determined by 8 bytes, and there are infinitely many secrets. -/
theorem exists_tag_collision (hmacSha256 : AString → AString → Digest) (message : AString) :
    ∃ secret secret' : AString, secret ≠ secret' ∧
      calculateHMAC hmacSha256 message secret = calculateHMAC hmacSha256 message secret' := by
  obtain ⟨x, y, hxy, hf⟩ := Finite.exists_ne_map_eq_of_infinite
    (fun secret : AString =>
      (fun i : Fin 8 => hmacSha256 secret message (Fin.castLE (by decide) i)))
  exact ⟨x, y, hxy, calculateHMAC_congr hmacSha256 message x y hf⟩

/-- The HMAC construction fills a short key with zero bytes: the keys `k` and `k<NUL>` (a
`k` followed by a NUL character) have the same key block, hence the same digest on every
message, whatever the hash function is. -/
theorem hmacOver_zero_padding (hash : List (Fin 256) → Digest) (message : AString) :
    hmacOver hash ("k".toList ++ [NUL]) message = hmacOver hash "k".toList message := by
  have hb : hmacKeyBlock hash (("k".toList ++ [NUL]).map charByte) =
      hmacKeyBlock hash ("k".toList.map charByte) := by
    unfold hmacKeyBlock
    have h1 : ¬ (("k".toList ++ [NUL]).map charByte).length > 64 := by decide
    have h2 : ¬ ("k".toList.map charByte).length > 64 := by decide
    simp only [h1, h2, if_false]
    decide
  unfold hmacOver
  rw [hb]

/-- A frame whose body holds a NUL character verifies under no secret. -/
theorem verifyHMAC_body_with_nul (hmacSha256 : AString → AString → Digest)
    (body tail secret : AString) (hn : NUL ∈ body) :
    verifyHMAC hmacSha256 (body ++ ':' :: tail) secret = false := by
  obtain ⟨rest, hb⟩ : ∃ rest, body = cstr body ++ NUL :: rest := by
    rcases cstr_cases body with h | h
    · exact absurd (h ▸ hn) (cstr_no_nul body)
    · exact h
  have hframe : body ++ ':' :: tail = cstr body ++ NUL :: (rest ++ ':' :: tail) := by
    conv_lhs => rw [hb]
    simp
  cases hs : strrchr (cstr body) ':' with
  | none =>
    apply verifyHMAC_strrchr_none
    rw [hframe, strrchr_cut (cstr_no_nul body) colon_ne_NUL, hs]
  | some k =>
    have hk : k < (cstr body).length := strrchr_lt colon_ne_NUL hs
    have hl : lastIndexOf (body ++ ':' :: tail) ':' = (k : Nat) := by
      unfold lastIndexOf
      rw [if_neg (by simp)]
      rw [hframe, strrchr_cut (cstr_no_nul body) colon_ne_NUL, hs]
    unfold verifyHMAC
    simp only [hl]
    have hne : ((k : Nat) : Int) ≠ -1 := by omega
    simp only [hne, if_false]
    have hrec : NUL ∈ substringFrom (body ++ ':' :: tail) ((k : Nat) + 1) := by
      rw [show ((k : Nat) : Int) + 1 = ((k + 1 : Nat) : Int) from by push_cast; rfl,
        substringFrom_eq_drop, hframe, List.drop_append_of_le_length (by omega)]
      simp
    cases he : equalsString (toLowerCase (substringFrom (body ++ ':' :: tail) ((k : Nat) + 1)))
        (toLowerCase (calculateHMAC hmacSha256
          (substring (body ++ ':' :: tail) 0 (k : Nat)) secret)) with
    | false => rfl
    | true =>
      rw [toLowerCase_calculateHMAC,
        equalsString_iff (calculateHMAC_no_nul hmacSha256 _ _)] at he
      exact absurd (he ▸ nul_mem_toLowerCase hrec) (calculateHMAC_no_nul hmacSha256 _ _)

/-- A body followed by `':'` and its tag under `secret` is rejected under every `secret'`
that gives the body another tag. -/
theorem verifyHMAC_other_tag (hmacSha256 : AString → AString → Digest)
    (body secret secret' : AString)
    (htag : calculateHMAC hmacSha256 body secret' ≠ calculateHMAC hmacSha256 body secret) :
    verifyHMAC hmacSha256 (body ++ ':' :: calculateHMAC hmacSha256 body secret) secret' =
      false := by
  by_cases hn : NUL ∈ body
  · exact verifyHMAC_body_with_nul hmacSha256 body _ secret' hn
  · cases hv : verifyHMAC hmacSha256 (body ++ ':' :: calculateHMAC hmacSha256 body secret)
        secret' with
    | false => rfl
    | true =>
      rw [verifyHMAC_split hmacSha256 _ _ secret' (calculateHMAC_no_colon hmacSha256 _ secret)
        hn, toLowerCase_calculateHMAC, toLowerCase_calculateHMAC,
        equalsString_iff (calculateHMAC_no_nul hmacSha256 _ _)] at hv
      exact absurd hv.symm htag

/-- C23, as stated, fails. No function producing the 32-byte digests makes `verifyHMAC`
reject a built frame under every secret different from the building one (the tag keeps 8
bytes of the digest, and there are more secrets than tags). And under the HMAC construction,
whatever the hash function is, the frame built for `GW01:POLL:D1:001` with payload `null`
under the secret `k` is accepted under the different secret `k<NUL>` (a `k` followed by a
NUL character), since a short key is filled up with zero bytes. -/
theorem verifyHMAC_wrong_secret_accepted :
    (¬ ∃ hmacSha256 : AString → AString → Digest,
      ∀ (clk : Clock) (senderId command targetId sequence payload secret secret' : AString),
        secret' ≠ secret →
        verifyHMAC hmacSha256
          (buildMessage hmacSha256 clk senderId command targetId sequence payload secret)
          secret' = false) ∧
    "k".toList ++ [NUL] ≠ "k".toList ∧
    (¬ ∃ hash : List (Fin 256) → Digest,
      verifyHMAC (hmacOver hash)
        (buildMessage (hmacOver hash) ⟨0, 5000⟩ "GW01".toList "POLL".toList "D1".toList
          "001".toList "null".toList "k".toList)
        ("k".toList ++ [NUL]) = false) := by
  have hbody : NUL ∉ frameBody "GW01".toList "POLL".toList "D1".toList "001".toList
      (getCurrentTimestamp ⟨0, 5000⟩) "null".toList := by decide
  refine ⟨?_, by decide, ?_⟩
  · rintro ⟨md, h⟩
    obtain ⟨x, y, hxy, ht⟩ := exists_tag_collision md
      (frameBody "GW01".toList "POLL".toList "D1".toList "001".toList
        (getCurrentTimestamp ⟨0, 5000⟩) "null".toList)
    have hfalse := h ⟨0, 5000⟩ "GW01".toList "POLL".toList "D1".toList "001".toList
      "null".toList x y (Ne.symm hxy)
    have htrue := (verifyHMAC_buildMessage_iff md ⟨0, 5000⟩ "GW01".toList "POLL".toList
      "D1".toList "001".toList "null".toList x y hbody).mpr ht.symm
    rw [htrue] at hfalse
    exact Bool.noConfusion hfalse
  · rintro ⟨hash, h⟩
    have ht : calculateHMAC (hmacOver hash)
        (frameBody "GW01".toList "POLL".toList "D1".toList "001".toList
          (getCurrentTimestamp ⟨0, 5000⟩) "null".toList) ("k".toList ++ [NUL]) =
        calculateHMAC (hmacOver hash)
          (frameBody "GW01".toList "POLL".toList "D1".toList "001".toList
            (getCurrentTimestamp ⟨0, 5000⟩) "null".toList) "k".toList := by
      unfold calculateHMAC
      rw [hmacOver_zero_padding]
    have htrue := (verifyHMAC_buildMessage_iff (hmacOver hash) ⟨0, 5000⟩ "GW01".toList
      "POLL".toList "D1".toList "001".toList "null".toList "k".toList ("k".toList ++ [NUL])
      hbody).mpr ht
    rw [htrue] at h
    exact Bool.noConfusion h

/-- C23 (amended): for every built frame `f = buildMessage(sender, command, target, sequence,
payload, secret)` and every `secret'` whose tag over the body of `f` differs from the tag
under `secret`, `verifyHMAC(f, secret') = false`. -/
theorem verifyHMAC_rejects_other_tag (hmacSha256 : AString → AString → Digest) (clk : Clock)
    (senderId command targetId sequence payload secret secret' : AString)
    (htag : calculateHMAC hmacSha256
        (senderId ++ ":".toList ++ command ++ ":".toList ++ targetId ++ ":".toList ++ sequence ++
          ":".toList ++ decimal (getCurrentTimestamp clk) ++ ":".toList ++ payload) secret' ≠
      calculateHMAC hmacSha256
        (senderId ++ ":".toList ++ command ++ ":".toList ++ targetId ++ ":".toList ++ sequence ++
          ":".toList ++ decimal (getCurrentTimestamp clk) ++ ":".toList ++ payload) secret) :
    verifyHMAC hmacSha256
      (buildMessage hmacSha256 clk senderId command targetId sequence payload secret)
      secret' = false := by
  have e : senderId ++ ":".toList ++ command ++ ":".toList ++ targetId ++ ":".toList ++
      sequence ++ ":".toList ++ decimal (getCurrentTimestamp clk) ++ ":".toList ++ payload =
      frameBody senderId command targetId sequence (getCurrentTimestamp clk) payload := by
    simp [frameBody]
  rw [e] at htag
  rw [buildMessage_eq]
  exact verifyHMAC_other_tag hmacSha256 _ secret secret' htag

/-- Witness for C23 (amended): under a digest that depends on the length of the key, the
frame built with secret `k` is rejected under secret `kk`. -/
theorem verifyHMAC_rejects_other_tag_witness :
    verifyHMAC lengthDigest
      (buildMessage lengthDigest ⟨0, 5000⟩ "GW01".toList "POLL".toList "D1".toList
        "001".toList "null".toList "k".toList) "kk".toList = false :=
  verifyHMAC_rejects_other_tag lengthDigest ⟨0, 5000⟩ "GW01".toList "POLL".toList
    "D1".toList "001".toList "null".toList "k".toList "kk".toList (by decide)

/-! ## The timestamp tolerance check -/

/-- On timestamps below `2 ^ 31` the check is the absolute-difference check. -/
theorem validateTimestamp_in_range (m c : Nat) (hm : m < 2147483648) (hc : c < 2147483648) :
    validateTimestamp m c = true ↔ ((c : Int) - (m : Int)).natAbs ≤ 60 := by
  unfold validateTimestamp toLong absLong wrapLong TIMESTAMP_TOLERANCE
  have h1 : m % 4294967296 = m := Nat.mod_eq_of_lt (by omega)
  have h2 : c % 4294967296 = c := Nat.mod_eq_of_lt (by omega)
  simp only [h1, h2, hm, hc, if_true, decide_eq_true_eq]
  split_ifs <;> omega

/-- C24, as stated, fails on timestamps from `2 ^ 31` on: the casts to `long` change these
values, so `validateTimestamp(4294967295, 5)` and `validateTimestamp(0, 4294967295)` are
true although the absolute differences, 4294967290 and 4294967295, are far above 60. -/
theorem validateTimestamp_wraps :
    validateTimestamp 4294967295 5 = true ∧ validateTimestamp 0 4294967295 = true ∧
    ¬ ((5 : Int) - 4294967295).natAbs ≤ 60 ∧ ¬ ((4294967295 : Int) - 0).natAbs ≤ 60 := by
  decide

/-- C24 (amended): for all timestamps `m` and `c` below `2 ^ 31` (the values that the casts to
`long` leave unchanged), `validateTimestamp(m, c)` is true if and only if the absolute
difference `|c - m|` is at most 60, and the check is symmetric in its two arguments. -/
theorem validateTimestamp_abs_diff (m c : Nat) (hm : m < 2147483648) (hc : c < 2147483648) :
    (validateTimestamp m c = true ↔ ((c : Int) - (m : Int)).natAbs ≤ TIMESTAMP_TOLERANCE) ∧
    validateTimestamp m c = validateTimestamp c m := by
  have h1 := validateTimestamp_in_range m c hm hc
  have h2 := validateTimestamp_in_range c m hc hm
  refine ⟨h1, ?_⟩
  have e : ((c : Int) - (m : Int)).natAbs = ((m : Int) - (c : Int)).natAbs := by omega
  rw [e] at h1
  cases hv : validateTimestamp m c with
  | true => exact ((h2.mpr (h1.mp hv))).symm
  | false =>
    cases hw : validateTimestamp c m with
    | false => rfl
    | true => exact absurd (h1.mpr (h2.mp hw)) (by rw [hv]; exact Bool.noConfusion)

/-- Witness for C24 (amended): 100 and 130 are within the tolerance, 100 and 161 are not. -/
theorem validateTimestamp_abs_diff_witness :
    validateTimestamp 100 130 = true ∧ validateTimestamp 130 100 = true ∧
    validateTimestamp 100 161 = false :=
  ⟨((validateTimestamp_abs_diff 100 130 (by decide) (by decide)).1).mpr (by decide),
   (validateTimestamp_abs_diff 100 130 (by decide) (by decide)).2 ▸
     ((validateTimestamp_abs_diff 100 130 (by decide) (by decide)).1).mpr (by decide),
   by decide⟩

/-! ## Dependence of the built frame on the clock -/

/-- C25, as stated, fails: with the same six arguments, the frames built at clock values 5
and 6 differ, whatever the digest function is. -/
theorem buildMessage_depends_on_clock :
    getCurrentTimestamp ⟨0, 5000⟩ = 5 ∧ getCurrentTimestamp ⟨0, 6000⟩ = 6 ∧
    ¬ ∃ hmacSha256 : AString → AString → Digest,
      buildMessage hmacSha256 ⟨0, 5000⟩ "GW01".toList "POLL".toList "D1".toList "001".toList
        "null".toList "k".toList =
      buildMessage hmacSha256 ⟨0, 6000⟩ "GW01".toList "POLL".toList "D1".toList "001".toList
        "null".toList "k".toList := by
  refine ⟨by decide, by decide, ?_⟩
  rintro ⟨md, h⟩
  have h5 : (buildMessage md ⟨0, 5000⟩ "GW01".toList "POLL".toList "D1".toList "001".toList
      "null".toList "k".toList).take 18 = "GW01:POLL:D1:001:5".toList := rfl
  have h6 : (buildMessage md ⟨0, 6000⟩ "GW01".toList "POLL".toList "D1".toList "001".toList
      "null".toList "k".toList).take 18 = "GW01:POLL:D1:001:6".toList := rfl
  rw [h, h6] at h5
  revert h5
  decide

/-- C25 (amended): the frame returned by `buildMessage` is determined by its six arguments
together with the clock value it reads: two calls with equal arguments at equal clock values
return equal frames. -/
theorem buildMessage_deterministic (hmacSha256 : AString → AString → Digest) (clk clk' : Clock)
    (senderId command targetId sequence payload secret : AString)
    (hclk : getCurrentTimestamp clk = getCurrentTimestamp clk') :
    buildMessage hmacSha256 clk senderId command targetId sequence payload secret =
      buildMessage hmacSha256 clk' senderId command targetId sequence payload secret := by
  rw [buildMessage_eq, buildMessage_eq, hclk]

/-- Witness for C25 (amended): the clock states `(0, 5000)` and `(3, 2999)` both read 5. -/
theorem buildMessage_deterministic_witness :
    buildMessage (constDigest 171) ⟨0, 5000⟩ "GW01".toList "POLL".toList "D1".toList
        "001".toList "null".toList "k".toList =
      buildMessage (constDigest 171) ⟨3, 2999⟩ "GW01".toList "POLL".toList "D1".toList
        "001".toList "null".toList "k".toList :=
  buildMessage_deterministic (constDigest 171) ⟨0, 5000⟩ ⟨3, 2999⟩ "GW01".toList
    "POLL".toList "D1".toList "001".toList "null".toList "k".toList (by decide)

/-! ## The tag of an authenticated frame in the parsed message -/

theorem parseMessage_hmac (stack : LoRaMessage) (rawMessage : AString) :
    (parseMessage stack rawMessage).hmac = [] := by
  unfold parseMessage
  dsimp only
  split_ifs
  · rfl
  · split <;> rfl

/-- C26, as stated, fails when a header argument holds a NUL character, whatever the digest
function and the initial storage are: for the sender `GW01<NUL>` (no `':'`), the payload of
the message parsed from the built frame is not the payload followed by `':'` and the tag. -/
theorem parseMessage_nul_sender_payload :
    ¬ ∃ (hmacSha256 : AString → AString → Digest) (stack : LoRaMessage),
      (parseMessage stack (buildMessage hmacSha256 ⟨0, 5000⟩ ("GW01".toList ++ [NUL])
        "POLL".toList "D1".toList "001".toList "null".toList "k".toList)).payload =
      "null".toList ++ ":".toList ++ calculateHMAC hmacSha256
        (("GW01".toList ++ [NUL]) ++ ":".toList ++ "POLL".toList ++ ":".toList ++ "D1".toList ++
          ":".toList ++ "001".toList ++ ":".toList ++ decimal (getCurrentTimestamp ⟨0, 5000⟩) ++
          ":".toList ++ "null".toList) "k".toList := by
  rintro ⟨md, stack, h⟩
  have hs : strchr (buildMessage md ⟨0, 5000⟩ ("GW01".toList ++ [NUL]) "POLL".toList
      "D1".toList "001".toList "null".toList "k".toList) ':' = none :=
    @strchr_nul "GW01".toList ':' (by decide) (by decide) _
  rw [parseMessage_strchr_none stack hs] at h
  have hl := congrArg List.length h
  simp [declareMessage] at hl

/-- C26 (amended): for every sender, command, target and sequence without `':'` and without
NUL character, every payload without `':'`, every secret and clock value, the message parsed
from the built frame has the payload followed by `':'` and the tag as its payload, and the
empty string as `hmac`; and `parseMessage` returns `hmac = ""` on every input it accepts. -/
theorem parseMessage_absorbs_tag (hmacSha256 : AString → AString → Digest) (stack : LoRaMessage)
    (clk : Clock) (senderId command targetId sequence payload secret : AString)
    (hs : ':' ∉ senderId) (hc : ':' ∉ command) (ht : ':' ∉ targetId) (hq : ':' ∉ sequence)
    (_hp : ':' ∉ payload) (ns : NUL ∉ senderId) (nc : NUL ∉ command) (nt : NUL ∉ targetId)
    (nq : NUL ∉ sequence) :
    (parseMessage stack (buildMessage hmacSha256 clk senderId command targetId sequence payload
        secret)).payload =
      payload ++ ":".toList ++ calculateHMAC hmacSha256
        (senderId ++ ":".toList ++ command ++ ":".toList ++ targetId ++ ":".toList ++ sequence ++
          ":".toList ++ decimal (getCurrentTimestamp clk) ++ ":".toList ++ payload) secret ∧
    (parseMessage stack (buildMessage hmacSha256 clk senderId command targetId sequence payload
        secret)).hmac = [] ∧
    (∀ (stack' : LoRaMessage) (rawMessage : AString),
      (parseMessage stack' rawMessage).valid = true → (parseMessage stack' rawMessage).hmac = []) := by
  refine ⟨?_, parseMessage_hmac _ _, fun stack' raw _ => parseMessage_hmac stack' raw⟩
  rw [parseMessage_buildMessage hmacSha256 stack clk _ _ _ _ _ _ hs hc ht hq ns nc nt nq]
  show payload ++ ':' :: calculateHMAC hmacSha256
    (frameBody senderId command targetId sequence (getCurrentTimestamp clk) payload) secret = _
  simp [frameBody]

/-- Witness for C26 (amended): the frame `GW01:POLL:D1:001:5:null:abababababababab`. -/
theorem parseMessage_absorbs_tag_witness :
    (parseMessage sampleStack (buildMessage (constDigest 171) ⟨0, 5000⟩ "GW01".toList
        "POLL".toList "D1".toList "001".toList "null".toList "k".toList)).payload =
      "null:abababababababab".toList ∧
    (parseMessage sampleStack (buildMessage (constDigest 171) ⟨0, 5000⟩ "GW01".toList
        "POLL".toList "D1".toList "001".toList "null".toList "k".toList)).hmac = [] :=
  have h := parseMessage_absorbs_tag (constDigest 171) sampleStack ⟨0, 5000⟩ "GW01".toList
    "POLL".toList "D1".toList "001".toList "null".toList "k".toList (by decide) (by decide)
    (by decide) (by decide) (by decide) (by decide) (by decide) (by decide) (by decide)
  ⟨h.1.trans (by decide), h.2.1⟩

/-! ## The data decoder cuts at the third `':'` -/

theorem indexOf_slash (x y : List Char) (hx : '/' ∉ x) (hn : NUL ∉ x) :
    indexOf (x ++ '/' :: y) '/' 0 = (x.length : Int) := by
  have h := @indexOf_of_drop (x ++ '/' :: y) x y '/' 0 rfl hx hn
  rw [Nat.zero_add] at h
  exact h

/-- C27, as stated, fails in two ways when the payload holds a NUL character. On the payload
`T:left:d:1<NUL>/5` (a NUL after the `1`), which has three `':'` and a `'/'` after the third,
`parseDataPayload` leaves `positionIndex` and `totalPositions` at their previous values `-7`
and `-8`. On the payload `null<NUL>:left:d:1/5` it does not set `detections`, which stays
empty. -/
theorem parseDataPayload_third_colon_nul :
    ("T:left:d:1".toList ++ NUL :: "/5".toList).count ':' = 3 ∧
    "T:left:d:1".toList ++ NUL :: "/5".toList =
      "T".toList ++ ":".toList ++ "left".toList ++ ":".toList ++ "d".toList ++ ":".toList ++
        (['1', NUL] ++ "/".toList ++ "5".toList) ∧
    toInt ['1', NUL] = 1 ∧
    (parseDataPayload { sampleStack with
      payload := "T:left:d:1".toList ++ NUL :: "/5".toList }).data.positionIndex = -7 ∧
    (parseDataPayload { sampleStack with
      payload := "T:left:d:1".toList ++ NUL :: "/5".toList }).data.totalPositions = -8 ∧
    ("null".toList ++ NUL :: ":left:d:1/5".toList).count ':' = 3 ∧
    (parseDataPayload { sampleStack with
      payload := "null".toList ++ NUL :: ":left:d:1/5".toList }).data.detections = [] := by
  decide

/-- C27 (amended): for every payload with at least three `':'` that does not compare equal to
`null` (the comparison reads the payload up to its first NUL character), `detections` is the
text strictly between the second and the third `':'`; and when the text after the third `':'`
contains a `'/'` with no NUL character before it, `positionIndex` is the leading integer of
that text up to its first `'/'` and `totalPositions` the leading integer of what follows that
`'/'`. -/
theorem parseDataPayload_third_colon (msg : LoRaMessage) (a b c : AString) (ha : ':' ∉ a)
    (hb : ':' ∉ b) (hc : ':' ∉ c) :
    (∀ extra : AString,
      equalsCStr (a ++ ":".toList ++ b ++ ":".toList ++ c ++ ":".toList ++ extra)
        "null".toList = false →
      (parseDataPayload { msg with payload := (a ++ ":".toList ++ b ++ ":".toList ++ c ++
        ":".toList ++ extra) }).data.detections = c) ∧
    (∀ x y : AString, '/' ∉ x → NUL ∉ x →
      equalsCStr (a ++ ":".toList ++ b ++ ":".toList ++ c ++ ":".toList ++
        (x ++ "/".toList ++ y)) "null".toList = false →
      (parseDataPayload { msg with payload := (a ++ ":".toList ++ b ++ ":".toList ++ c ++
        ":".toList ++ (x ++ "/".toList ++ y)) }).data.positionIndex = toInt x ∧
      (parseDataPayload { msg with payload := (a ++ ":".toList ++ b ++ ":".toList ++ c ++
        ":".toList ++ (x ++ "/".toList ++ y)) }).data.totalPositions = toInt y) := by
  have e : ∀ extra : AString, a ++ ":".toList ++ b ++ ":".toList ++ c ++ ":".toList ++ extra =
      a ++ ':' :: (b ++ ':' :: (c ++ ':' :: extra)) := by
    intro extra
    simp
  constructor
  · intro extra hnl
    rw [e] at hnl ⊢
    rw [parseDataPayload_three msg a b c extra ha hb hc hnl]
    split_ifs <;> rfl
  · intro x y hx hn hnl
    have e2 : x ++ "/".toList ++ y = x ++ '/' :: y := by simp
    have hne : indexOf (x ++ '/' :: y) '/' 0 ≠ -1 := by
      rw [indexOf_slash x y hx hn]
      omega
    have h1 : substring (x ++ '/' :: y) 0 (indexOf (x ++ '/' :: y) '/' 0) = x := by
      rw [indexOf_slash x y hx hn, substring_zero]
      simp
    have h2 : substringFrom (x ++ '/' :: y) (indexOf (x ++ '/' :: y) '/' 0 + 1) = y := by
      rw [indexOf_slash x y hx hn, substringFrom_append_succ]
    rw [e, e2] at hnl ⊢
    rw [parseDataPayload_three msg a b c _ ha hb hc hnl, if_pos hne, h1, h2]
    exact ⟨rfl, rfl⟩

/-- Witness for C27 (amended): on `T:left:motherboard:40%,led_on:50%:1/5`, `detections = motherboard`,
`positionIndex = 40` and `totalPositions = 5`. -/
theorem parseDataPayload_third_colon_witness :
    "T".toList ++ ":".toList ++ "left".toList ++ ":".toList ++ "motherboard".toList ++
      ":".toList ++ ("40%,led_on:50%:1".toList ++ "/".toList ++ "5".toList) =
      "T:left:motherboard:40%,led_on:50%:1/5".toList ∧
    (parseDataPayload { sampleStack with payload := ("T".toList ++ ":".toList ++ "left".toList ++
      ":".toList ++ "motherboard".toList ++ ":".toList ++
      ("40%,led_on:50%:1".toList ++ "/".toList ++ "5".toList)) }).data.detections =
      "motherboard".toList ∧
    (parseDataPayload { sampleStack with payload := ("T".toList ++ ":".toList ++ "left".toList ++
      ":".toList ++ "motherboard".toList ++ ":".toList ++
      ("40%,led_on:50%:1".toList ++ "/".toList ++ "5".toList)) }).data.positionIndex = 40 ∧
    (parseDataPayload { sampleStack with payload := ("T".toList ++ ":".toList ++ "left".toList ++
      ":".toList ++ "motherboard".toList ++ ":".toList ++
      ("40%,led_on:50%:1".toList ++ "/".toList ++ "5".toList)) }).data.totalPositions = 5 :=
  have h := parseDataPayload_third_colon sampleStack "T".toList "left".toList
    "motherboard".toList (by decide) (by decide) (by decide)
  have h2 := h.2 "40%,led_on:50%:1".toList "5".toList (by decide) (by decide) (by decide)
  ⟨by decide, h.1 _ (by decide), h2.1.trans (by decide), h2.2.trans (by decide)⟩

/-! ## The range of the sequence counter -/

theorem hexDigit_eq_zero {d : Nat} (hd : d < 10) (h : hexDigit d = '0') : d = 0 := by
  interval_cases d <;> first | rfl | exact absurd h (by decide)

theorem pad3_ne_zero {n : Nat} (h1 : 1 ≤ n) (h2 : n ≤ 999) : pad3 n ≠ "000".toList := by
  intro h
  unfold pad3 at h
  have e : "000".toList = ['0', '0', '0'] := rfl
  rw [e] at h
  simp only [List.cons.injEq, and_true] at h
  obtain ⟨ha, hb, hc⟩ := h
  have a := hexDigit_eq_zero (by omega) ha
  have b := hexDigit_eq_zero (by omega) hb
  have c := hexDigit_eq_zero (by omega) hc
  omega

/-- C28: for every counter value `c` with `0 ≤ c ≤ 999`, `generateSequence` leaves the
counter at `c + 1` if `c < 999` and at 1 otherwise, hence in `1 .. 999`, and returns exactly
the 3-character zero-padded decimal string of the new counter, which is never `"000"`. -/
theorem generateSequence_range (c : Int) (h0 : 0 ≤ c) (h1 : c ≤ 999) :
    (generateSequence c).2 = (if c < 999 then c + 1 else 1) ∧
    1 ≤ (generateSequence c).2 ∧ (generateSequence c).2 ≤ 999 ∧
    (generateSequence c).1 = pad3 (generateSequence c).2.toNat ∧
    (generateSequence c).1.length = 3 ∧
    (generateSequence c).1 ≠ "000".toList := by
  obtain ⟨n, rfl⟩ := Int.eq_ofNat_of_zero_le h0
  by_cases hlt : n < 999
  · rw [generateSequence_lt n hlt]
    have hc : ((n : Int) < 999) := by omega
    rw [if_pos hc]
    refine ⟨?_, ?_, ?_, ?_, rfl, pad3_ne_zero (by omega) (by omega)⟩
    · show ((n + 1 : Nat) : Int) = (n : Int) + 1
      push_cast
      rfl
    · show 1 ≤ ((n + 1 : Nat) : Int)
      omega
    · show ((n + 1 : Nat) : Int) ≤ 999
      omega
    · show pad3 (n + 1) = pad3 (Int.toNat ((n + 1 : Nat) : Int))
      rw [Int.toNat_ofNat]
  · have hn : n = 999 := by omega
    subst hn
    decide

/-- Witness for C28: from 41 the counter goes to 42 with `"042"`, and from 999 to 1 with
`"001"`. -/
theorem generateSequence_range_witness :
    generateSequence 41 = ("042".toList, 42) ∧ generateSequence 999 = ("001".toList, 1) := by
  have a := generateSequence_range 41 (by decide) (by decide)
  have b := generateSequence_range 999 (by decide) (by decide)
  refine ⟨Prod.ext (a.2.2.2.1.trans ?_) (a.1.trans ?_), Prod.ext (b.2.2.2.1.trans ?_)
    (b.1.trans ?_)⟩ <;> decide

/-! ## The health decoder on a recognized prefix without a number -/

theorem foldl_last_battery (pre post : List AString) (rest : AString) (health : HealthPayload)
    (hpost : ∀ u ∈ post, startsWith u "bat_".toList = false) :
    ((pre ++ ("bat_".toList ++ rest) :: post).foldl
      (fun h tok => parseHealthField tok h) health).battery = toInt rest := by
  rw [List.foldl_append, List.foldl_cons, foldl_battery post _ hpost, parseHealthField_bat]

theorem foldl_last_rssi (pre post : List AString) (rest : AString) (health : HealthPayload)
    (hpost : ∀ u ∈ post, startsWith u "rssi_".toList = false) :
    ((pre ++ ("rssi_".toList ++ rest) :: post).foldl
      (fun h tok => parseHealthField tok h) health).rssi = toInt rest := by
  rw [List.foldl_append, List.foldl_cons, foldl_rssi post _ hpost, parseHealthField_rssi_text]

theorem foldl_last_snr (pre post : List AString) (rest : AString) (health : HealthPayload)
    (hpost : ∀ u ∈ post, startsWith u "snr_".toList = false) :
    ((pre ++ ("snr_".toList ++ rest) :: post).foldl
      (fun h tok => parseHealthField tok h) health).snr = toInt rest := by
  rw [List.foldl_append, List.foldl_cons, foldl_snr post _ hpost, parseHealthField_snr_text]

/-- C29, as stated, fails in two ways. In the payload `bat_ 5` the only token starts with
`bat_` and its remainder ` 5` does not start with an optional sign followed by a digit, yet
`battery` is 5, not 0. In the payload `x<NUL>:bat_` (a NUL after the `x`) the last token,
`bat_`, is the only one that starts with `bat_` and its remainder is empty, yet `battery` is
the unknown sentinel -1, not 0. -/
theorem parseHealthPayload_blank_value :
    (startsWith "bat_ 5".toList "bat_".toList = true ∧
      startsNumeric ("bat_ 5".toList.drop 4) = false ∧
      (parseHealthPayload { sampleStack with payload := "bat_ 5".toList }).map
        (fun m => m.health.battery) = some 5) ∧
    (List.splitOn ':' (['x', NUL] ++ ":bat_".toList) = [['x', NUL], "bat_".toList] ∧
      startsWith ['x', NUL] "bat_".toList = false ∧
      startsWith "bat_".toList "bat_".toList = true ∧
      startsNumeric ("bat_".toList.drop 4) = false ∧
      (parseHealthPayload { sampleStack with payload := ['x', NUL] ++ ":bat_".toList }).map
        (fun m => m.health.battery) = some (-1)) := by
  decide

/-- C29 (amended): for every payload without NUL character, when `t` is the last token of
the payload that starts with `bat_`, `rssi_` or `snr_`, and the text of `t` after the prefix,
once its leading white space is skipped, is empty or does not start with an optional sign
followed by a digit, the health decoder returns with that field equal to 0 (not to the
unknown sentinel). -/
theorem parseHealthPayload_non_numeric (msg : LoRaMessage) (pre post : List AString)
    (t : AString) (hnul : NUL ∉ msg.payload)
    (hsplit : List.splitOn ':' msg.payload = pre ++ t :: post) :
    ∃ out, parseHealthPayload msg = some out ∧
      (startsWith t "bat_".toList = true →
        startsNumeric ((t.drop 4).dropWhile isSpace) = false →
        (∀ u ∈ post, startsWith u "bat_".toList = false) → out.health.battery = 0) ∧
      (startsWith t "rssi_".toList = true →
        startsNumeric ((t.drop 5).dropWhile isSpace) = false →
        (∀ u ∈ post, startsWith u "rssi_".toList = false) → out.health.rssi = 0) ∧
      (startsWith t "snr_".toList = true →
        startsNumeric ((t.drop 4).dropWhile isSpace) = false →
        (∀ u ∈ post, startsWith u "snr_".toList = false) → out.health.snr = 0) := by
  refine ⟨_, parseHealthPayload_eq msg hnul, ?_, ?_, ?_⟩
  · intro ht hnum hpost
    obtain ⟨rest, rfl⟩ := startsWith_eq_true bat_no_nul ht
    show HealthPayload.battery (List.foldl _ _ (List.splitOn ':' msg.payload)) = _
    rw [hsplit, foldl_last_battery pre post rest _ hpost]
    exact toInt_of_not_startsNumeric hnum
  · intro ht hnum hpost
    obtain ⟨rest, rfl⟩ := startsWith_eq_true rssi_no_nul ht
    show HealthPayload.rssi (List.foldl _ _ (List.splitOn ':' msg.payload)) = _
    rw [hsplit, foldl_last_rssi pre post rest _ hpost]
    exact toInt_of_not_startsNumeric hnum
  · intro ht hnum hpost
    obtain ⟨rest, rfl⟩ := startsWith_eq_true snr_no_nul ht
    show HealthPayload.snr (List.foldl _ _ (List.splitOn ':' msg.payload)) = _
    rw [hsplit, foldl_last_snr pre post rest _ hpost]
    exact toInt_of_not_startsNumeric hnum

/-- Witness for C29 (amended): `bat_` gives `battery = 0` and `bat_95:rssi_x` gives
`rssi = 0`. -/
theorem parseHealthPayload_non_numeric_witness :
    (∃ out, parseHealthPayload { sampleStack with payload := "bat_".toList } = some out ∧
      out.health.battery = 0) ∧
    (∃ out, parseHealthPayload { sampleStack with payload := "bat_95:rssi_x".toList } = some out ∧
      out.health.rssi = 0) := by
  constructor
  · obtain ⟨out, h, hb, _, _⟩ := parseHealthPayload_non_numeric
      { sampleStack with payload := "bat_".toList } [] [] "bat_".toList (by decide) (by decide)
    exact ⟨out, h, hb (by decide) (by decide) (by decide)⟩
  · obtain ⟨out, h, _, hr, _⟩ := parseHealthPayload_non_numeric
      { sampleStack with payload := "bat_95:rssi_x".toList } ["bat_95".toList] []
      "rssi_x".toList (by decide) (by decide)
    exact ⟨out, h, hr (by decide) (by decide) (by decide)⟩

/-! ## The error return of the field loop -/

/-- C30, as stated, fails when a NUL character comes before the fifth `':'`: the raw string
`GW01:POLL:D1<NUL>:001:5:null` (a NUL after `D1`) has five `':'`, so it passes the delimiter
count check, and the field loop of `parseMessage` takes its "Parsing error" return. -/
theorem fieldLoop_error_reached :
    ("GW01:POLL:D1".toList ++ NUL :: ":001:5:null".toList).count ':' = 5 ∧
    countColons ("GW01:POLL:D1".toList ++ NUL :: ":001:5:null".toList) = 5 ∧
    fieldLoop ("GW01:POLL:D1".toList ++ NUL :: ":001:5:null".toList) 6 0 0
      (List.replicate 6 []) = none := by
  decide

/-- C30 (amended): for every raw string with at least five `':'` before its first NUL
character (`cstr` is the whole string when it holds no NUL), the field loop of `parseMessage`
completes (its "Parsing error" return is not taken: each of the first five searches for
`':'` succeeds), and the five header fields it extracts contain no `':'`. -/
theorem fieldLoop_error_unreachable (rawMessage : AString)
    (h : 5 ≤ (cstr rawMessage).count ':') :
    ∃ fields, fieldLoop rawMessage 6 0 0 (List.replicate 6 []) = some fields ∧
      fields.length = 6 ∧ ∀ i, i < 5 → ':' ∉ fields.getD i [] := by
  obtain ⟨f0, f1, f2, f3, f4, p, rfl, ⟨h0, h1, h2, h3, h4⟩, ⟨n0, n1, n2, n3, n4⟩⟩ :=
    exists_frame_cstr h
  refine ⟨[f0, f1, f2, f3, f4, p],
    fieldLoop_frame f0 f1 f2 f3 f4 p h0 h1 h2 h3 h4 n0 n1 n2 n3 n4, rfl, ?_⟩
  intro i hi
  interval_cases i
  · exact h0
  · exact h1
  · exact h2
  · exact h3
  · exact h4

/-- Witness for C30 (amended): the field loop on `D1:DATA:GW01:007:5:T1:left:dets:1/5`. -/
theorem fieldLoop_error_unreachable_witness :
    ∃ fields, fieldLoop "D1:DATA:GW01:007:5:T1:left:dets:1/5".toList 6 0 0
        (List.replicate 6 []) = some fields ∧
      fields.length = 6 ∧ ∀ i, i < 5 → ':' ∉ fields.getD i [] :=
  fieldLoop_error_unreachable "D1:DATA:GW01:007:5:T1:left:dets:1/5".toList (by decide)

/-! ## Termination of the token loop of the health decoder -/

/-- One iteration of the token loop entered at `startIdx` continues at `nextStart`. -/
theorem healthLoop_step (payload : AString) (fuel k : Nat) (health : HealthPayload)
    (hk : k < payload.length) :
    ∃ health', healthLoop payload (fuel + 1) (k : Nat) health =
      healthLoop payload fuel (nextStart payload (k : Nat)) health' := by
  rw [healthLoop.eq_def]
  have hlt : ((k : Int) < (payload.length : Nat)) := by omega
  simp only [hlt, if_true]
  unfold nextStart
  dsimp only
  by_cases hm : indexOf payload ':' (k : Nat) = -1
  · simp only [hm, if_true]
    exact ⟨_, rfl⟩
  · simp only [hm, if_false]
    exact ⟨_, rfl⟩

/-- The scan index strictly increases in one iteration and stays within the payload. -/
theorem nextStart_bounds (payload : AString) (k : Nat) (hk : k < payload.length) :
    (k : Int) < nextStart payload (k : Nat) ∧
      nextStart payload (k : Nat) ≤ (payload.length : Nat) := by
  unfold nextStart
  dsimp only
  by_cases hm : ':' ∈ payload.drop k
  · obtain ⟨tok, rest, hd, htok⟩ := List.eq_append_cons_of_mem hm
    have hlen := congrArg List.length hd
    simp only [List.length_drop, List.length_append, List.length_cons] at hlen
    by_cases hnul : NUL ∈ tok
    · have hi : indexOf payload ':' (k : Nat) = -1 :=
        indexOf_of_strchr_none (by
          rw [hd]
          exact strchr_none_of_nul_mem hnul htok colon_ne_NUL rest)
      rw [hi, if_pos rfl]
      constructor <;> omega
    · rw [indexOf_of_drop hd htok hnul]
      have hne : ¬ (((k + tok.length : Nat) : Int) = -1) := by omega
      rw [if_neg hne]
      constructor <;> omega
  · rw [indexOf_of_drop_none hm colon_ne_NUL, if_pos rfl]
    constructor <;> omega

/-- The token loop returns when it is given one unit of fuel more than there are `':'` in
the unread part of the payload. -/
theorem healthLoop_fuel_count (payload : AString) :
    ∀ (fuel k : Nat) (health : HealthPayload), (payload.drop k).count ':' + 1 ≤ fuel →
      healthLoop payload fuel (k : Nat) health =
        some ((scanFields (List.splitOn ':' (payload.drop k))).foldl
          (fun h tok => parseHealthField tok h) health) := by
  intro fuel
  induction fuel with
  | zero =>
    intro k health hf
    omega
  | succ fuel ih =>
    intro k health hf
    by_cases hk : payload.length ≤ k
    · rw [healthLoop_done payload _ k health hk, List.drop_eq_nil_of_le hk]
      rfl
    · rw [healthLoop.eq_def]
      have hlt : ((k : Int) < (payload.length : Nat)) := by omega
      simp only [hlt, if_true]
      by_cases hm : ':' ∈ payload.drop k
      · obtain ⟨tok, rest, hd, htok⟩ := List.eq_append_cons_of_mem hm
        have hcount : (payload.drop k).count ':' = rest.count ':' + 1 := by
          rw [hd, List.count_append, List.count_cons_self, List.count_eq_zero_of_not_mem htok]
          omega
        have hrest := drop_of_drop hd
        by_cases hnul : NUL ∈ tok
        · have hi : indexOf payload ':' (k : Nat) = -1 :=
            indexOf_of_strchr_none (by
              rw [hd]
              exact strchr_none_of_nul_mem hnul htok colon_ne_NUL rest)
          simp only [hi, if_true]
          rw [substringFrom_eq_drop, healthLoop_done payload fuel _ _ (Nat.le_refl _)]
          have e : scanFields (List.splitOn ':' (payload.drop k)) = [payload.drop k] := by
            have h1 : List.intercalate [':'] (List.splitOn ':' (payload.drop k)) =
                payload.drop k := List.intercalate_splitOn _ ':'
            rw [hd, splitOn_first htok] at h1 ⊢
            rw [scanFields, if_pos hnul, h1]
          rw [e]
          rfl
        · have hi := indexOf_of_drop hd htok hnul
          have hne : ¬ (((k + tok.length : Nat) : Int) = -1) := by omega
          simp only [hi, hne, if_false]
          rw [substring_of_drop hd,
            show ((k + tok.length : Nat) : Int) + 1 = ((k + tok.length + 1 : Nat) : Int) from by
              push_cast; rfl,
            ih (k + tok.length + 1) _ (by rw [hrest]; omega), hrest, hd, splitOn_first htok,
            scanFields, if_neg hnul]
          rfl
      · have hi := indexOf_of_drop_none hm colon_ne_NUL
        simp only [hi, if_true]
        rw [substringFrom_eq_drop, healthLoop_done payload fuel _ _ (Nat.le_refl _),
          splitOn_single hm, scanFields_single]
        rfl

/-- C31: the token loop of `parseHealthPayload` terminates for every payload: an iteration
entered at `startIdx` below the payload length continues at a strictly larger index that is
at most the payload length; the loop returns within (number of `':'` in the payload + 1)
iterations, whatever the tokens are (empty tokens, leading, trailing or consecutive `':'`
included); and `parseHealthPayload` returns for every message. -/
theorem healthLoop_terminates (payload : AString) :
    (∀ (k fuel : Nat) (health : HealthPayload), k < payload.length →
      (k : Int) < nextStart payload (k : Nat) ∧
      nextStart payload (k : Nat) ≤ (payload.length : Nat) ∧
      ∃ health', healthLoop payload (fuel + 1) (k : Nat) health =
        healthLoop payload fuel (nextStart payload (k : Nat)) health') ∧
    (∀ health : HealthPayload,
      ∃ out, healthLoop payload (payload.count ':' + 1) 0 health = some out) ∧
    (∀ msg : LoRaMessage, ∃ out, parseHealthPayload msg = some out) := by
  refine ⟨?_, ?_, fun msg => ⟨_, parseHealthPayload_eq_fields msg⟩⟩
  · intro k fuel health hk
    exact ⟨(nextStart_bounds payload k hk).1, (nextStart_bounds payload k hk).2,
      healthLoop_step payload fuel k health hk⟩
  · intro health
    have h := healthLoop_fuel_count payload (payload.count ':' + 1) 0 health
      (by rw [List.drop_zero])
    exact ⟨_, h⟩

/-- Witness for C31: on `::bat_5::` (four `':'`, empty tokens at both ends) the iteration
entered at index 2 continues at index 8, within the payload length 9, and five iterations
are enough. -/
theorem healthLoop_terminates_witness :
    nextStart "::bat_5::".toList 2 = 8 ∧
    ((2 : Nat) : Int) < nextStart "::bat_5::".toList (2 : Nat) ∧
    nextStart "::bat_5::".toList (2 : Nat) ≤ ("::bat_5::".toList.length : Nat) ∧
    "::bat_5::".toList.count ':' + 1 = 5 ∧
    (∃ out, healthLoop "::bat_5::".toList ("::bat_5::".toList.count ':' + 1) 0 unknownHealth =
      some out) ∧
    healthLoop "::bat_5::".toList 5 0 unknownHealth =
      some { battery := 5, rssi := -999, snr := -999 } :=
  ⟨by decide,
   ((healthLoop_terminates "::bat_5::".toList).1 2 0 unknownHealth (by decide)).1,
   ((healthLoop_terminates "::bat_5::".toList).1 2 0 unknownHealth (by decide)).2.1,
   by decide,
   (healthLoop_terminates "::bat_5::".toList).2.1 unknownHealth,
   by decide⟩

end Detectra
